import Mathlib

/-!
Verification of the LLM orchestration core of the quiz-me-app backend.

The definitions below are a shallow embedding of the Python sources:

* `backend/app/providers/base.py` (call input/output shapes, `LLMError`),
* `backend/app/providers/clients.py` (schema translators, provider records),
* `backend/app/providers/manager.py` (`LLMManager`: failover, JSON
  extraction, repair sub-call, `complete_text`, `complete_json_model`),
* `backend/app/telemetry.py` (`LLMTelemetryStore` aggregate snapshot).

Python strings are modelled as `List Char`, Python dicts as insertion-ordered
association lists, Python JSON values as the inductive `JValue`.  Floating
point costs are modelled as rationals; wall-clock fields (timestamps,
durations) are omitted since no verified property mentions them.  Fallible
Python code (raised exceptions) is modelled with `Except`.
-/

namespace QuizMe

/-- ASCII whitespace recognised by Python `str.strip()` / regex `\s`
(the sources only ever feed ASCII model output wrappers through it). -/
def isPySpace (c : Char) : Bool :=
  c = ' ' || c = '\t' || c = '\n' || c = '\r' || c = '\x0b' || c = '\x0c'

/-- Python `str.strip()`: drop leading and trailing whitespace. -/
def pyStrip (s : List Char) : List Char :=
  ((s.dropWhile isPySpace).reverse.dropWhile isPySpace).reverse

/-- Opening curly brace character. -/
def lbrace : Char := Char.ofNat 123

/-- Closing curly brace character. -/
def rbrace : Char := Char.ofNat 125

/-- Backtick character. -/
def btick : Char := Char.ofNat 96

/-- Three backticks, the literal fence delimiter of the regex in
`LLMManager._extract_json_text`. -/
def fence3 : List Char := [btick, btick, btick]

/-- Literal `json` tag, the optional group of the fence regex. -/
def jsonTag : List Char := ['j', 's', 'o', 'n']

/-- Whether `pat` occurs in `s` starting at index `i`. -/
def hasPrefixAt (s pat : List Char) (i : Nat) : Bool :=
  pat.isPrefixOf (s.drop i)

/-- Index just past the maximal whitespace run of `s` starting at `i`
(the unique way regex `\s*` can be consumed before a non-space literal). -/
def wsEnd (s : List Char) (i : Nat) : Nat :=
  i + ((s.drop i).takeWhile isPySpace).length

/-- Greedy closing position for the capture group `(\{.*\})` of the fence
regex: the largest index `m ≥ lo` holding a closing brace such that the
tail `\s*` followed by three backticks matches right after it.  Because a
backtick is not whitespace, the backtick run can only start exactly at the
end of the maximal whitespace run after `m`. -/
def fenceClose (s : List Char) (lo : Nat) : Option Nat :=
  ((List.range s.length).filter
    (fun m => decide (lo ≤ m) && (s.get? m == some rbrace)
      && hasPrefixAt s fence3 (wsEnd s (m + 1)))).max?

/-- Attempt to match `\s*(\{.*\})\s*` followed by three backticks, starting
at position `k` of `s`; returns the capture group on success. -/
def fenceTryFrom (s : List Char) (k : Nat) : Option (List Char) :=
  let k1 := wsEnd s k
  if s.get? k1 == some lbrace then
    match fenceClose s (k1 + 1) with
    | some m => some ((s.drop k1).take (m + 1 - k1))
    | none => none
  else none

/-- Match of the whole fence regex at starting position `i`: three
backticks, an optional greedy `json` tag, then `fenceTryFrom`. -/
def fenceMatchAt (s : List Char) (i : Nat) : Option (List Char) :=
  if hasPrefixAt s fence3 i then
    match (if hasPrefixAt s jsonTag (i + 3) then fenceTryFrom s (i + 3 + 4) else none) with
    | some r => some r
    | none => fenceTryFrom s (i + 3)
  else none

/-- Embedding of `re.search` for the fixed DOTALL pattern of
`LLMManager._extract_json_text`: leftmost starting position wins, and at a
given position alternatives are tried in backtracking priority order. -/
def fenceSearch (s : List Char) : Option (List Char) :=
  (List.range (s.length + 1)).findSome? (fenceMatchAt s)

/-- Python `str.find` for a single character (`none` models `-1`). -/
def pyFind (s : List Char) (c : Char) : Option Nat :=
  s.findIdx? (· == c)

/-- Python `str.rfind` for a single character (`none` models `-1`). -/
def pyRFind (s : List Char) (c : Char) : Option Nat :=
  match s.reverse.findIdx? (· == c) with
  | some i => some (s.length - 1 - i)
  | none => none

/-- Embedding of the `LLMError` exception of `providers/base.py`: a message
and an error category (defaulting to `server_error`). -/
structure LLMErr where
  message : String
  category : String := "server_error"
deriving DecidableEq, Repr

/-- Embedding of `LLMManager._extract_json_text` (manager.py lines 68-80).
Returns the extracted JSON text or the `invalid_json` classified error. -/
def extractJsonText (text : List Char) : Except LLMErr (List Char) :=
  let stripped := pyStrip text
  if stripped.head? == some lbrace && stripped.getLast? == some rbrace then
    .ok stripped
  else
    match fenceSearch stripped with
    | some g => .ok g
    | none =>
      match pyFind stripped lbrace, pyRFind stripped rbrace with
      | some f, some l =>
        if f < l then .ok ((stripped.drop f).take (l + 1 - f))
        else .error ⟨"Could not extract JSON object from model output", "invalid_json"⟩
      | _, _ => .error ⟨"Could not extract JSON object from model output", "invalid_json"⟩

/-- Python JSON values.  Objects are insertion-ordered association lists,
mirroring Python dicts; numbers are modelled as integers (the schema
translators never inspect numeric values). -/
inductive JValue where
  | null
  | bool (b : Bool)
  | num (n : Int)
  | str (s : String)
  | arr (items : List JValue)
  | obj (entries : List (String × JValue))

mutual

/-- Structural equality of JSON values (Python `==` on parsed JSON). -/
def JValue.beq : JValue → JValue → Bool
  | .null, .null => true
  | .bool a, .bool b => a == b
  | .num a, .num b => a == b
  | .str a, .str b => a == b
  | .arr a, .arr b => JValue.beqList a b
  | .obj a, .obj b => JValue.beqEntries a b
  | _, _ => false

/-- Structural equality on lists of JSON values. -/
def JValue.beqList : List JValue → List JValue → Bool
  | [], [] => true
  | a :: as1, b :: bs1 => JValue.beq a b && JValue.beqList as1 bs1
  | _, _ => false

/-- Structural equality on dict entry lists. -/
def JValue.beqEntries : List (String × JValue) → List (String × JValue) → Bool
  | [], [] => true
  | (k1, v1) :: r1, (k2, v2) :: r2 =>
    k1 == k2 && JValue.beq v1 v2 && JValue.beqEntries r1 r2
  | _, _ => false

end

instance : BEq JValue := ⟨JValue.beq⟩

/-- Escape of one character inside a JSON string literal, following
`json.dumps` for the ASCII range. -/
def jsonEscapeChar (c : Char) : String :=
  if c = '\\' then "\\\\"
  else if c = '\"' then "\\\""
  else if c = '\n' then "\\n"
  else if c = '\t' then "\\t"
  else if c = '\r' then "\\r"
  else if c = '\x08' then "\\b"
  else if c = '\x0c' then "\\f"
  else String.mk [c]

/-- Escape a whole string for `json.dumps`. -/
def jsonEscape (s : String) : String :=
  s.data.foldl (fun acc c => acc ++ jsonEscapeChar c) ""

mutual

/-- Embedding of `json.dumps` with its default separators, used by
`_repair_json` to serialize the target schema into the repair prompt. -/
def jsonDumps : JValue → String
  | .null => "null"
  | .bool true => "true"
  | .bool false => "false"
  | .num n => toString n
  | .str s => "\"" ++ jsonEscape s ++ "\""
  | .arr xs => "[" ++ jsonDumpsList xs ++ "]"
  | .obj es => "\x7b" ++ jsonDumpsEntries es ++ "\x7d"

/-- Serialization of array items, comma separated. -/
def jsonDumpsList : List JValue → String
  | [] => ""
  | [x] => jsonDumps x
  | x :: rest => jsonDumps x ++ ", " ++ jsonDumpsList rest

/-- Serialization of object entries, comma separated. -/
def jsonDumpsEntries : List (String × JValue) → String
  | [] => ""
  | [(k, v)] => "\"" ++ jsonEscape k ++ "\": " ++ jsonDumps v
  | (k, v) :: rest =>
    "\"" ++ jsonEscape k ++ "\": " ++ jsonDumps v ++ ", " ++ jsonDumpsEntries rest

end

/-- Python `d[k] = v` on an insertion-ordered dict: overwrite in place when
the key exists, append otherwise. -/
def setItem : List (String × JValue) → String → JValue → List (String × JValue)
  | [], k, v => [(k, v)]
  | (k0, v0) :: rest, k, v =>
    if k0 = k then (k0, v) :: rest else (k0, v0) :: setItem rest k v

/-- Python `d.setdefault(k, v)` restricted to its effect on the dict. -/
def setdefault (es : List (String × JValue)) (k : String) (v : JValue) :
    List (String × JValue) :=
  if (List.lookup k es).isSome then es else es ++ [(k, v)]

/-- Python `a.update(b)` on dicts. -/
def dictUpdate (a b : List (String × JValue)) : List (String × JValue) :=
  b.foldl (fun acc kv => setItem acc kv.1 kv.2) a

/-- Keys of a dict, in order (`properties.keys()`). -/
def dictKeys (es : List (String × JValue)) : List String :=
  es.map Prod.fst

mutual

/-- Well-formed JSON value: every object has duplicate-free keys, the way
any value built by Python dict literals or `json.loads` does. -/
def JValue.wfB : JValue → Bool
  | .obj es => decide ((es.map Prod.fst).Nodup) && JValue.wfEntries es
  | .arr xs => JValue.wfList xs
  | _ => true

/-- Well-formedness of dict entry values. -/
def JValue.wfEntries : List (String × JValue) → Bool
  | [] => true
  | (_, v) :: rest => JValue.wfB v && JValue.wfEntries rest

/-- Well-formedness of list items. -/
def JValue.wfList : List JValue → Bool
  | [] => true
  | v :: rest => JValue.wfB v && JValue.wfList rest

end

/-- Node-level post-processing step of `_to_openai_strict_schema.normalize`
(clients.py lines 83-93), applied to a dict whose values have already been
normalized: for a node of type "object" carrying a dict of properties, fill
in `additionalProperties = False` when absent and extend `required` with the
property keys it is missing (or create it). -/
def strictPost (es : List (String × JValue)) : List (String × JValue) :=
  if List.lookup "type" es == some (JValue.str "object") then
    match List.lookup "properties" es with
    | some (JValue.obj props) =>
      let es1 := setdefault es "additionalProperties" (JValue.bool false)
      match List.lookup "required" es1 with
      | some (JValue.arr req) =>
        let missing := (dictKeys props).filter (fun k => !req.contains (JValue.str k))
        if missing.isEmpty then es1
        else setItem es1 "required" (JValue.arr (req ++ missing.map JValue.str))
      | _ => setItem es1 "required" (JValue.arr ((dictKeys props).map JValue.str))
    | _ => es
  else es

mutual

/-- Recursive walk of `_to_openai_strict_schema.normalize` (clients.py
lines 79-98): normalize children first, then apply the object
post-processing; lists map the walk, scalars pass through. -/
def strictNorm : JValue → JValue
  | .obj es => .obj (strictPost (strictNormEntries es))
  | .arr xs => .arr (strictNormList xs)
  | .null => .null
  | .bool b => .bool b
  | .num n => .num n
  | .str s => .str s

/-- Walk of `normalize` over dict entries. -/
def strictNormEntries : List (String × JValue) → List (String × JValue)
  | [] => []
  | (k, v) :: rest => (k, strictNorm v) :: strictNormEntries rest

/-- Walk of `normalize` over list items. -/
def strictNormList : List JValue → List JValue
  | [] => []
  | v :: rest => strictNorm v :: strictNormList rest

end

/-- Embedding of `_to_openai_strict_schema` (clients.py lines 76-103):
normalize a deep copy of the schema; a non-dict result falls back to a
minimal closed object schema. -/
def toOpenaiStrictSchema (schema : JValue) : JValue :=
  match strictNorm schema with
  | .obj es => .obj es
  | _ => .obj [("type", .str "object"), ("additionalProperties", .bool false)]

/-- Definitions table collected by `_to_gemini_schema` (clients.py lines
108-113): the root's `$defs` then `definitions` dicts, merged in order. -/
def geminiDefs (root : JValue) : List (String × JValue) :=
  match root with
  | .obj es =>
    let d1 := match List.lookup "$defs" es with
      | some (.obj d) => d
      | _ => []
    let d2 := match List.lookup "definitions" es with
      | some (.obj d) => d
      | _ => []
    dictUpdate d1 d2
  | _ => []

/-- Embedding of `resolve_ref` (clients.py lines 115-120). -/
def resolveRef (defs : List (String × JValue)) (ref : String) : Option JValue :=
  if ("#/$defs/").data.isPrefixOf ref.data then
    List.lookup (String.mk (ref.data.drop 8)) defs
  else if ("#/definitions/").data.isPrefixOf ref.data then
    List.lookup (String.mk (ref.data.drop 14)) defs
  else none

/-- Whether a JSON value is a dict whose `type` equals `"null"`
(the null-branch test of the `anyOf` collapse, clients.py line 140). -/
def isNullTypeNode : JValue → Bool
  | .obj es => List.lookup "type" es == some (JValue.str "null")
  | _ => false

/-- Metadata keys stripped by `_to_gemini_schema` (clients.py lines
156-169). -/
def geminiStripKeys : List String :=
  ["$defs", "definitions", "$schema", "$id", "$anchor", "$ref",
   "title", "examples", "example", "default", "const", "discriminator"]

/-- Keys allowed to accompany a collapsible `anyOf` node (clients.py line
145). -/
def geminiPassthroughKeys : List String :=
  ["anyOf", "title", "description", "default", "examples", "example"]

/-- ASCII lowercase test (`a` is 97, `z` is 122). -/
def isLowerCh (c : Char) : Bool :=
  97 ≤ c.toNat && c.toNat ≤ 122

/-- Per-character ASCII uppercasing, as Python `str.upper()` acts on the
ASCII schema type names (`"object"`, `"string"`, ...) that reach it. -/
def pyUpperChar (c : Char) : Char :=
  if 97 ≤ c.toNat && c.toNat ≤ 122 then Char.ofNat (c.toNat - 32) else c

/-- `value.upper()` (clients.py line 174) on ASCII strings. -/
def pyUpper (s : String) : String :=
  String.mk (s.data.map pyUpperChar)

/-- Key-stripping and conversion loop over the entries of a dict node
(clients.py lines 154-189); `g` is the conversion applied to children one
depth level deeper. -/
def gEntries (g : JValue → JValue) : List (String × JValue) → List (String × JValue)
  | [] => []
  | (k, v) :: rest =>
    if geminiStripKeys.contains k then gEntries g rest
    else if k = "type" then
      match v with
      | .str s =>
        if s = "null" then gEntries g rest
        else (k, JValue.str (pyUpper s)) :: gEntries g rest
      | _ => (k, g v) :: gEntries g rest
    else if k = "properties" then
      match v with
      | .obj ps => (k, JValue.obj (ps.map (fun kv => (kv.1, g kv.2)))) :: gEntries g rest
      | _ => (k, g v) :: gEntries g rest
    else if k = "items" || k = "additionalProperties" then
      (k, g v) :: gEntries g rest
    else if k = "anyOf" || k = "oneOf" || k = "allOf" then
      match v with
      | .arr its => (k, JValue.arr (its.map g)) :: gEntries g rest
      | _ => (k, g v) :: gEntries g rest
    else (k, g v) :: gEntries g rest

/-- Nullable collapse of a two-branch `anyOf` (clients.py lines 136-152):
when a null branch accompanies exactly one non-null branch and every key of
the node is a passthrough key, convert the non-null branch, mark it
`nullable`, and copy a `description` the branch lacks. -/
def gCollapse (g : JValue → JValue) (es : List (String × JValue)) : Option JValue :=
  match List.lookup "anyOf" es with
  | some (.arr items) =>
    let nonNull := items.filter (fun it => !isNullTypeNode it)
    if items.any isNullTypeNode
        && es.all (fun kv => geminiPassthroughKeys.contains kv.1) then
      match nonNull with
      | [t] =>
        match g t with
        | .obj bes =>
          let bes1 := setItem bes "nullable" (JValue.bool true)
          match List.lookup "description" es, List.lookup "description" bes with
          | some d, none => some (.obj (setItem bes1 "description" d))
          | _, _ => some (.obj bes1)
        | _ => none
      | _ => none
    else none
  | _ => none

/-- Embedding of `convert` inside `_to_gemini_schema` (clients.py lines
122-193).  The fuel argument models the depth guard: a node at Python depth
`d` is converted with fuel `81 - d`, so fuel `0` reproduces the
`depth > 80` early return of the node unchanged. -/
def gConvert (defs : List (String × JValue)) : Nat → JValue → JValue
  | 0, node => node
  | f + 1, .obj es =>
    (match List.lookup "$ref" es with
      | some (.str ref) =>
        match resolveRef defs ref with
        | some (.obj target) =>
          some (gConvert defs f
            (.obj (dictUpdate target (es.filter (fun kv => kv.1 ≠ "$ref")))))
        | _ => none
      | _ => none).getD
    ((gCollapse (gConvert defs f) es).getD (.obj (gEntries (gConvert defs f) es)))
  | f + 1, .arr xs => .arr (xs.map (gConvert defs f))
  | _ + 1, node => node

/-- Embedding of `_to_gemini_schema` (clients.py lines 106-198): collect the
root definitions, convert from depth `0`, and fall back to a minimal
`OBJECT` schema when the result is not a dict. -/
def toGeminiSchema (schema : JValue) : JValue :=
  match gConvert (geminiDefs schema) 81 schema with
  | .obj es => .obj es
  | _ => .obj [("type", .str "OBJECT")]

/-- Duplicate-freeness of a list of JSON values, decided through structural
equality (used to state the `required`-no-duplicates parts of the spec). -/
def jnodupB : List JValue → Bool
  | [] => true
  | x :: rest => !rest.contains x && jnodupB rest

mutual

/-- Whether some object node anywhere in the value carries the key `k`. -/
def hasKeyB (k : String) : JValue → Bool
  | .obj es => es.any (fun kv => kv.1 = k) || hasKeyEntriesB k es
  | .arr xs => hasKeyListB k xs
  | _ => false

/-- Key search inside dict entry values. -/
def hasKeyEntriesB (k : String) : List (String × JValue) → Bool
  | [] => false
  | (_, v) :: rest => hasKeyB k v || hasKeyEntriesB k rest

/-- Key search inside list items. -/
def hasKeyListB (k : String) : List JValue → Bool
  | [] => false
  | v :: rest => hasKeyB k v || hasKeyListB k rest

end

mutual

/-- Whether some object node anywhere carries a `type` entry whose value is
a string containing a lowercase letter. -/
def hasLowerTypeB : JValue → Bool
  | .obj es =>
    es.any (fun kv =>
      kv.1 = "type" &&
        (match kv.2 with
          | .str s => s.data.any isLowerCh
          | _ => false)) || hasLowerTypeEntriesB es
  | .arr xs => hasLowerTypeListB xs
  | _ => false

/-- Lowercase-`type` search inside dict entry values. -/
def hasLowerTypeEntriesB : List (String × JValue) → Bool
  | [] => false
  | (_, v) :: rest => hasLowerTypeB v || hasLowerTypeEntriesB rest

/-- Lowercase-`type` search inside list items. -/
def hasLowerTypeListB : List JValue → Bool
  | [] => false
  | v :: rest => hasLowerTypeB v || hasLowerTypeListB rest

end

/-- Local strict-object property claimed by the spec for one object node:
`additionalProperties` equals `false` and `required` lists every property
key with no duplicates. -/
def strictClaimNodeB (es : List (String × JValue)) : Bool :=
  (List.lookup "additionalProperties" es == some (JValue.bool false)) &&
    (match List.lookup "required" es with
      | some (.arr rs) =>
        (match List.lookup "properties" es with
          | some (.obj ps) => (dictKeys ps).all (fun k => rs.contains (JValue.str k))
          | _ => true) && jnodupB rs
      | _ => false)

mutual

/-- Spec property of a strict-object translation output: every object node
with a non-empty `properties` map satisfies the local strict-object
property. -/
def strictClaimB : JValue → Bool
  | .obj es =>
    ((match List.lookup "type" es, List.lookup "properties" es with
      | some (.str "object"), some (.obj (_ :: _)) => strictClaimNodeB es
      | _, _ => true)) && strictClaimEntriesB es
  | .arr xs => strictClaimListB xs
  | _ => true

/-- Strict-object spec property inside dict entry values. -/
def strictClaimEntriesB : List (String × JValue) → Bool
  | [] => true
  | (_, v) :: rest => strictClaimB v && strictClaimEntriesB rest

/-- Strict-object spec property inside list items. -/
def strictClaimListB : List JValue → Bool
  | [] => true
  | v :: rest => strictClaimB v && strictClaimListB rest

end

/-- Amended local strict-object property provable of the translator output:
an `additionalProperties` entry is present (the code only fills in `false`
when the key is absent) and `required` lists every property key, with no
duplicates. -/
def strictOutNodeB (es : List (String × JValue)) : Bool :=
  (List.lookup "additionalProperties" es).isSome &&
    (match List.lookup "required" es with
      | some (.arr rs) =>
        (match List.lookup "properties" es with
          | some (.obj ps) => (dictKeys ps).all (fun k => rs.contains (JValue.str k))
          | _ => true) && jnodupB rs
      | _ => false)

mutual

/-- Amended strict-object property over a whole output value. -/
def strictOutB : JValue → Bool
  | .obj es =>
    ((match List.lookup "type" es, List.lookup "properties" es with
      | some (.str "object"), some (.obj (_ :: _)) => strictOutNodeB es
      | _, _ => true)) && strictOutEntriesB es
  | .arr xs => strictOutListB xs
  | _ => true

/-- Amended strict-object property inside dict entry values. -/
def strictOutEntriesB : List (String × JValue) → Bool
  | [] => true
  | (_, v) :: rest => strictOutB v && strictOutEntriesB rest

/-- Amended strict-object property inside list items. -/
def strictOutListB : List JValue → Bool
  | [] => true
  | v :: rest => strictOutB v && strictOutListB rest

end

mutual

/-- Input-side hypothesis for the amended strict-object claim: every
`required` entry that holds a list holds a duplicate-free list of strings
(non-string entries can normalize to equal values, so they could introduce
duplicates downstream). -/
def goodReqB : JValue → Bool
  | .obj es =>
    es.all (fun kv =>
      (match kv.1, kv.2 with
        | "required", .arr rs =>
          jnodupB rs && rs.all (fun x => match x with | .str _ => true | _ => false)
        | _, _ => true)) && goodReqEntriesB es
  | .arr xs => goodReqListB xs
  | _ => true

/-- Required-list hypothesis inside dict entry values. -/
def goodReqEntriesB : List (String × JValue) → Bool
  | [] => true
  | (_, v) :: rest => goodReqB v && goodReqEntriesB rest

/-- Required-list hypothesis inside list items. -/
def goodReqListB : List JValue → Bool
  | [] => true
  | v :: rest => goodReqB v && goodReqListB rest

end

/-- Spec-side cleanliness of a Gemini-shaped output: no object node carries
a `$defs` or `$ref` key, and no `type` entry holds a string with a
lowercase letter. -/
def gCleanEntryB (kv : String × JValue) : Bool :=
  kv.1 != "$defs" && kv.1 != "$ref" &&
    (kv.1 != "type" ||
      (match kv.2 with
        | .str s => !s.data.any isLowerCh
        | _ => true))

mutual

/-- Gemini-output cleanliness over a whole value. -/
def gCleanB : JValue → Bool
  | .obj es => es.all gCleanEntryB && gCleanEntriesB es
  | .arr xs => gCleanListB xs
  | _ => true

/-- Cleanliness inside dict entry values. -/
def gCleanEntriesB : List (String × JValue) → Bool
  | [] => true
  | (_, v) :: rest => gCleanB v && gCleanEntriesB rest

/-- Cleanliness inside list items. -/
def gCleanListB : List JValue → Bool
  | [] => true
  | v :: rest => gCleanB v && gCleanListB rest

end

/-- Input-side hypothesis for the amended Gemini-translation claim, local
part: `description` entries hold strings, and property names never collide
with the `$defs`/`$ref` metadata keys nor pair a property literally named
`type` with a bare string value (such inner entries survive verbatim
because the `properties` branch copies inner keys and scalar values). -/
def gGoodEntryB (kv : String × JValue) : Bool :=
  (kv.1 != "description" || (match kv.2 with | .str _ => true | _ => false)) &&
    (kv.1 != "properties" ||
      (match kv.2 with
        | .obj ps => ps.all (fun p => p.1 != "$defs" && p.1 != "$ref" &&
            (p.1 != "type" || (match p.2 with | .str _ => false | _ => true)))
        | _ => true))

mutual

/-- Input-side hypothesis for the amended Gemini-translation claim. -/
def gGoodB : JValue → Bool
  | .obj es => es.all gGoodEntryB && gGoodEntriesB es
  | .arr xs => gGoodListB xs
  | _ => true

/-- Goodness inside dict entry values. -/
def gGoodEntriesB : List (String × JValue) → Bool
  | [] => true
  | (_, v) :: rest => gGoodB v && gGoodEntriesB rest

/-- Goodness inside list items. -/
def gGoodListB : List JValue → Bool
  | [] => true
  | v :: rest => gGoodB v && gGoodListB rest

end

/-- Child conversions performed by `gEntries`, checked by a predicate `okf`
on the children converted one level deeper. -/
def gFuelOkEntries (okf : JValue → Bool) : List (String × JValue) → Bool
  | [] => true
  | (k, v) :: rest =>
    (if geminiStripKeys.contains k then true
      else if k = "type" then
        (match v with | .str _ => true | _ => okf v)
      else if k = "properties" then
        (match v with | .obj ps => ps.all (fun kv => okf kv.2) | _ => okf v)
      else if k = "items" || k = "additionalProperties" then okf v
      else if k = "anyOf" || k = "oneOf" || k = "allOf" then
        (match v with | .arr its => its.all okf | _ => okf v)
      else okf v) && gFuelOkEntries okf rest

/-- Child conversions performed on a dict node without an inlinable `$ref`:
either the nullable collapse runs (converting the single non-null branch,
and falling back to the entry loop when that conversion is not a dict), or
the entry loop runs. -/
def gFuelOkDict (okf : JValue → Bool) (conv : JValue → JValue)
    (es : List (String × JValue)) : Bool :=
  match List.lookup "anyOf" es with
  | some (.arr items) =>
    let nonNull := items.filter (fun it => !isNullTypeNode it)
    if items.any isNullTypeNode
        && es.all (fun kv => geminiPassthroughKeys.contains kv.1) then
      match nonNull with
      | [t] =>
        okf t &&
          (match conv t with
            | .obj _ => true
            | _ => gFuelOkEntries okf es)
      | _ => gFuelOkEntries okf es
    else gFuelOkEntries okf es
  | _ => gFuelOkEntries okf es

/-- Whether `gConvert` completes within the given fuel without ever
reaching the depth cutoff (fuel `0`), mirroring its call structure. -/
def gFuelOk (defs : List (String × JValue)) : Nat → JValue → Bool
  | 0, _ => false
  | f + 1, .obj es =>
    (match List.lookup "$ref" es with
      | some (.str ref) =>
        match resolveRef defs ref with
        | some (.obj target) =>
          some (gFuelOk defs f
            (.obj (dictUpdate target (es.filter (fun kv => kv.1 ≠ "$ref")))))
        | _ => none
      | _ => none).getD
    (gFuelOkDict (gFuelOk defs f) (gConvert defs f) es)
  | f + 1, .arr xs => xs.all (gFuelOk defs f)
  | _ + 1, _ => true

/-- Aggregate counter bucket of the telemetry snapshot
(`_empty_metric_bucket`, telemetry.py lines 23-24).  Costs are modelled as
rationals; the float rounding of `_add_cost` is elided since no verified
property mentions costs. -/
structure MetricBucket where
  attempts : Nat
  success : Nat
  error : Nat
  cost : ℚ

/-- Fresh all-zero bucket. -/
def emptyBucket : MetricBucket := ⟨0, 0, 0, 0⟩

/-- Embedding of `_bump_metric` (telemetry.py lines 99-102): increment
`attempts`, increment the outcome counter, add the cost.  An outcome other
than `success`/`error` would create a separate dict key in Python, which no
counter tracked here observes. -/
def bumpMetric (b : MetricBucket) (outcome : String) (cost : Option ℚ) : MetricBucket :=
  let b1 : MetricBucket := ⟨b.attempts + 1, b.success, b.error, b.cost⟩
  let b2 : MetricBucket :=
    if outcome = "success" then ⟨b1.attempts, b1.success + 1, b1.error, b1.cost⟩
    else if outcome = "error" then ⟨b1.attempts, b1.success, b1.error + 1, b1.cost⟩
    else b1
  match cost with
  | some c => ⟨b2.attempts, b2.success, b2.error, b2.cost + c⟩
  | none => b2

/-- Keyed bucket update: `_metric_bucket` (setdefault of an empty bucket)
followed by `_bump_metric` on the selected entry. -/
def bumpIn : List (String × MetricBucket) → String → String → Option ℚ →
    List (String × MetricBucket)
  | [], key, oc, c => [(key, bumpMetric emptyBucket oc c)]
  | (k, b) :: rest, key, oc, c =>
    if k = key then (k, bumpMetric b oc c) :: rest
    else (k, b) :: bumpIn rest key oc c

/-- Nested provider-task bucket update (telemetry.py lines 135-138). -/
def bumpPT : List (String × List (String × MetricBucket)) → String → String →
    String → Option ℚ → List (String × List (String × MetricBucket))
  | [], prov, task, oc, c => [(prov, bumpIn [] task oc c)]
  | (k, m) :: rest, prov, task, oc, c =>
    if k = prov then (k, bumpIn m task oc c) :: rest
    else (k, m) :: bumpPT rest prov task oc c

/-- One period section of the counters snapshot
(`_empty_period_snapshot`, telemetry.py lines 27-35). -/
structure PeriodSnapshot where
  totals : MetricBucket
  providers : List (String × MetricBucket)
  models : List (String × MetricBucket)
  tasks : List (String × MetricBucket)
  categories : List (String × MetricBucket)
  provider_task : List (String × List (String × MetricBucket))

/-- Fresh empty period section. -/
def emptyPeriod : PeriodSnapshot := ⟨emptyBucket, [], [], [], [], []⟩

/-- One telemetry event as fed to `_bump_snapshot`: the attempt data
recorded by `record_attempt` (telemetry.py lines 140-175).  Timestamps and
durations are wall-clock data and are omitted; the month key, which Python
derives from the wall clock, is carried as event data. -/
structure TelemetryEvent where
  operation : String
  task : String
  provider : String
  model : String
  attempt : Nat
  outcome : String
  category : String
  errorMessage : Option String
  cost : Option ℚ
  month : String

/-- Embedding of `_bump_snapshot` (telemetry.py lines 104-138): bump the
totals and the per-provider, per-model, per-task, per-category and
provider-task buckets; a falsy category is replaced by `"unknown"`. -/
def bumpSnapshot (s : PeriodSnapshot) (e : TelemetryEvent) : PeriodSnapshot :=
  let category := if e.category = "" then "unknown" else e.category
  ⟨bumpMetric s.totals e.outcome e.cost,
    bumpIn s.providers e.provider e.outcome e.cost,
    bumpIn s.models e.model e.outcome e.cost,
    bumpIn s.tasks e.task e.outcome e.cost,
    bumpIn s.categories category e.outcome e.cost,
    bumpPT s.provider_task e.provider e.task e.outcome e.cost⟩

/-- Full counters snapshot: the all-time section plus the monthly sections
(`_empty_counter_snapshot`; the `meta` timestamps are wall-clock data and
are omitted). -/
structure CounterSnapshot where
  allTime : PeriodSnapshot
  monthly : List (String × PeriodSnapshot)

/-- Monthly-section update of `record_attempt` (telemetry.py lines
185-187): setdefault of an empty period section, then `_bump_snapshot`. -/
def bumpMonthly : List (String × PeriodSnapshot) → TelemetryEvent →
    List (String × PeriodSnapshot)
  | [], e => [(e.month, bumpSnapshot emptyPeriod e)]
  | (m, p) :: rest, e =>
    if m = e.month then (m, bumpSnapshot p e) :: rest
    else (m, p) :: bumpMonthly rest e

/-- Counter effect of one `record_attempt` call (telemetry.py lines
177-195): bump the all-time section and the event's monthly section. -/
def recordEvent (s : CounterSnapshot) (e : TelemetryEvent) : CounterSnapshot :=
  ⟨bumpSnapshot s.allTime e, bumpMonthly s.monthly e⟩

/-- Counters snapshot after a sequence of recorded events, starting from
the fresh snapshot `_ensure_files` writes. -/
def snapshotAfter (events : List TelemetryEvent) : CounterSnapshot :=
  events.foldl recordEvent ⟨emptyPeriod, []⟩

/-- The claimed counter invariant of one bucket:
`attempts = success + error`. -/
def bucketInvB (b : MetricBucket) : Bool :=
  b.attempts == b.success + b.error

/-- The counter invariant at every aggregation level of one period
section. -/
def periodInvB (p : PeriodSnapshot) : Bool :=
  bucketInvB p.totals && p.providers.all (fun kv => bucketInvB kv.2)
    && p.models.all (fun kv => bucketInvB kv.2)
    && p.tasks.all (fun kv => bucketInvB kv.2)
    && p.categories.all (fun kv => bucketInvB kv.2)
    && p.provider_task.all (fun kv => kv.2.all (fun kv2 => bucketInvB kv2.2))

/-- The counter invariant over the whole snapshot: the all-time section and
every monthly section. -/
def snapshotInvB (s : CounterSnapshot) : Bool :=
  periodInvB s.allTime && s.monthly.all (fun kv => periodInvB kv.2)

/-- Field names of the `LLMCallInput` dataclass as declared in
`providers/base.py` lines 13-19.  Note the absence of
`max_output_tokens`. -/
def llmCallInputFields : List String :=
  ["task", "model", "system_prompt", "user_prompt", "json_schema"]

/-- Unclassified Python exceptions that can escape the manager: the
`TypeError` of a bad dataclass keyword, the `KeyError` of a missing dict
key, or any other exception normalized only by message. -/
inductive PyErr where
  | typeError (message : String)
  | keyError (key : String)
  | otherExn (message : String)
deriving DecidableEq, Repr

/-- Message text of an unclassified exception. -/
def pyErrMsg : PyErr → String
  | .typeError m => m
  | .keyError k => k
  | .otherExn m => m

/-- Python dataclass keyword construction: `LLMCallInput(**kwargs)`
succeeds iff every keyword names a declared field, and otherwise raises
`TypeError` for the first unexpected keyword. -/
def constructCallInput (kwargs : List String) : Except PyErr Unit :=
  match kwargs.find? (fun k => !llmCallInputFields.contains k) with
  | some k => .error (.typeError ("got an unexpected keyword argument " ++ k))
  | none => .ok ()

/-- Keyword list of the `LLMCallInput(...)` construction inside
`complete_text` (manager.py lines 204-209). -/
def textCallKwargs : List String :=
  ["task", "model", "system_prompt", "user_prompt"]

/-- Keyword list of the `LLMCallInput(...)` construction inside
`complete_json_model` (manager.py lines 290-297). -/
def jsonCallKwargs : List String :=
  ["task", "model", "system_prompt", "user_prompt", "json_schema", "max_output_tokens"]

/-- Keyword list of the `LLMCallInput(...)` construction inside
`_repair_json` (manager.py lines 141-147). -/
def repairCallKwargs : List String :=
  ["task", "model", "system_prompt", "user_prompt", "max_output_tokens"]

/-- Embedding of `_max_output_tokens` (manager.py lines 96-102). -/
def maxOutputTokens (providerName task : String) : Option Int :=
  if providerName ≠ "perplexity" then none
  else if ("quiz_generation").data.isPrefixOf task.data then some 8000
  else none

/-- Embedding of `_extra_invalid_json_retry_limit` (manager.py lines
90-94). -/
def extraInvalidJsonRetryLimit (providerName task : String) : Nat :=
  if providerName = "perplexity" && task = "quiz_generation" then 1 else 0

/-- Embedding of `_prompt_with_truncation_guard` (manager.py lines
82-88). -/
def promptWithTruncationGuard (userPrompt : String) : String :=
  userPrompt
    ++ "\n\nCRITICAL: Return one COMPLETE JSON object with all required fields and all 15 questions. "
    ++ "Do not truncate. Ensure all arrays/objects are fully closed."

/-- Configuration fields of `Settings` (config.py) consumed by the manager.
`taskModel` stands for `get_task_model`, whose value is environment-driven
data. -/
structure Settings where
  llm_provider_order : List String
  llm_max_retries_per_provider : Int
  llm_failover_on : List String
  openai_api_key : String
  perplexity_api_key : String
  gemini_api_key : String
  taskModel : String → String → String

/-- Copy of a settings record with a replaced provider order. -/
def Settings.withOrder (st : Settings) (o : List String) : Settings :=
  ⟨o, st.llm_max_retries_per_provider, st.llm_failover_on, st.openai_api_key,
    st.perplexity_api_key, st.gemini_api_key, st.taskModel⟩

/-- Provider record as held in `LLMManager.providers`: the fields that
drive manager behavior (name and configuration); base URLs, timeouts and
capability flags only matter inside the HTTP calls, which are abstracted by
`Behavior`. -/
structure ProviderRec where
  name : String
  api_key : String

/-- Embedding of `is_configured` (clients.py lines 209-210 and 288-289):
`bool(self.api_key)`. -/
def ProviderRec.isConfigured (p : ProviderRec) : Bool :=
  p.api_key ≠ ""

/-- The provider map built in `LLMManager.__init__` (manager.py lines
34-55): exactly the keys `openai`, `perplexity`, `gemini`. -/
def providersMap (st : Settings) : List (String × ProviderRec) :=
  [("openai", ⟨"openai", st.openai_api_key⟩),
    ("perplexity", ⟨"perplexity", st.perplexity_api_key⟩),
    ("gemini", ⟨"gemini", st.gemini_api_key⟩)]

/-- Embedding of `_should_failover` (manager.py lines 57-59). -/
def shouldFailover (st : Settings) (category : String) : Bool :=
  st.llm_failover_on.contains "all" || st.llm_failover_on.contains category

/-- Embedding of `any_provider_configured` (manager.py lines 61-66): a
`dict.get` lookup, so an unknown name is skipped rather than raising. -/
def anyProviderConfigured (st : Settings) : Bool :=
  st.llm_provider_order.any fun n =>
    match List.lookup n (providersMap st) with
    | some p => p.isConfigured
    | none => false

/-- Outcome of one `provider.generate_text` call: normalized text plus
optional cost, a classified `LLMError`, or any other exception.  The
behavior of the provider clients (HTTP calls) is abstracted as a function
of the call data. -/
inductive GenOutcome where
  | ok (text : String) (cost : Option ℚ)
  | llmError (message : String) (category : String)
  | exn (message : String)

/-- Abstract provider behavior: what `generate_text` does for a given
provider name, task, 1-based attempt number, system prompt and user
prompt. -/
def Behavior : Type := String → String → Nat → String → String → GenOutcome

/-- Classified or unclassified failure escaping a manager operation. -/
inductive MgrErr where
  | llm (e : LLMErr)
  | py (e : PyErr)
deriving DecidableEq, Repr

/-- Manager-side telemetry event: the arguments of one
`measure_and_record` call minus the wall-clock duration. -/
structure CallEvent where
  operation : String
  task : String
  provider : String
  model : String
  attempt : Nat
  outcome : String
  category : String
  errorMessage : Option String
  cost : Option ℚ
deriving DecidableEq, Repr

/-- The attempt budget `attempts = max(0, llm_max_retries_per_provider)`
(manager.py line 198). -/
def attemptsBudget (st : Settings) : Nat :=
  (max 0 st.llm_max_retries_per_provider).toNat

/-- Outcome of one generation attempt including the `LLMCallInput`
construction, which happens inside the `try` block: a bad keyword list
surfaces as a generic exception rather than reaching the provider. -/
def attemptOutcome (beh : Behavior) (kwargs : List String)
    (provName task : String) (num : Nat) (sys usr : String) : GenOutcome :=
  match constructCallInput kwargs with
  | .error e => .exn (pyErrMsg e)
  | .ok _ => beh provName task num sys usr

/-- String-level wrapper of `_extract_json_text`. -/
def extractJsonTextS (s : String) : Except LLMErr String :=
  (extractJsonText s.data).map String.mk

/-- Attempt loop of `complete_text` for one provider (manager.py lines
199-255): run up to `remaining` attempts numbered from `num`; `none` means
the budget is exhausted and the caller moves to the next provider. -/
def runTextAttempts (st : Settings) (beh : Behavior)
    (task sys usr provName model : String) :
    Nat → Nat → List String → List CallEvent →
    Option (Except MgrErr (String × String)) × List String × List CallEvent
  | 0, _, errors, events => (none, errors, events)
  | remaining + 1, num, errors, events =>
    match attemptOutcome beh textCallKwargs provName task num sys usr with
    | .ok text cost =>
      (some (.ok (provName, text)), errors,
        events ++ [⟨"complete_text", task, provName, model, num, "success", "success", none, cost⟩])
    | .llmError msg cat =>
      let events1 := events
        ++ [⟨"complete_text", task, provName, model, num, "error", cat, some msg, none⟩]
      let errors1 := errors ++ [provName ++ ": " ++ msg]
      if !shouldFailover st cat then
        (some (.error (.llm ⟨msg, cat⟩)), errors1, events1)
      else runTextAttempts st beh task sys usr provName model remaining (num + 1) errors1 events1
    | .exn msg =>
      let events1 := events
        ++ [⟨"complete_text", task, provName, model, num, "error", "server_error", some msg, none⟩]
      let errors1 := errors ++ [provName ++ ": unexpected error " ++ msg]
      if !shouldFailover st "server_error" then
        (some (.error (.llm ⟨"Unexpected provider error: " ++ msg, "server_error"⟩)), errors1, events1)
      else runTextAttempts st beh task sys usr provName model remaining (num + 1) errors1 events1

/-- Provider loop of `complete_text` (manager.py lines 188-260): index the
provider map directly (a `KeyError` escapes unclassified), skip
unconfigured providers, run the attempt loop, and on exhaustion raise the
aggregate `server_error`. -/
def completeTextLoop (st : Settings) (beh : Behavior) (task sys usr : String) :
    List String → List String → List CallEvent →
    Except MgrErr (String × String) × List CallEvent
  | [], errors, events =>
    (.error (.llm ⟨"All providers failed for text completion. "
      ++ String.intercalate " | " errors, "server_error"⟩), events)
  | name :: rest, errors, events =>
    match List.lookup name (providersMap st) with
    | none => (.error (.py (.keyError name)), events)
    | some prov =>
      if !prov.isConfigured then
        completeTextLoop st beh task sys usr rest (errors ++ [name ++ ": not configured"]) events
      else
        let model := st.taskModel name task
        match runTextAttempts st beh task sys usr name model (attemptsBudget st + 1) 1 errors events with
        | (some res, _, events1) => (res, events1)
        | (none, errors1, events1) => completeTextLoop st beh task sys usr rest errors1 events1

/-- Embedding of `complete_text` (manager.py lines 188-260), returning the
result together with the telemetry events it reported. -/
def completeText (st : Settings) (beh : Behavior) (task sys usr : String) :
    Except MgrErr (String × String) × List CallEvent :=
  completeTextLoop st beh task sys usr st.llm_provider_order [] []

/-- The constant repair system prompt of `_repair_json` (manager.py lines
114-118). -/
def repairSystemPrompt : String :=
  "You are a deterministic JSON repair engine. "
    ++ "Return exactly one valid JSON object. "
    ++ "No markdown, no comments, no code fences, no extra text."

/-- Python truthiness of a JSON value (`if json_schema:` and
`if validation_error:` skip falsy values). -/
def jvTruthy : JValue → Bool
  | .null => false
  | .bool b => b
  | .num n => n != 0
  | .str s => s != ""
  | .arr xs => !xs.isEmpty
  | .obj es => !es.isEmpty

/-- The repair user prompt of `_repair_json` (manager.py lines 119-136):
fixed instructions, optional truncated validation error and schema dump,
and the truncated broken payload, joined by blank lines. -/
def repairUserPrompt (jsonSchema : Option JValue) (validationError : Option String)
    (broken : String) : String :=
  let base := ["Fix the payload so it parses as valid JSON and matches the target constraints.",
    "Preserve original semantic meaning as much as possible.",
    "Use proper JSON types: booleans true/false, numbers unquoted, strings quoted.",
    "Return only the corrected JSON object and nothing else."]
  let s1 := match validationError with
    | some ve => if ve != "" then base ++ ["Validation error details:\n" ++ ve.take 4000] else base
    | none => base
  let s2 := match jsonSchema with
    | some js => if jvTruthy js then s1 ++ ["Target JSON schema:\n" ++ (jsonDumps js).take 12000] else s1
    | none => s1
  String.intercalate "\n\n" (s2 ++ ["Broken payload:\n" ++ broken.take 24000])

/-- Embedding of `_repair_json` (manager.py lines 104-186): one repair
generation call on the same provider and model under the task
`<task>_repair`, recorded in telemetry as operation `repair_json`; its own
failure propagates (re-raised) rather than being repaired. -/
def repairJson (st : Settings) (beh : Behavior)
    (provName task model broken : String) (jsonSchema : Option JValue)
    (validationError : Option String) : Except MgrErr String × List CallEvent :=
  match List.lookup provName (providersMap st) with
  | none => (.error (.py (.keyError provName)), [])
  | some _ =>
    let rtask := task ++ "_repair"
    let rusr := repairUserPrompt jsonSchema validationError broken
    match attemptOutcome beh repairCallKwargs provName rtask 1 repairSystemPrompt rusr with
    | .ok text cost =>
      (.ok text, [⟨"repair_json", rtask, provName, model, 1, "success", "success", none, cost⟩])
    | .llmError msg cat =>
      (.error (.llm ⟨msg, cat⟩),
        [⟨"repair_json", rtask, provName, model, 1, "error", cat, some msg, none⟩])
    | .exn msg =>
      (.error (.py (.otherExn msg)),
        [⟨"repair_json", rtask, provName, model, 1, "error", "server_error", some msg, none⟩])

/-- Telemetry event of a successful `complete_json_model` attempt. -/
def jsonSuccessEvent (task provName model : String) (num : Nat) (cost : Option ℚ) : CallEvent :=
  ⟨"complete_json_model", task, provName, model, num, "success", "success", none, cost⟩

/-- Telemetry event of a failed `complete_json_model` attempt. -/
def jsonErrorEvent (task provName model : String) (num : Nat) (cat msg : String) : CallEvent :=
  ⟨"complete_json_model", task, provName, model, num, "error", cat, some msg, none⟩

/-- Attempt loop of `complete_json_model` for one provider (manager.py
lines 282-416): generation, JSON extraction and validation, the repair
sub-call on malformed output, and the three outer exception handlers.
`attempts` is the base budget (for the truncation-guard prompt condition),
`remaining` the attempts left including the current one, and `num` the
1-based attempt number. -/
def runJsonAttempts (st : Settings) (beh : Behavior)
    (validate : String → Except String Unit) (jsonSchema : JValue)
    (task sys usr provName model : String) (attempts : Nat) :
    Nat → Nat → List String → List CallEvent →
    Option (Except MgrErr (String × String)) × List String × List CallEvent
  | 0, _, errors, events => (none, errors, events)
  | remaining + 1, num, errors, events =>
    let prompt := if num > attempts + 1 then promptWithTruncationGuard usr else usr
    match attemptOutcome beh jsonCallKwargs provName task num sys prompt with
    | .ok raw cost =>
      (match extractJsonTextS raw with
        | .ok extracted =>
          match validate extracted with
          | .ok _ =>
            (some (.ok (extracted, provName)), errors,
              events ++ [jsonSuccessEvent task provName model num cost])
          | .error vmsg =>
            -- repair path from the inner `except ValidationError` arm
            (match repairJson st beh provName task model raw (some jsonSchema) (some vmsg) with
              | (.ok repaired, revents) =>
                (match extractJsonTextS repaired with
                  | .ok ex2 =>
                    match validate ex2 with
                    | .ok _ =>
                      (some (.ok (ex2, provName)), errors,
                        events ++ revents ++ [jsonSuccessEvent task provName model num cost])
                    | .error vmsg2 =>
                      -- outer `except ValidationError` handler
                      let events2 := events ++ revents
                        ++ [jsonErrorEvent task provName model num "invalid_json" vmsg2]
                      if remaining > 0 then
                        runJsonAttempts st beh validate jsonSchema task sys usr provName model
                          attempts remaining (num + 1) errors events2
                      else
                        let errors1 := errors ++ [provName ++ ": invalid_json " ++ vmsg2]
                        if !shouldFailover st "invalid_json" then
                          (some (.error (.llm ⟨vmsg2, "invalid_json"⟩)), errors1, events2)
                        else (none, errors1, events2)
                  | .error e2 =>
                    -- outer `except LLMError` handler
                    let events2 := events ++ revents
                      ++ [jsonErrorEvent task provName model num e2.category e2.message]
                    if e2.category = "invalid_json" && remaining > 0 then
                      runJsonAttempts st beh validate jsonSchema task sys usr provName model
                        attempts remaining (num + 1) errors events2
                    else
                      let errors1 := errors ++ [provName ++ ": " ++ e2.message]
                      if !shouldFailover st e2.category then
                        (some (.error (.llm e2)), errors1, events2)
                      else
                        runJsonAttempts st beh validate jsonSchema task sys usr provName model
                          attempts remaining (num + 1) errors1 events2)
              | (.error (.llm e), revents) =>
                -- outer `except LLMError` handler
                let events2 := events ++ revents
                  ++ [jsonErrorEvent task provName model num e.category e.message]
                if e.category = "invalid_json" && remaining > 0 then
                  runJsonAttempts st beh validate jsonSchema task sys usr provName model
                    attempts remaining (num + 1) errors events2
                else
                  let errors1 := errors ++ [provName ++ ": " ++ e.message]
                  if !shouldFailover st e.category then
                    (some (.error (.llm e)), errors1, events2)
                  else
                    runJsonAttempts st beh validate jsonSchema task sys usr provName model
                      attempts remaining (num + 1) errors1 events2
              | (.error (.py pe), revents) =>
                -- outer `except Exception` handler
                let events2 := events ++ revents
                  ++ [jsonErrorEvent task provName model num "server_error" (pyErrMsg pe)]
                let errors1 := errors ++ [provName ++ ": unexpected error " ++ pyErrMsg pe]
                if !shouldFailover st "server_error" then
                  (some (.error (.llm ⟨"Unexpected provider error: " ++ pyErrMsg pe,
                    "server_error"⟩)), errors1, events2)
                else
                  runJsonAttempts st beh validate jsonSchema task sys usr provName model
                    attempts remaining (num + 1) errors1 events2)
        | .error parseErr =>
          -- repair path from the inner `except (json.JSONDecodeError, LLMError)` arm
          (match repairJson st beh provName task model raw (some jsonSchema)
              (some parseErr.message) with
            | (.ok repaired, revents) =>
              (match extractJsonTextS repaired with
                | .ok ex2 =>
                  match validate ex2 with
                  | .ok _ =>
                    (some (.ok (ex2, provName)), errors,
                      events ++ revents ++ [jsonSuccessEvent task provName model num cost])
                  | .error vmsg2 =>
                    let events2 := events ++ revents
                      ++ [jsonErrorEvent task provName model num "invalid_json" vmsg2]
                    if remaining > 0 then
                      runJsonAttempts st beh validate jsonSchema task sys usr provName model
                        attempts remaining (num + 1) errors events2
                    else
                      let errors1 := errors ++ [provName ++ ": invalid_json " ++ vmsg2]
                      if !shouldFailover st "invalid_json" then
                        (some (.error (.llm ⟨vmsg2, "invalid_json"⟩)), errors1, events2)
                      else (none, errors1, events2)
                | .error e2 =>
                  let events2 := events ++ revents
                    ++ [jsonErrorEvent task provName model num e2.category e2.message]
                  if e2.category = "invalid_json" && remaining > 0 then
                    runJsonAttempts st beh validate jsonSchema task sys usr provName model
                      attempts remaining (num + 1) errors events2
                  else
                    let errors1 := errors ++ [provName ++ ": " ++ e2.message]
                    if !shouldFailover st e2.category then
                      (some (.error (.llm e2)), errors1, events2)
                    else
                      runJsonAttempts st beh validate jsonSchema task sys usr provName model
                        attempts remaining (num + 1) errors1 events2)
            | (.error (.llm e), revents) =>
              let events2 := events ++ revents
                ++ [jsonErrorEvent task provName model num e.category e.message]
              if e.category = "invalid_json" && remaining > 0 then
                runJsonAttempts st beh validate jsonSchema task sys usr provName model
                  attempts remaining (num + 1) errors events2
              else
                let errors1 := errors ++ [provName ++ ": " ++ e.message]
                if !shouldFailover st e.category then
                  (some (.error (.llm e)), errors1, events2)
                else
                  runJsonAttempts st beh validate jsonSchema task sys usr provName model
                    attempts remaining (num + 1) errors1 events2
            | (.error (.py pe), revents) =>
              let events2 := events ++ revents
                ++ [jsonErrorEvent task provName model num "server_error" (pyErrMsg pe)]
              let errors1 := errors ++ [provName ++ ": unexpected error " ++ pyErrMsg pe]
              if !shouldFailover st "server_error" then
                (some (.error (.llm ⟨"Unexpected provider error: " ++ pyErrMsg pe,
                  "server_error"⟩)), errors1, events2)
              else
                runJsonAttempts st beh validate jsonSchema task sys usr provName model
                  attempts remaining (num + 1) errors1 events2))
    | .llmError msg cat =>
      -- outer `except LLMError` handler, for errors of the generation call itself
      let events2 := events ++ [jsonErrorEvent task provName model num cat msg]
      if cat = "invalid_json" && remaining > 0 then
        runJsonAttempts st beh validate jsonSchema task sys usr provName model
          attempts remaining (num + 1) errors events2
      else
        let errors1 := errors ++ [provName ++ ": " ++ msg]
        if !shouldFailover st cat then
          (some (.error (.llm ⟨msg, cat⟩)), errors1, events2)
        else
          runJsonAttempts st beh validate jsonSchema task sys usr provName model
            attempts remaining (num + 1) errors1 events2
    | .exn msg =>
      -- outer `except Exception` handler, notably for the `TypeError` of the
      -- `LLMCallInput(..., max_output_tokens=...)` construction
      let events2 := events ++ [jsonErrorEvent task provName model num "server_error" msg]
      let errors1 := errors ++ [provName ++ ": unexpected error " ++ msg]
      if !shouldFailover st "server_error" then
        (some (.error (.llm ⟨"Unexpected provider error: " ++ msg, "server_error"⟩)),
          errors1, events2)
      else
        runJsonAttempts st beh validate jsonSchema task sys usr provName model
          attempts remaining (num + 1) errors1 events2

/-- Provider loop of `complete_json_model` (manager.py lines 262-421). -/
def completeJsonLoop (st : Settings) (beh : Behavior)
    (validate : String → Except String Unit) (jsonSchema : JValue)
    (task sys usr : String) :
    List String → List String → List CallEvent →
    Except MgrErr (String × String) × List CallEvent
  | [], errors, events =>
    (.error (.llm ⟨"All providers failed for JSON completion. "
      ++ String.intercalate " | " errors, "invalid_json"⟩), events)
  | name :: rest, errors, events =>
    match List.lookup name (providersMap st) with
    | none => (.error (.py (.keyError name)), events)
    | some prov =>
      if !prov.isConfigured then
        completeJsonLoop st beh validate jsonSchema task sys usr rest
          (errors ++ [name ++ ": not configured"]) events
      else
        let model := st.taskModel name task
        let attempts := attemptsBudget st
        let total := attempts + 1 + extraInvalidJsonRetryLimit name task
        match runJsonAttempts st beh validate jsonSchema task sys usr name model
            attempts total 1 errors events with
        | (some res, _, events1) => (res, events1)
        | (none, errors1, events1) =>
          completeJsonLoop st beh validate jsonSchema task sys usr rest errors1 events1

/-- Embedding of `complete_json_model` (manager.py lines 262-421): the
pydantic target type is abstracted into its JSON schema (a parameter, as
`model_json_schema()` is external) and its validator `validate`; the
returned parsed object is represented by the validated JSON text. -/
def completeJsonModel (st : Settings) (beh : Behavior)
    (validate : String → Except String Unit) (jsonSchema : JValue)
    (task sys usr : String) : Except MgrErr (String × String) × List CallEvent :=
  completeJsonLoop st beh validate jsonSchema task sys usr st.llm_provider_order [] []

/-- Chained dict lookup along a key path (used to state properties of
specific nodes of a translated schema). -/
def lookupPath : JValue → List String → Option JValue
  | v, [] => some v
  | .obj es, k :: rest =>
    (match List.lookup k es with
      | some v => lookupPath v rest
      | none => none)
  | _, _ :: _ => none

/-- Schema exercising the corners of `_to_gemini_schema`: a recursive
`$defs`/`$ref` definition deep enough to hit the depth-80 cutoff, a
property literally named `$defs`, and a two-branch `[T, null]` `anyOf`
carrying an extra non-passthrough `minLength` key. -/
def c7cx : JValue :=
  .obj [
    ("type", .str "object"),
    ("properties", .obj [
      ("next", .obj [("$ref", .str "#/$defs/Node")]),
      ("$defs", .obj [("type", .arr [.str "string", .str "null"])]),
      ("maybe", .obj [
        ("anyOf", .arr [.obj [("type", .str "string")],
                        .obj [("type", .str "null")]]),
        ("minLength", .num 3)])]),
    ("$defs", .obj [
      ("Node", .obj [
        ("type", .str "object"),
        ("properties", .obj [
          ("next", .obj [
            ("type", .str "array"),
            ("items", .obj [("$ref", .str "#/$defs/Node")])])])])])]

/-- Well-behaved schema with one non-recursive `$defs`/`$ref` reference and
a collapsible nullable `anyOf`. -/
def c7wit : JValue :=
  .obj [
    ("type", .str "object"),
    ("properties", .obj [
      ("child", .obj [
        ("anyOf", .arr [.obj [("$ref", .str "#/$defs/Leaf")],
                        .obj [("type", .str "null")]])])]),
    ("required", .arr [.str "child"]),
    ("$defs", .obj [("Leaf", .obj [("type", .str "string")])])]

/-! Theorems.  First structural-equality lemmas and loop lemmas, then one
theorem per specification claim. -/

/-- Joint correctness of the three structural-equality functions, by strong
induction on size. -/
theorem JValue.beq_triple (n : Nat) :
    (∀ a b : JValue, sizeOf a ≤ n → (JValue.beq a b = true ↔ a = b)) ∧
    (∀ xs ys : List JValue, sizeOf xs ≤ n → (JValue.beqList xs ys = true ↔ xs = ys)) ∧
    (∀ es fs : List (String × JValue), sizeOf es ≤ n →
      (JValue.beqEntries es fs = true ↔ es = fs)) := by
  induction n with
  | zero =>
    refine ⟨fun a b h => ?_, fun xs ys h => ?_, fun es fs h => ?_⟩
    · cases a <;> simp at h
    · cases xs <;> simp at h
    · cases es <;> simp at h
  | succ n ih =>
    obtain ⟨ihv, ihl, ihe⟩ := ih
    refine ⟨fun a b h => ?_, fun xs ys h => ?_, fun es fs h => ?_⟩
    · cases a <;> cases b <;>
        simp_all [JValue.beq] <;>
        first
          | (apply ihl; omega)
          | (apply ihe; omega)
    · cases xs with
      | nil => cases ys <;> simp [JValue.beqList]
      | cons x rest =>
        cases ys with
        | nil => simp [JValue.beqList]
        | cons y rest2 =>
          simp at h
          rw [JValue.beqList]
          simp [Bool.and_eq_true, ihv x y (by omega), ihl rest rest2 (by omega)]
    · cases es with
      | nil => cases fs <;> simp [JValue.beqEntries]
      | cons e r1 =>
        cases fs with
        | nil => simp [JValue.beqEntries]
        | cons f r2 =>
          obtain ⟨k1, v1⟩ := e
          obtain ⟨k2, v2⟩ := f
          simp at h
          rw [JValue.beqEntries]
          simp [Bool.and_eq_true, ihv v1 v2 (by omega), ihe r1 r2 (by omega),
            and_assoc, Prod.ext_iff]

/-- Structural equality decides equality of JSON values. -/
theorem JValue.beq_iff (a b : JValue) : JValue.beq a b = true ↔ a = b :=
  (JValue.beq_triple (sizeOf a)).1 a b (Nat.le_refl _)

/-- The `==` of the `BEq JValue` instance is structural equality. -/
theorem JValue.beq_eq_iff (a b : JValue) : (a == b) = true ↔ a = b :=
  JValue.beq_iff a b

/-- C1.  The spec's CallRequest carries an optional `max_output_tokens`
field that `complete_json_model` fills with the provider-specific cap and
that reaches the provider client.  The code disagrees with itself here:
`LLMCallInput` in providers/base.py declares no `max_output_tokens` field,
while manager.py passes it as a keyword (line 296) and clients.py reads it
(line 234), so every schema-validated attempt raises `TypeError` inside the
`try` block and no cap ever reaches any provider behavior. -/
theorem C1_max_output_tokens_never_reaches_client :
    llmCallInputFields.contains "max_output_tokens" = false ∧
    maxOutputTokens "perplexity" "quiz_generation" = some 8000 ∧
    constructCallInput jsonCallKwargs =
      .error (.typeError "got an unexpected keyword argument max_output_tokens") ∧
    ∀ (beh : Behavior) (p task : String) (n : Nat) (sys usr : String),
      attemptOutcome beh jsonCallKwargs p task n sys usr =
        .exn "got an unexpected keyword argument max_output_tokens" := by
  refine ⟨rfl, by decide, rfl, fun beh p task n sys usr => rfl⟩

/-- The `complete_text` call-input construction succeeds: its keyword list
matches the dataclass fields. -/
theorem attemptOutcome_text (beh : Behavior) (p task : String) (n : Nat) (sys usr : String) :
    attemptOutcome beh textCallKwargs p task n sys usr = beh p task n sys usr := rfl

/-- Every telemetry event appended by the per-provider attempt loop of
`complete_text` carries that provider's name. -/
theorem runTextAttempts_shape (st : Settings) (beh : Behavior)
    (task sys usr p model : String) :
    ∀ (r num : Nat) (errors : List String) (events : List CallEvent),
    ∃ res errs tail,
      runTextAttempts st beh task sys usr p model r num errors events
        = (res, errs, events ++ tail) ∧ (∀ e ∈ tail, e.provider = p)
        ∧ (r ≠ 0 → tail ≠ []) := by
  intro r
  induction r with
  | zero =>
    intro num errors events
    exact ⟨none, errors, [], by simp [runTextAttempts], by simp, by simp⟩
  | succ n ih =>
    intro num errors events
    cases hout : attemptOutcome beh textCallKwargs p task num sys usr with
    | ok text cost =>
      refine ⟨some (.ok (p, text)), errors,
        [⟨"complete_text", task, p, model, num, "success", "success", none, cost⟩], ?_,
        by simp, by simp⟩
      rw [runTextAttempts, hout]
    | llmError msg cat =>
      by_cases hf : shouldFailover st cat = true
      · obtain ⟨res, errs, tail, heq, hmem, _⟩ := ih (num + 1)
          (errors ++ [p ++ ": " ++ msg])
          (events ++ [⟨"complete_text", task, p, model, num, "error", cat, some msg, none⟩])
        refine ⟨res, errs,
          ⟨"complete_text", task, p, model, num, "error", cat, some msg, none⟩ :: tail, ?_, ?_,
          by simp⟩
        · rw [runTextAttempts, hout]
          simp only [hf, Bool.not_true]
          rw [if_neg (by simp), heq]
          simp
        · intro e he
          rcases List.mem_cons.mp he with h | h
          · rw [h]
          · exact hmem e h
      · simp only [Bool.not_eq_true] at hf
        refine ⟨some (.error (.llm ⟨msg, cat⟩)), errors ++ [p ++ ": " ++ msg],
          [⟨"complete_text", task, p, model, num, "error", cat, some msg, none⟩], ?_,
          by simp, by simp⟩
        rw [runTextAttempts, hout]
        simp only [hf, Bool.not_false]
        simp
    | exn msg =>
      by_cases hf : shouldFailover st "server_error" = true
      · obtain ⟨res, errs, tail, heq, hmem, _⟩ := ih (num + 1)
          (errors ++ [p ++ ": unexpected error " ++ msg])
          (events ++ [⟨"complete_text", task, p, model, num, "error", "server_error", some msg, none⟩])
        refine ⟨res, errs,
          ⟨"complete_text", task, p, model, num, "error", "server_error", some msg, none⟩ :: tail,
          ?_, ?_, by simp⟩
        · rw [runTextAttempts, hout]
          simp only [hf, Bool.not_true]
          rw [if_neg (by simp), heq]
          simp
        · intro e he
          rcases List.mem_cons.mp he with h | h
          · rw [h]
          · exact hmem e h
      · simp only [Bool.not_eq_true] at hf
        refine ⟨some (.error (.llm ⟨"Unexpected provider error: " ++ msg, "server_error"⟩)),
          errors ++ [p ++ ": unexpected error " ++ msg],
          [⟨"complete_text", task, p, model, num, "error", "server_error", some msg, none⟩],
          ?_, by simp, by simp⟩
        rw [runTextAttempts, hout]
        simp only [hf, Bool.not_false]
        simp

/-- When every attempt of a provider fails with one failover-enabled
category, its attempt loop exhausts the entire budget: exactly `r` error
events, all carrying that provider's name and the failing category. -/
theorem runTextAttempts_allfail (st : Settings) (beh : Behavior)
    (task sys usr p model : String) (msgf : Nat → String) (cat : String)
    (hb : ∀ (i : Nat) (sy us : String), beh p task i sy us = .llmError (msgf i) cat)
    (hf : shouldFailover st cat = true) :
    ∀ (r num : Nat) (errors : List String) (events : List CallEvent),
    ∃ errs tail,
      runTextAttempts st beh task sys usr p model r num errors events
        = (none, errs, events ++ tail)
        ∧ tail.length = r ∧ ∀ e ∈ tail, e.provider = p ∧ e.category = cat
          ∧ e.outcome = "error" := by
  intro r
  induction r with
  | zero =>
    intro num errors events
    exact ⟨errors, [], by simp [runTextAttempts], by simp, by simp⟩
  | succ n ih =>
    intro num errors events
    obtain ⟨errs, tail, heq, hlen, hmem⟩ := ih (num + 1)
      (errors ++ [p ++ ": " ++ msgf num])
      (events ++ [⟨"complete_text", task, p, model, num, "error", cat, some (msgf num), none⟩])
    refine ⟨errs,
      ⟨"complete_text", task, p, model, num, "error", cat, some (msgf num), none⟩ :: tail,
      ?_, by simp [hlen], ?_⟩
    · rw [runTextAttempts, attemptOutcome_text, hb num sys usr]
      simp only [hf, Bool.not_true]
      rw [if_neg (by simp), heq]
      simp
    · intro e he
      rcases List.mem_cons.mp he with h | h
      · rw [h]
        exact ⟨rfl, rfl, rfl⟩
      · exact hmem e h

/-- When every provider in the remaining order is known but unconfigured,
the `complete_text` provider loop appends one "not configured" error per
provider, reports no telemetry event, and raises the aggregate
`server_error`. -/
theorem completeTextLoop_unconfigured (st : Settings) (beh : Behavior)
    (task sys usr : String) :
    ∀ (names : List String) (errors : List String) (events : List CallEvent),
    (∀ n ∈ names, ∃ pr, List.lookup n (providersMap st) = some pr
      ∧ pr.isConfigured = false) →
    completeTextLoop st beh task sys usr names errors events =
      (.error (.llm ⟨"All providers failed for text completion. "
          ++ String.intercalate " | "
            (errors ++ names.map (fun n => n ++ ": not configured")), "server_error"⟩),
        events) := by
  intro names
  induction names with
  | nil => intro errors events _; simp [completeTextLoop]
  | cons n rest ih =>
    intro errors events h
    obtain ⟨pr, hl, hc⟩ := h n (List.mem_cons_self n rest)
    rw [completeTextLoop, hl]
    simp only [hc, Bool.not_false, if_pos trivial]
    rw [ih (errors ++ [n ++ ": not configured"]) events
      (fun m hm => h m (List.mem_cons_of_mem n hm))]
    simp

/-- A provider loop over names not containing `p` adds no event with
provider `p`. -/
theorem completeTextLoop_countP (st : Settings) (beh : Behavior)
    (task sys usr p : String) :
    ∀ (names : List String) (errors : List String) (events : List CallEvent),
    p ∉ names →
    ((completeTextLoop st beh task sys usr names errors events).2.countP
        (fun e => e.provider == p))
      = events.countP (fun e => e.provider == p) := by
  intro names
  induction names with
  | nil => intro errors events _; simp [completeTextLoop]
  | cons n rest ih =>
    intro errors events hp
    have hpn : p ≠ n := fun h => hp (h ▸ List.mem_cons_self n rest)
    have hprest : p ∉ rest := fun h => hp (List.mem_cons_of_mem n h)
    rw [completeTextLoop]
    cases hl : List.lookup n (providersMap st) with
    | none => simp
    | some pr =>
      by_cases hc : pr.isConfigured = true
      · simp only [hc, Bool.not_true]
        rw [if_neg (by simp)]
        obtain ⟨res, errs, tail, heq, hmem, _⟩ :=
          runTextAttempts_shape st beh task sys usr n (st.taskModel n task)
            (attemptsBudget st + 1) 1 errors events
        rw [heq]
        have htail : tail.countP (fun e => e.provider == p) = 0 := by
          rw [List.countP_eq_zero]
          intro e he
          simp [hmem e he, hpn.symm]
        cases res with
        | some r => simp [List.countP_append, htail]
        | none => rw [ih errs (events ++ tail) hprest]; simp [List.countP_append, htail]
      · simp only [Bool.not_eq_true] at hc
        simp only [hc, Bool.not_false, if_pos trivial]
        exact ih (errors ++ [n ++ ": not configured"]) events hprest

/-- C3.  `should_failover` is membership of `"all"` or of the category in
the configured failover set; in `complete_text`, an error whose category is
outside the failover policy propagates at once (with the failing provider's
single telemetry event and no second provider invoked), while a
policy-enabled category leads to the next provider being tried. -/
theorem C3_should_failover_gating :
    (∀ (st : Settings) (cat : String),
      shouldFailover st cat = true
        ↔ ("all" ∈ st.llm_failover_on ∨ cat ∈ st.llm_failover_on)) ∧
    (∀ (st : Settings) (beh : Behavior) (task sys usr n1 n2 m : String) (pr1 : ProviderRec),
      st.llm_provider_order = [n1, n2] →
      List.lookup n1 (providersMap st) = some pr1 → pr1.isConfigured = true →
      st.llm_failover_on = ["timeout"] →
      beh n1 task 1 sys usr = .llmError m "rate_limit" →
      completeText st beh task sys usr =
        (.error (.llm ⟨m, "rate_limit"⟩),
          [⟨"complete_text", task, n1, st.taskModel n1 task, 1, "error", "rate_limit",
            some m, none⟩])) ∧
    (∀ (st : Settings) (beh : Behavior) (task sys usr n1 n2 m : String) (pr1 pr2 : ProviderRec),
      st.llm_provider_order = [n1, n2] →
      List.lookup n1 (providersMap st) = some pr1 → pr1.isConfigured = true →
      List.lookup n2 (providersMap st) = some pr2 → pr2.isConfigured = true →
      st.llm_failover_on = ["timeout"] →
      st.llm_max_retries_per_provider = 0 →
      beh n1 task 1 sys usr = .llmError m "timeout" →
      ∃ e ∈ (completeText st beh task sys usr).2, e.provider = n2) := by
  refine ⟨fun st cat => ?_, fun st beh task sys usr n1 n2 m pr1 ho hl hc hfo hb => ?_,
    fun st beh task sys usr n1 n2 m pr1 pr2 ho hl1 hc1 hl2 hc2 hfo hretr hb => ?_⟩
  · simp [shouldFailover, List.elem_iff]
  · have hrl : shouldFailover st "rate_limit" = false := by
      simp only [shouldFailover]
      rw [hfo]
      decide
    rw [completeText, ho, completeTextLoop, hl]
    simp only [hc, Bool.not_true]
    rw [if_neg (by simp), runTextAttempts, attemptOutcome_text, hb]
    simp [hrl]
  · have hto : shouldFailover st "timeout" = true := by
      simp only [shouldFailover]
      rw [hfo]
      decide
    have hbud : attemptsBudget st = 0 := by
      simp [attemptsBudget, hretr]
    rw [completeText, ho, completeTextLoop, hl1]
    simp only [hc1, Bool.not_true]
    rw [if_neg (by simp), hbud, runTextAttempts, attemptOutcome_text, hb]
    simp only [hto, Bool.not_true]
    rw [if_neg (by simp), runTextAttempts]
    simp only [completeTextLoop, hl2, hc2, Bool.not_true]
    rw [if_neg (by simp)]
    obtain ⟨res, errs, tail, heq, hmem, hne⟩ :=
      runTextAttempts_shape st beh task sys usr n2 (st.taskModel n2 task)
        (attemptsBudget st + 1) 1
        ([] ++ [n1 ++ ": " ++ m])
        ([] ++ [⟨"complete_text", task, n1, st.taskModel n1 task, 1, "error", "timeout",
          some m, none⟩])
    rw [heq]
    obtain ⟨e, he⟩ := List.exists_mem_of_ne_nil tail (hne (by simp))
    cases res with
    | some r =>
      exact ⟨e, by simp [List.mem_append, Or.inr he], hmem e he⟩
    | none =>
      simp only [completeTextLoop]
      exact ⟨e, by simp [List.mem_append, Or.inr he], hmem e he⟩

/-- C4.  A configured provider whose every generation call fails with one
failover-enabled category is attempted exactly
`max(0, max_retries_per_provider) + 1` times by `complete_text` before the
manager moves on; for a non-negative retry setting that is
`max_retries_per_provider + 1` attempts, and `3` attempts when the setting
is `2`. -/
theorem C4_attempt_budget (st : Settings) (beh : Behavior)
    (task sys usr p : String) (rest : List String) (msgf : Nat → String)
    (cat : String) (pr : ProviderRec)
    (ho : st.llm_provider_order = p :: rest)
    (hl : List.lookup p (providersMap st) = some pr)
    (hc : pr.isConfigured = true)
    (hrest : p ∉ rest)
    (hb : ∀ (i : Nat) (sy us : String), beh p task i sy us = .llmError (msgf i) cat)
    (hf : shouldFailover st cat = true) :
    ((completeText st beh task sys usr).2.countP (fun e => e.provider == p))
      = attemptsBudget st + 1 ∧
    (0 ≤ st.llm_max_retries_per_provider →
      ((completeText st beh task sys usr).2.countP (fun e => e.provider == p))
        = st.llm_max_retries_per_provider.toNat + 1) ∧
    (st.llm_max_retries_per_provider = 2 →
      ((completeText st beh task sys usr).2.countP (fun e => e.provider == p)) = 3) := by
  have hmain : ((completeText st beh task sys usr).2.countP (fun e => e.provider == p))
      = attemptsBudget st + 1 := by
    rw [completeText, ho, completeTextLoop, hl]
    simp only [hc, Bool.not_true]
    rw [if_neg (by simp)]
    obtain ⟨errs, tail, heq, hlen, hmem⟩ :=
      runTextAttempts_allfail st beh task sys usr p (st.taskModel p task) msgf cat hb hf
        (attemptsBudget st + 1) 1 [] []
    rw [heq, completeTextLoop_countP st beh task sys usr p rest errs ([] ++ tail) hrest]
    have : tail.countP (fun e => e.provider == p) = tail.length := by
      rw [List.countP_eq_length]
      intro e he
      simp [(hmem e he).1]
    simp [this, hlen]
  refine ⟨hmain, fun hpos => ?_, fun h2 => ?_⟩
  · rw [hmain]
    have : attemptsBudget st = st.llm_max_retries_per_provider.toNat := by
      simp only [attemptsBudget]
      congr 1
      omega
    rw [this]
  · rw [hmain]
    have : attemptsBudget st = 2 := by
      simp [attemptsBudget, h2]
    rw [this]

/-- Witness for C3 at a concrete two-provider configuration. -/
theorem C3_should_failover_gating_witness :
    completeText ⟨["openai", "gemini"], 0, ["timeout"], "k1", "", "k2", fun _ _ => "m"⟩
        (fun p _ _ _ _ => if p = "openai" then .llmError "rl" "rate_limit" else .ok "x" none)
        "t" "s" "u"
      = (.error (.llm ⟨"rl", "rate_limit"⟩),
        [⟨"complete_text", "t", "openai", "m", 1, "error", "rate_limit", some "rl", none⟩]) ∧
    (∃ e ∈ (completeText ⟨["openai", "gemini"], 0, ["timeout"], "k1", "", "k2", fun _ _ => "m"⟩
        (fun p _ _ _ _ => if p = "openai" then .llmError "to" "timeout" else .ok "x" none)
        "t" "s" "u").2, e.provider = "gemini") := by
  constructor
  · exact C3_should_failover_gating.2.1
      ⟨["openai", "gemini"], 0, ["timeout"], "k1", "", "k2", fun _ _ => "m"⟩
      (fun p _ _ _ _ => if p = "openai" then .llmError "rl" "rate_limit" else .ok "x" none)
      "t" "s" "u" "openai" "gemini" "rl" ⟨"openai", "k1"⟩ rfl rfl (by decide) rfl rfl
  · exact C3_should_failover_gating.2.2
      ⟨["openai", "gemini"], 0, ["timeout"], "k1", "", "k2", fun _ _ => "m"⟩
      (fun p _ _ _ _ => if p = "openai" then .llmError "to" "timeout" else .ok "x" none)
      "t" "s" "u" "openai" "gemini" "to" ⟨"openai", "k1"⟩ ⟨"gemini", "k2"⟩
      rfl rfl (by decide) rfl (by decide) rfl rfl rfl

/-- Witness for C4 at a concrete configuration with two retries. -/
theorem C4_attempt_budget_witness :
    ((completeText ⟨["openai"], 2, ["all"], "k1", "", "", fun _ _ => "m"⟩
        (fun _ _ _ _ _ => .llmError "boom" "timeout") "t" "s" "u").2.countP
      (fun e => e.provider == "openai")) = 3 :=
  (C4_attempt_budget ⟨["openai"], 2, ["all"], "k1", "", "", fun _ _ => "m"⟩
    (fun _ _ _ _ _ => .llmError "boom" "timeout") "t" "s" "u" "openai" []
    (fun _ => "boom") "timeout" ⟨"openai", "k1"⟩ rfl rfl (by decide) (by simp)
    (fun i sy us => rfl) (by decide)).2.2 rfl

/-- C9.  When no provider in the configured order is configured,
`any_provider_configured` is false and `complete_text` fails with the
aggregate `server_error` listing every provider of the order as "not
configured", with zero telemetry events reported. -/
theorem C9_no_provider_configured (st : Settings) (beh : Behavior)
    (task sys usr : String)
    (h : ∀ n ∈ st.llm_provider_order, ∃ pr,
      List.lookup n (providersMap st) = some pr ∧ pr.isConfigured = false) :
    anyProviderConfigured st = false ∧
    completeText st beh task sys usr =
      (.error (.llm ⟨"All providers failed for text completion. "
          ++ String.intercalate " | "
            (st.llm_provider_order.map (fun n => n ++ ": not configured")),
        "server_error"⟩), []) := by
  constructor
  · simp only [anyProviderConfigured, List.any_eq_false]
    intro n hn
    obtain ⟨pr, hl, hc⟩ := h n hn
    simp [hl, hc]
  · rw [completeText,
      completeTextLoop_unconfigured st beh task sys usr st.llm_provider_order [] [] h]
    simp

/-- Witness for C9 at a concrete zero-configured setup. -/
theorem C9_no_provider_configured_witness :
    anyProviderConfigured ⟨["openai", "perplexity", "gemini"], 0, ["all"], "", "", "",
        fun _ _ => "m"⟩ = false ∧
    completeText ⟨["openai", "perplexity", "gemini"], 0, ["all"], "", "", "",
        fun _ _ => "m"⟩ (fun _ _ _ _ _ => .ok "x" none) "t" "s" "u" =
      (.error (.llm ⟨"All providers failed for text completion. "
          ++ String.intercalate " | "
            (["openai", "perplexity", "gemini"].map (fun n => n ++ ": not configured")),
        "server_error"⟩), []) :=
  C9_no_provider_configured
    ⟨["openai", "perplexity", "gemini"], 0, ["all"], "", "", "", fun _ _ => "m"⟩
    (fun _ _ _ _ _ => .ok "x" none) "t" "s" "u"
    (fun n hn => by
      fin_cases hn
      · exact ⟨⟨"openai", ""⟩, rfl, rfl⟩
      · exact ⟨⟨"perplexity", ""⟩, rfl, rfl⟩
      · exact ⟨⟨"gemini", ""⟩, rfl, rfl⟩)

/-- Skipping a prefix of known but unconfigured providers only accumulates
"not configured" error strings in the `complete_text` loop. -/
theorem completeTextLoop_skip_unconfigured (st : Settings) (beh : Behavior)
    (task sys usr : String) :
    ∀ (pre : List String),
    (∀ n ∈ pre, ∃ pr, List.lookup n (providersMap st) = some pr
      ∧ pr.isConfigured = false) →
    ∀ (l : List String) (errors : List String) (events : List CallEvent),
    completeTextLoop st beh task sys usr (pre ++ l) errors events
      = completeTextLoop st beh task sys usr l
        (errors ++ pre.map (fun n => n ++ ": not configured")) events := by
  intro pre
  induction pre with
  | nil => intro _ l errors events; simp
  | cons n rest ih =>
    intro h l errors events
    obtain ⟨pr, hl, hc⟩ := h n (List.mem_cons_self n rest)
    rw [List.cons_append, completeTextLoop, hl]
    simp only [hc, Bool.not_false, if_pos trivial]
    rw [ih (fun m hm => h m (List.mem_cons_of_mem n hm)) l
      (errors ++ [n ++ ": not configured"]) events]
    simp

/-- Skipping a prefix of known but unconfigured providers only accumulates
"not configured" error strings in the `complete_json_model` loop. -/
theorem completeJsonLoop_skip_unconfigured (st : Settings) (beh : Behavior)
    (validate : String → Except String Unit) (js : JValue)
    (task sys usr : String) :
    ∀ (pre : List String),
    (∀ n ∈ pre, ∃ pr, List.lookup n (providersMap st) = some pr
      ∧ pr.isConfigured = false) →
    ∀ (l : List String) (errors : List String) (events : List CallEvent),
    completeJsonLoop st beh validate js task sys usr (pre ++ l) errors events
      = completeJsonLoop st beh validate js task sys usr l
        (errors ++ pre.map (fun n => n ++ ": not configured")) events := by
  intro pre
  induction pre with
  | nil => intro _ l errors events; simp
  | cons n rest ih =>
    intro h l errors events
    obtain ⟨pr, hl, hc⟩ := h n (List.mem_cons_self n rest)
    rw [List.cons_append, completeJsonLoop, hl]
    simp only [hc, Bool.not_false, if_pos trivial]
    rw [ih (fun m hm => h m (List.mem_cons_of_mem n hm)) l
      (errors ++ [n ++ ": not configured"]) events]
    simp

/-- C10.  Both `complete_text` and `complete_json_model` index the provider
map directly, so an order entry outside the three registered providers that
is reached (here: after a prefix of unconfigured providers) escapes as an
unclassified `KeyError` with no telemetry event, while
`any_provider_configured` silently skips the unknown name. -/
theorem C10_unknown_provider_lookup (st : Settings) (beh : Behavior)
    (validate : String → Except String Unit) (js : JValue)
    (task sys usr : String) (pre : List String) (bad : String) (rest : List String)
    (ho : st.llm_provider_order = pre ++ bad :: rest)
    (hbad : List.lookup bad (providersMap st) = none)
    (hpre : ∀ n ∈ pre, ∃ pr, List.lookup n (providersMap st) = some pr
      ∧ pr.isConfigured = false) :
    completeText st beh task sys usr = (.error (.py (.keyError bad)), []) ∧
    completeJsonModel st beh validate js task sys usr
      = (.error (.py (.keyError bad)), []) ∧
    anyProviderConfigured st = anyProviderConfigured (st.withOrder (pre ++ rest)) := by
  refine ⟨?_, ?_, ?_⟩
  · rw [completeText, ho,
      completeTextLoop_skip_unconfigured st beh task sys usr pre hpre (bad :: rest) [] [],
      completeTextLoop, hbad]
  · rw [completeJsonModel, ho,
      completeJsonLoop_skip_unconfigured st beh validate js task sys usr pre hpre
        (bad :: rest) [] [],
      completeJsonLoop, hbad]
  · have key : ∀ (f : String → Bool), f bad = false →
        (pre ++ bad :: rest).any f = (pre ++ rest).any f := by
      intro f hf
      simp [List.any_append, List.any_cons, hf]
    simp only [anyProviderConfigured, Settings.withOrder, ho]
    exact key _ (by simp [hbad])

/-- Witness for C10 with the unknown provider name "mystery". -/
theorem C10_unknown_provider_lookup_witness :
    completeText ⟨["openai", "mystery", "gemini"], 0, ["all"], "", "", "kg", fun _ _ => "m"⟩
        (fun _ _ _ _ _ => .ok "x" none) "t" "s" "u"
      = (.error (.py (.keyError "mystery")), []) ∧
    completeJsonModel ⟨["openai", "mystery", "gemini"], 0, ["all"], "", "", "kg", fun _ _ => "m"⟩
        (fun _ _ _ _ _ => .ok "x" none) (fun _ => .ok ()) (.obj []) "t" "s" "u"
      = (.error (.py (.keyError "mystery")), []) ∧
    anyProviderConfigured ⟨["openai", "mystery", "gemini"], 0, ["all"], "", "", "kg",
        fun _ _ => "m"⟩
      = anyProviderConfigured
        ((⟨["openai", "mystery", "gemini"], 0, ["all"], "", "", "kg",
          fun _ _ => "m"⟩ : Settings).withOrder (["openai"] ++ ["gemini"])) :=
  C10_unknown_provider_lookup
    ⟨["openai", "mystery", "gemini"], 0, ["all"], "", "", "kg", fun _ _ => "m"⟩
    (fun _ _ _ _ _ => .ok "x" none) (fun _ => .ok ()) (.obj []) "t" "s" "u"
    ["openai"] "mystery" ["gemini"] rfl rfl
    (fun n hn => by
      fin_cases hn
      exact ⟨⟨"openai", ""⟩, rfl, rfl⟩)

/-- Every `complete_json_model` generation attempt raises `TypeError` at
the `LLMCallInput` construction, before the provider is consulted. -/
theorem attemptOutcome_json_exn (beh : Behavior) (p task : String) (n : Nat)
    (sy us : String) :
    attemptOutcome beh jsonCallKwargs p task n sy us
      = .exn "got an unexpected keyword argument max_output_tokens" := rfl

/-- With failover enabled for `server_error`, the `complete_json_model`
attempt loop burns its whole budget on construction TypeErrors: one
`server_error` telemetry event per attempt and no success. -/
theorem runJsonAttempts_typeerror (st : Settings) (beh : Behavior)
    (validate : String → Except String Unit) (js : JValue)
    (task sys usr p model : String) (attempts : Nat)
    (hf : shouldFailover st "server_error" = true) :
    ∀ (r num : Nat) (errors : List String) (events : List CallEvent),
    ∃ errs tail,
      runJsonAttempts st beh validate js task sys usr p model attempts r num errors events
        = (none, errs, events ++ tail)
        ∧ tail.length = r
        ∧ ∀ e ∈ tail, e.outcome = "error" ∧ e.category = "server_error"
          ∧ e.provider = p := by
  intro r
  induction r with
  | zero =>
    intro num errors events
    exact ⟨errors, [], by simp [runJsonAttempts], by simp, by simp⟩
  | succ n ih =>
    intro num errors events
    obtain ⟨errs, tail, heq, hlen, hmem⟩ := ih (num + 1)
      (errors ++ [p ++ ": unexpected error "
        ++ "got an unexpected keyword argument max_output_tokens"])
      (events ++ [jsonErrorEvent task p model num "server_error"
        "got an unexpected keyword argument max_output_tokens"])
    refine ⟨errs,
      jsonErrorEvent task p model num "server_error"
        "got an unexpected keyword argument max_output_tokens" :: tail,
      ?_, by simp [hlen], ?_⟩
    · rw [runJsonAttempts]
      simp only [attemptOutcome_json_exn, hf, Bool.not_true]
      rw [if_neg (by simp), heq]
      simp [jsonErrorEvent]
    · intro e he
      rcases List.mem_cons.mp he with h | h
      · rw [h]
        exact ⟨rfl, rfl, rfl⟩
      · exact hmem e h

/-- C2.  The spec's end-to-end repair scenario: a configured provider whose
first generation call returns malformed output and whose repair sub-call
returns schema-valid output.  The claim says `complete_json_model` returns
the repaired object with exactly two telemetry events (`error`/
`invalid_json` and `success`).  The code instead raises `TypeError` while
constructing `LLMCallInput` with the undeclared `max_output_tokens` keyword
on every attempt, so the call fails with the aggregate error and every
reported event is an `error` with category `server_error` — the provider
and validator behavior (the scenario hypotheses) are never consulted. -/
theorem C2_repair_scenario_blocked (st : Settings) (beh : Behavior)
    (validate : String → Except String Unit) (js : JValue)
    (task sys usr p malformed good vmsg : String) (pr : ProviderRec)
    (c1 c2 : Option ℚ)
    (ho : st.llm_provider_order = [p])
    (hl : List.lookup p (providersMap st) = some pr)
    (hc : pr.isConfigured = true)
    (hf : shouldFailover st "server_error" = true)
    (hb1 : beh p task 1 sys usr = .ok malformed c1)
    (hbad : validate malformed = .error vmsg)
    (hb2 : ∀ us2, beh p (task ++ "_repair") 1 repairSystemPrompt us2 = .ok good c2)
    (hgood : validate good = .ok ()) :
    (∃ msg, (completeJsonModel st beh validate js task sys usr).1
      = .error (.llm ⟨msg, "invalid_json"⟩)) ∧
    ((completeJsonModel st beh validate js task sys usr).2.length
      = attemptsBudget st + 1 + extraInvalidJsonRetryLimit p task) ∧
    (∀ e ∈ (completeJsonModel st beh validate js task sys usr).2,
      e.outcome = "error" ∧ e.category = "server_error") := by
  obtain ⟨errs, tail, heq, hlen, hmem⟩ :=
    runJsonAttempts_typeerror st beh validate js task sys usr p (st.taskModel p task)
      (attemptsBudget st) hf
      (attemptsBudget st + 1 + extraInvalidJsonRetryLimit p task) 1 [] []
  have hrun : completeJsonModel st beh validate js task sys usr
      = (.error (.llm ⟨"All providers failed for JSON completion. "
          ++ String.intercalate " | " errs, "invalid_json"⟩), [] ++ tail) := by
    rw [completeJsonModel, ho]
    simp only [completeJsonLoop, hl, hc, Bool.not_true]
    rw [if_neg (by simp), heq]
  refine ⟨⟨_, by rw [hrun]⟩, by rw [hrun]; simpa using hlen, ?_⟩
  intro e he
  rw [hrun] at he
  have := hmem e (by simpa using he)
  exact ⟨this.1, this.2.1⟩

/-- Witness for C2: the concrete scenario with one configured provider
returning malformed output and a well-behaved repair call. -/
theorem C2_repair_scenario_blocked_witness :
    (∃ msg, (completeJsonModel ⟨["perplexity"], 0, ["all"], "", "kp", "", fun _ _ => "m"⟩
        (fun _ t _ _ _ =>
          if t = "quiz_generation_repair" then .ok "good" none else .ok "bad" none)
        (fun s => if s = "good" then .ok () else .error "vmsg")
        (.obj []) "quiz_generation" "s" "u").1
      = .error (.llm ⟨msg, "invalid_json"⟩)) ∧
    ((completeJsonModel ⟨["perplexity"], 0, ["all"], "", "kp", "", fun _ _ => "m"⟩
        (fun _ t _ _ _ =>
          if t = "quiz_generation_repair" then .ok "good" none else .ok "bad" none)
        (fun s => if s = "good" then .ok () else .error "vmsg")
        (.obj []) "quiz_generation" "s" "u").2.length
      = attemptsBudget ⟨["perplexity"], 0, ["all"], "", "kp", "", fun _ _ => "m"⟩ + 1
        + extraInvalidJsonRetryLimit "perplexity" "quiz_generation") ∧
    (∀ e ∈ (completeJsonModel ⟨["perplexity"], 0, ["all"], "", "kp", "", fun _ _ => "m"⟩
        (fun _ t _ _ _ =>
          if t = "quiz_generation_repair" then .ok "good" none else .ok "bad" none)
        (fun s => if s = "good" then .ok () else .error "vmsg")
        (.obj []) "quiz_generation" "s" "u").2,
      e.outcome = "error" ∧ e.category = "server_error") :=
  C2_repair_scenario_blocked
    ⟨["perplexity"], 0, ["all"], "", "kp", "", fun _ _ => "m"⟩
    (fun _ t _ _ _ =>
      if t = "quiz_generation_repair" then .ok "good" none else .ok "bad" none)
    (fun s => if s = "good" then .ok () else .error "vmsg")
    (.obj []) "quiz_generation" "s" "u" "perplexity" "bad" "good" "vmsg"
    ⟨"perplexity", "kp"⟩ none none
    rfl rfl (by decide) (by decide) rfl rfl
    (fun us2 => rfl) rfl

/-- C5.  The shared JSON-extraction rule: a trimmed text of the shape
`{...}` (opening brace first, closing brace last) is used verbatim;
otherwise a fenced code block containing an object supplies its capture;
otherwise the substring from the first `{` to the last `}` is used when
both exist in that order; otherwise extraction fails with category
`invalid_json` — and every extraction failure carries that category.  The
spec's concrete cases: `"here is json: {\"a\":1} done"` extracts the
embedded object, a fenced block extracts the fenced contents, and input
without balanced braces fails with `invalid_json`. -/
theorem C5_json_extraction_rule :
    (∀ s : List Char,
      (pyStrip s).head? = some lbrace → (pyStrip s).getLast? = some rbrace →
      extractJsonText s = .ok (pyStrip s)) ∧
    (∀ s : List Char,
      ¬((pyStrip s).head? = some lbrace ∧ (pyStrip s).getLast? = some rbrace) →
      ∀ g, fenceSearch (pyStrip s) = some g → extractJsonText s = .ok g) ∧
    (∀ (s : List Char) (f l : Nat),
      ¬((pyStrip s).head? = some lbrace ∧ (pyStrip s).getLast? = some rbrace) →
      fenceSearch (pyStrip s) = none →
      pyFind (pyStrip s) lbrace = some f → pyRFind (pyStrip s) rbrace = some l →
      f < l →
      extractJsonText s = .ok (((pyStrip s).drop f).take (l + 1 - f))) ∧
    (∀ s : List Char,
      ¬((pyStrip s).head? = some lbrace ∧ (pyStrip s).getLast? = some rbrace) →
      fenceSearch (pyStrip s) = none →
      (pyFind (pyStrip s) lbrace = none ∨ pyRFind (pyStrip s) rbrace = none ∨
        ∀ f l, pyFind (pyStrip s) lbrace = some f →
          pyRFind (pyStrip s) rbrace = some l → ¬f < l) →
      extractJsonText s
        = .error ⟨"Could not extract JSON object from model output", "invalid_json"⟩) ∧
    (∀ (s : List Char) (e : LLMErr),
      extractJsonText s = .error e → e.category = "invalid_json") ∧
    extractJsonText "here is json: \x7b\"a\":1\x7d done".data = .ok "\x7b\"a\":1\x7d".data ∧
    extractJsonText "```json\n\x7b\"a\": 1\x7d\n```".data = .ok "\x7b\"a\": 1\x7d".data ∧
    extractJsonText "no braces at all".data
      = .error ⟨"Could not extract JSON object from model output", "invalid_json"⟩ := by
  refine ⟨fun s h1 h2 => ?_, fun s hb g hg => ?_, fun s f l hb hfe hf hl hlt => ?_,
    fun s hb hfe hfb => ?_, fun s e h => ?_, rfl, rfl, rfl⟩
  · rw [extractJsonText, if_pos (by simp [h1, h2])]
  · rw [extractJsonText, if_neg (by simpa using hb), hg]
  · rw [extractJsonText, if_neg (by simpa using hb)]
    simp [hfe, hf, hl, hlt]
  · rw [extractJsonText, if_neg (by simpa using hb)]
    rcases hfb with h | h | h
    · simp [hfe, h]
    · cases hf2 : pyFind (pyStrip s) lbrace <;> simp [hfe, hf2, h]
    · cases hf2 : pyFind (pyStrip s) lbrace with
      | none => simp [hfe, hf2]
      | some f =>
        cases hl2 : pyRFind (pyStrip s) rbrace with
        | none => simp [hfe, hf2, hl2]
        | some l => simp [hfe, hf2, hl2, h f l hf2 hl2]
  · rw [extractJsonText] at h
    split at h
    · exact absurd h (by simp)
    · split at h
      · exact absurd h (by simp)
      · split at h
        · split at h
          · exact absurd h (by simp)
          · cases h
            rfl
        · cases h
          rfl

/-- Witness for C5 at concrete inputs for each universally quantified
conjunct. -/
theorem C5_json_extraction_rule_witness :
    extractJsonText "  \x7b\"k\":true\x7d ".data = .ok (pyStrip "  \x7b\"k\":true\x7d ".data) ∧
    extractJsonText "x ```\x7b\"b\":2\x7d``` y".data = .ok "\x7b\"b\":2\x7d".data ∧
    extractJsonText "pre \x7b mid \x7d post".data
      = .ok (((pyStrip "pre \x7b mid \x7d post".data).drop 4).take (10 + 1 - 4)) ∧
    extractJsonText "xyz".data
      = .error ⟨"Could not extract JSON object from model output", "invalid_json"⟩ ∧
    (⟨"Could not extract JSON object from model output",
      "invalid_json"⟩ : LLMErr).category = "invalid_json" := by
  refine ⟨?_, ?_, ?_, ?_, ?_⟩
  · exact C5_json_extraction_rule.1 "  \x7b\"k\":true\x7d ".data (by decide) (by decide)
  · exact C5_json_extraction_rule.2.1 "x ```\x7b\"b\":2\x7d``` y".data (by decide)
      "\x7b\"b\":2\x7d".data rfl
  · exact C5_json_extraction_rule.2.2.1 "pre \x7b mid \x7d post".data 4 10 (by decide)
      rfl (by decide) (by decide) (by decide)
  · exact C5_json_extraction_rule.2.2.2.1 "xyz".data (by decide) rfl (Or.inl (by decide))
  · exact C5_json_extraction_rule.2.2.2.2.1 "\x7d\x7b".data _ rfl

/-- Bumping a bucket with a `success` or `error` outcome preserves
`attempts = success + error`. -/
theorem bumpMetric_bucketInv (b : MetricBucket) (oc : String) (c : Option ℚ)
    (ho : oc = "success" ∨ oc = "error") (hb : bucketInvB b = true) :
    bucketInvB (bumpMetric b oc c) = true := by
  rcases ho with h | h <;> subst h <;>
    simp [bucketInvB, bumpMetric] at hb ⊢ <;>
    cases c <;> simp <;> omega

/-- Keyed bucket maps keep the invariant under `bumpIn`. -/
theorem bumpIn_inv (key oc : String) (c : Option ℚ)
    (ho : oc = "success" ∨ oc = "error") :
    ∀ (m : List (String × MetricBucket)),
    (∀ kv ∈ m, bucketInvB kv.2 = true) →
    ∀ kv ∈ bumpIn m key oc c, bucketInvB kv.2 = true := by
  intro m
  induction m with
  | nil =>
    intro _ kv hkv
    simp only [bumpIn, List.mem_singleton] at hkv
    rw [hkv]
    exact bumpMetric_bucketInv emptyBucket oc c ho (by decide)
  | cons hd tl ih =>
    obtain ⟨k0, b0⟩ := hd
    intro h kv hkv
    rw [bumpIn] at hkv
    split at hkv
    · rcases List.mem_cons.mp hkv with h1 | h1
      · rw [h1]
        exact bumpMetric_bucketInv b0 oc c ho (h (k0, b0) (List.mem_cons_self _ _))
      · exact h kv (List.mem_cons_of_mem _ h1)
    · rcases List.mem_cons.mp hkv with h1 | h1
      · rw [h1]
        exact h (k0, b0) (List.mem_cons_self _ _)
      · exact ih (fun kv2 hkv2 => h kv2 (List.mem_cons_of_mem _ hkv2)) kv h1

/-- Nested provider-task bucket maps keep the invariant under `bumpPT`. -/
theorem bumpPT_inv (prov task oc : String) (c : Option ℚ)
    (ho : oc = "success" ∨ oc = "error") :
    ∀ (m : List (String × List (String × MetricBucket))),
    (∀ kv ∈ m, ∀ kv2 ∈ kv.2, bucketInvB kv2.2 = true) →
    ∀ kv ∈ bumpPT m prov task oc c, ∀ kv2 ∈ kv.2, bucketInvB kv2.2 = true := by
  intro m
  induction m with
  | nil =>
    intro _ kv hkv
    simp only [bumpPT, List.mem_singleton] at hkv
    rw [hkv]
    exact bumpIn_inv task oc c ho [] (by simp)
  | cons hd tl ih =>
    obtain ⟨k0, m0⟩ := hd
    intro h kv hkv
    rw [bumpPT] at hkv
    split at hkv
    · rcases List.mem_cons.mp hkv with h1 | h1
      · rw [h1]
        exact bumpIn_inv task oc c ho m0 (h (k0, m0) (List.mem_cons_self _ _))
      · exact h kv (List.mem_cons_of_mem _ h1)
    · rcases List.mem_cons.mp hkv with h1 | h1
      · rw [h1]
        exact h (k0, m0) (List.mem_cons_self _ _)
      · exact ih (fun kv2 hkv2 => h kv2 (List.mem_cons_of_mem _ hkv2)) kv h1

/-- One `_bump_snapshot` call keeps the invariant at every aggregation
level of a period section. -/
theorem bumpSnapshot_periodInv (p : PeriodSnapshot) (e : TelemetryEvent)
    (ho : e.outcome = "success" ∨ e.outcome = "error")
    (hp : periodInvB p = true) : periodInvB (bumpSnapshot p e) = true := by
  simp only [periodInvB, Bool.and_eq_true, List.all_eq_true] at hp ⊢
  obtain ⟨⟨⟨⟨⟨h1, h2⟩, h3⟩, h4⟩, h5⟩, h6⟩ := hp
  refine ⟨⟨⟨⟨⟨?_, ?_⟩, ?_⟩, ?_⟩, ?_⟩, ?_⟩
  · exact bumpMetric_bucketInv p.totals e.outcome e.cost ho h1
  · exact bumpIn_inv e.provider e.outcome e.cost ho p.providers h2
  · exact bumpIn_inv e.model e.outcome e.cost ho p.models h3
  · exact bumpIn_inv e.task e.outcome e.cost ho p.tasks h4
  · exact bumpIn_inv _ e.outcome e.cost ho p.categories h5
  · exact bumpPT_inv e.provider e.task e.outcome e.cost ho p.provider_task h6

/-- The monthly sections keep the invariant under `bumpMonthly`. -/
theorem bumpMonthly_inv (e : TelemetryEvent)
    (ho : e.outcome = "success" ∨ e.outcome = "error") :
    ∀ (m : List (String × PeriodSnapshot)),
    (∀ kv ∈ m, periodInvB kv.2 = true) →
    ∀ kv ∈ bumpMonthly m e, periodInvB kv.2 = true := by
  intro m
  induction m with
  | nil =>
    intro _ kv hkv
    simp only [bumpMonthly, List.mem_singleton] at hkv
    rw [hkv]
    exact bumpSnapshot_periodInv emptyPeriod e ho (by decide)
  | cons hd tl ih =>
    obtain ⟨k0, p0⟩ := hd
    intro h kv hkv
    rw [bumpMonthly] at hkv
    split at hkv
    · rcases List.mem_cons.mp hkv with h1 | h1
      · rw [h1]
        exact bumpSnapshot_periodInv p0 e ho (h (k0, p0) (List.mem_cons_self _ _))
      · exact h kv (List.mem_cons_of_mem _ h1)
    · rcases List.mem_cons.mp hkv with h1 | h1
      · rw [h1]
        exact h (k0, p0) (List.mem_cons_self _ _)
      · exact ih (fun kv2 hkv2 => h kv2 (List.mem_cons_of_mem _ hkv2)) kv h1

/-- One recorded event keeps the whole-snapshot invariant. -/
theorem recordEvent_inv (s : CounterSnapshot) (e : TelemetryEvent)
    (ho : e.outcome = "success" ∨ e.outcome = "error")
    (hs : snapshotInvB s = true) : snapshotInvB (recordEvent s e) = true := by
  simp only [snapshotInvB, Bool.and_eq_true, List.all_eq_true] at hs ⊢
  exact ⟨bumpSnapshot_periodInv s.allTime e ho hs.1,
    bumpMonthly_inv e ho s.monthly hs.2⟩

/-- C8.  After any sequence of recorded telemetry events whose outcomes are
`success` or `error`, every aggregation level of the counters snapshot
(global totals and each provider, model, task, category and provider-task
bucket, all-time and in every monthly section) satisfies
`attempts = success + error`, hence `attempts ≥ success` and
`attempts ≥ error`. -/
theorem C8_telemetry_invariant (events : List TelemetryEvent)
    (h : ∀ e ∈ events, e.outcome = "success" ∨ e.outcome = "error") :
    snapshotInvB (snapshotAfter events) = true ∧
    (∀ b : MetricBucket, bucketInvB b = true →
      b.attempts = b.success + b.error
        ∧ b.success ≤ b.attempts ∧ b.error ≤ b.attempts) := by
  constructor
  · rw [snapshotAfter]
    have main : ∀ (l : List TelemetryEvent) (s : CounterSnapshot),
        (∀ e ∈ l, e.outcome = "success" ∨ e.outcome = "error") →
        snapshotInvB s = true → snapshotInvB (l.foldl recordEvent s) = true := by
      intro l
      induction l with
      | nil => intro s _ hs; exact hs
      | cons e tl ih =>
        intro s hl hs
        exact ih (recordEvent s e)
          (fun e2 he2 => hl e2 (List.mem_cons_of_mem _ he2))
          (recordEvent_inv s e (hl e (List.mem_cons_self _ _)) hs)
    exact main events ⟨emptyPeriod, []⟩ h (by decide)
  · intro b hb
    simp only [bucketInvB, beq_iff_eq] at hb
    omega

/-- Witness for C8 on a concrete three-event sequence. -/
theorem C8_telemetry_invariant_witness :
    snapshotInvB (snapshotAfter
      [⟨"complete_text", "t", "openai", "m", 1, "error", "timeout", some "x", none, "2026-01"⟩,
       ⟨"complete_text", "t", "gemini", "m", 1, "success", "success", none, some 1, "2026-01"⟩,
       ⟨"repair_json", "t_repair", "gemini", "m", 1, "success", "success", none, none, "2026-02"⟩])
      = true :=
  (C8_telemetry_invariant
    [⟨"complete_text", "t", "openai", "m", 1, "error", "timeout", some "x", none, "2026-01"⟩,
     ⟨"complete_text", "t", "gemini", "m", 1, "success", "success", none, some 1, "2026-01"⟩,
     ⟨"repair_json", "t_repair", "gemini", "m", 1, "success", "success", none, none, "2026-02"⟩]
    (by intro e he; fin_cases he <;> simp)).1

/-- Membership in the result of a dict assignment: either an untouched
entry or the assigned pair. -/
theorem mem_setItem (kv : String × JValue) :
    ∀ (es : List (String × JValue)) (k : String) (v : JValue),
    kv ∈ setItem es k v → kv ∈ es ∨ kv = (k, v) := by
  intro es
  induction es with
  | nil => intro k v h; simp [setItem] at h; exact Or.inr h
  | cons hd tl ih =>
    obtain ⟨k0, v0⟩ := hd
    intro k v h
    rw [setItem] at h
    split at h
    · rcases List.mem_cons.mp h with h1 | h1
      · subst h1
        rename_i heq
        exact Or.inr (by rw [heq])
      · exact Or.inl (List.mem_cons_of_mem _ h1)
    · rcases List.mem_cons.mp h with h1 | h1
      · exact Or.inl (h1 ▸ List.mem_cons_self _ _)
      · rcases ih k v h1 with h2 | h2
        · exact Or.inl (List.mem_cons_of_mem _ h2)
        · exact Or.inr h2

/-- Membership after a `setdefault`. -/
theorem mem_setdefault (kv : String × JValue) (es : List (String × JValue))
    (k : String) (v : JValue) :
    kv ∈ setdefault es k v → kv ∈ es ∨ kv = (k, v) := by
  rw [setdefault]
  split
  · exact Or.inl
  · intro h
    rcases List.mem_append.mp h with h1 | h1
    · exact Or.inl h1
    · exact Or.inr (by simpa using h1)

/-- Lookup of the assigned key after a dict assignment. -/
theorem lookup_setItem_self :
    ∀ (es : List (String × JValue)) (k : String) (v : JValue),
    List.lookup k (setItem es k v) = some v := by
  intro es
  induction es with
  | nil => intro k v; simp [setItem, List.lookup]
  | cons hd tl ih =>
    obtain ⟨k0, v0⟩ := hd
    intro k v
    rw [setItem]
    split
    · rename_i heq
      simp [List.lookup, heq]
    · rename_i hne
      have : (k == k0) = false := by
        simp only [beq_eq_false_iff_ne, ne_eq]
        exact fun h => hne h.symm
      simp [List.lookup, this, ih]

/-- Lookup of a different key after a dict assignment. -/
theorem lookup_setItem_ne :
    ∀ (es : List (String × JValue)) (k k0 : String) (v : JValue), k ≠ k0 →
    List.lookup k (setItem es k0 v) = List.lookup k es := by
  intro es
  induction es with
  | nil =>
    intro k k0 v hne
    simp [setItem, List.lookup, beq_eq_false_iff_ne.mpr hne]
  | cons hd tl ih =>
    obtain ⟨k1, v1⟩ := hd
    intro k k0 v hne
    rw [setItem]
    split
    · rename_i heq
      subst heq
      simp [List.lookup, beq_eq_false_iff_ne.mpr hne]
    · by_cases hk : k = k1
      · subst hk
        simp [List.lookup]
      · simp [List.lookup, beq_eq_false_iff_ne.mpr hk, ih k k0 v hne]

/-- Lookup in an appended association list. -/
theorem lookup_append (k : String) :
    ∀ (a b : List (String × JValue)),
    List.lookup k (a ++ b)
      = (List.lookup k a).orElse (fun _ => List.lookup k b) := by
  intro a b
  induction a with
  | nil => simp [List.lookup]
  | cons hd tl ih =>
    obtain ⟨k0, v0⟩ := hd
    by_cases hk : k = k0
    · subst hk
      simp [List.lookup]
    · simp [List.lookup, beq_eq_false_iff_ne.mpr hk, ih]

/-- Lookup after `setdefault` for a different key. -/
theorem lookup_setdefault_ne (es : List (String × JValue)) (k k0 : String)
    (v : JValue) (hne : k ≠ k0) :
    List.lookup k (setdefault es k0 v) = List.lookup k es := by
  rw [setdefault]
  split
  · rfl
  · rw [lookup_append]
    cases h : List.lookup k es
    · simp [List.lookup, beq_eq_false_iff_ne.mpr hne]
    · simp

/-- Lookup of the defaulted key after `setdefault` is always present. -/
theorem lookup_setdefault_self (es : List (String × JValue)) (k : String)
    (v : JValue) :
    (List.lookup k (setdefault es k v)).isSome = true := by
  rw [setdefault]
  split
  · assumption
  · rename_i h
    rw [lookup_append]
    cases h2 : List.lookup k es
    · simp [List.lookup]
    · simp [h2] at h

/-- `List.contains` through the structural equality of JSON values is
membership. -/
theorem jcontains_iff (l : List JValue) (a : JValue) :
    l.contains a = true ↔ a ∈ l := by
  induction l with
  | nil => simp
  | cons hd tl ih =>
    simp only [List.contains_cons, Bool.or_eq_true, List.mem_cons, ih]
    constructor
    · rintro (h | h)
      · exact Or.inl ((JValue.beq_iff a hd).mp h).symm.symm
      · exact Or.inr h
    · rintro (h | h)
      · exact Or.inl ((JValue.beq_iff a hd).mpr h)
      · exact Or.inr h

/-- `jnodupB` is duplicate-freeness. -/
theorem jnodupB_iff (l : List JValue) : jnodupB l = true ↔ l.Nodup := by
  induction l with
  | nil => simp [jnodupB]
  | cons hd tl ih =>
    rw [jnodupB]
    simp only [Bool.and_eq_true, List.nodup_cons, ih, Bool.not_eq_true']
    constructor
    · rintro ⟨h1, h2⟩
      refine ⟨fun hm => ?_, h2⟩
      rw [(jcontains_iff tl hd).mpr hm] at h1
      exact Bool.false_ne_true h1.symm
    · rintro ⟨h1, h2⟩
      refine ⟨?_, h2⟩
      by_cases hc : tl.contains hd = true
      · exact absurd ((jcontains_iff tl hd).mp hc) h1
      · simpa using hc

/-- Entry-wise reading of `wfEntries`. -/
theorem wfEntries_iff :
    ∀ es : List (String × JValue),
    JValue.wfEntries es = true ↔ ∀ kv ∈ es, JValue.wfB kv.2 = true := by
  intro es
  induction es with
  | nil => simp [JValue.wfEntries]
  | cons hd tl ih =>
    obtain ⟨k, v⟩ := hd
    rw [JValue.wfEntries]
    simp [Bool.and_eq_true, ih]

/-- Item-wise reading of `wfList`. -/
theorem wfList_iff :
    ∀ l : List JValue,
    JValue.wfList l = true ↔ ∀ v ∈ l, JValue.wfB v = true := by
  intro l
  induction l with
  | nil => simp [JValue.wfList]
  | cons hd tl ih =>
    rw [JValue.wfList]
    simp [Bool.and_eq_true, ih]

/-- Entry-wise reading of `strictOutEntriesB`. -/
theorem strictOutEntriesB_iff :
    ∀ es : List (String × JValue),
    strictOutEntriesB es = true ↔ ∀ kv ∈ es, strictOutB kv.2 = true := by
  intro es
  induction es with
  | nil => simp [strictOutEntriesB]
  | cons hd tl ih =>
    obtain ⟨k, v⟩ := hd
    rw [strictOutEntriesB]
    simp [Bool.and_eq_true, ih]

/-- Item-wise reading of `strictOutListB`. -/
theorem strictOutListB_iff :
    ∀ l : List JValue,
    strictOutListB l = true ↔ ∀ v ∈ l, strictOutB v = true := by
  intro l
  induction l with
  | nil => simp [strictOutListB]
  | cons hd tl ih =>
    rw [strictOutListB]
    simp [Bool.and_eq_true, ih]

/-- Entry-wise reading of `goodReqEntriesB`. -/
theorem goodReqEntriesB_iff :
    ∀ es : List (String × JValue),
    goodReqEntriesB es = true ↔ ∀ kv ∈ es, goodReqB kv.2 = true := by
  intro es
  induction es with
  | nil => simp [goodReqEntriesB]
  | cons hd tl ih =>
    obtain ⟨k, v⟩ := hd
    rw [goodReqEntriesB]
    simp [Bool.and_eq_true, ih]

/-- Item-wise reading of `goodReqListB`. -/
theorem goodReqListB_iff :
    ∀ l : List JValue,
    goodReqListB l = true ↔ ∀ v ∈ l, goodReqB v = true := by
  intro l
  induction l with
  | nil => simp [goodReqListB]
  | cons hd tl ih =>
    rw [goodReqListB]
    simp [Bool.and_eq_true, ih]

/-- The entries walk of `normalize` maps the walk over entry values. -/
theorem strictNormEntries_eq_map :
    ∀ es : List (String × JValue),
    strictNormEntries es = es.map (fun kv => (kv.1, strictNorm kv.2)) := by
  intro es
  induction es with
  | nil => simp [strictNormEntries]
  | cons hd tl ih =>
    obtain ⟨k, v⟩ := hd
    rw [strictNormEntries]
    simp [ih]

/-- The list walk of `normalize` maps the walk over items. -/
theorem strictNormList_eq_map :
    ∀ l : List JValue, strictNormList l = l.map strictNorm := by
  intro l
  induction l with
  | nil => simp [strictNormList]
  | cons hd tl ih =>
    rw [strictNormList]
    simp [ih]

/-- `normalize` leaves a list of strings unchanged. -/
theorem strictNormList_of_strings (rs : List JValue)
    (h : rs.all (fun x => match x with | .str _ => true | _ => false) = true) :
    strictNormList rs = rs := by
  induction rs with
  | nil => simp [strictNormList]
  | cons hd tl ih =>
    simp only [List.all_cons, Bool.and_eq_true] at h
    rw [strictNormList]
    cases hd with
    | str s => rw [ih h.2]; rfl
    | null => exact absurd h.1 (by simp)
    | bool b => exact absurd h.1 (by simp)
    | num n => exact absurd h.1 (by simp)
    | arr xs => exact absurd h.1 (by simp)
    | obj es2 => exact absurd h.1 (by simp)

/-- Entry-value lookup commutes with the entries walk of `normalize`. -/
theorem lookup_strictNormEntries (k : String) :
    ∀ es : List (String × JValue),
    List.lookup k (strictNormEntries es) = (List.lookup k es).map strictNorm := by
  intro es
  induction es with
  | nil => simp [strictNormEntries, List.lookup]
  | cons hd tl ih =>
    obtain ⟨k0, v0⟩ := hd
    rw [strictNormEntries]
    by_cases hk : k = k0
    · subst hk
      simp [List.lookup]
    · simp [List.lookup, beq_eq_false_iff_ne.mpr hk, ih]

/-- The entries walk of `normalize` preserves the key list. -/
theorem keys_strictNormEntries (es : List (String × JValue)) :
    (strictNormEntries es).map Prod.fst = es.map Prod.fst := by
  rw [strictNormEntries_eq_map]
  simp

/-- A successful lookup is membership. -/
theorem lookup_mem (k : String) (v : JValue) :
    ∀ es : List (String × JValue), List.lookup k es = some v → (k, v) ∈ es := by
  intro es
  induction es with
  | nil => intro h; simp [List.lookup] at h
  | cons hd tl ih =>
    obtain ⟨k0, v0⟩ := hd
    intro h
    rw [List.lookup] at h
    by_cases hk : k = k0
    · subst hk
      simp at h
      exact h ▸ List.mem_cons_self _ _
    · simp only [beq_eq_false_iff_ne.mpr hk] at h
      exact List.mem_cons_of_mem _ (ih h)

/-- A present key is a member of the key list. -/
theorem lookup_isSome_iff (k : String) :
    ∀ es : List (String × JValue),
    (List.lookup k es).isSome = true ↔ k ∈ es.map Prod.fst := by
  intro es
  induction es with
  | nil => simp [List.lookup]
  | cons hd tl ih =>
    obtain ⟨k0, v0⟩ := hd
    by_cases hk : k = k0
    · subst hk
      simp [List.lookup]
    · simp [List.lookup, beq_eq_false_iff_ne.mpr hk, ih, hk]

/-- Key list after a dict assignment. -/
theorem keys_setItem :
    ∀ (es : List (String × JValue)) (k : String) (v : JValue),
    (setItem es k v).map Prod.fst
      = if k ∈ es.map Prod.fst then es.map Prod.fst
        else es.map Prod.fst ++ [k] := by
  intro es
  induction es with
  | nil => intro k v; simp [setItem]
  | cons hd tl ih =>
    obtain ⟨k0, v0⟩ := hd
    intro k v
    rw [setItem]
    split
    · rename_i heq
      subst heq
      simp
    · rename_i hne
      have hkk0 : ¬k = k0 := fun h => hne h.symm
      simp only [List.map_cons, ih, List.mem_cons, hkk0, false_or]
      split <;> simp

/-- Key list after a `setdefault`. -/
theorem keys_setdefault (es : List (String × JValue)) (k : String) (v : JValue) :
    (setdefault es k v).map Prod.fst
      = if (List.lookup k es).isSome then es.map Prod.fst
        else es.map Prod.fst ++ [k] := by
  rw [setdefault]
  split <;> simp_all

/-- Dict assignment preserves duplicate-freeness of the key list. -/
theorem nodup_keys_setItem (es : List (String × JValue)) (k : String) (v : JValue)
    (h : (es.map Prod.fst).Nodup) : ((setItem es k v).map Prod.fst).Nodup := by
  rw [keys_setItem]
  split
  · exact h
  · rename_i hk
    simp [List.nodup_append, h, hk]

/-- `setdefault` preserves duplicate-freeness of the key list. -/
theorem nodup_keys_setdefault (es : List (String × JValue)) (k : String) (v : JValue)
    (h : (es.map Prod.fst).Nodup) : ((setdefault es k v).map Prod.fst).Nodup := by
  rw [keys_setdefault]
  split
  · exact h
  · rename_i hk
    rw [lookup_isSome_iff] at hk
    simp [List.nodup_append, h, hk]

/-- Lookup of keys other than `additionalProperties` and `required` passes
through the strict-object post-processing unchanged. -/
theorem lookup_strictPost_other (es : List (String × JValue)) (k : String)
    (h1 : k ≠ "additionalProperties") (h2 : k ≠ "required") :
    List.lookup k (strictPost es) = List.lookup k es := by
  simp only [strictPost]
  split
  · split
    · split
      · split
        · exact lookup_setdefault_ne es k _ _ h1
        · rw [lookup_setItem_ne _ k _ _ h2]
          exact lookup_setdefault_ne es k _ _ h1
      · rw [lookup_setItem_ne _ k _ _ h2]
        exact lookup_setdefault_ne es k _ _ h1
    · rfl
  · rfl

/-- Equality test of an optional JSON value against a fixed value. -/
theorem jopt_beq_iff (o : Option JValue) (x : JValue) :
    (o == some x) = true ↔ o = some x := by
  cases o with
  | none =>
    constructor
    · intro h
      exact Bool.noConfusion h
    · intro h
      exact Option.noConfusion h
  | some y =>
    have h := JValue.beq_iff y x
    constructor
    · intro hb
      exact congrArg some (h.mp hb)
    · intro hb
      exact h.mpr (Option.some.inj hb)

/-- Characterization of the amended strict-object property on an object
node. -/
theorem strictOutB_obj (L : List (String × JValue)) :
    strictOutB (.obj L) = true ↔
      ((List.lookup "type" L = some (.str "object") →
        ∀ p rest, List.lookup "properties" L = some (.obj (p :: rest)) →
          strictOutNodeB L = true) ∧ strictOutEntriesB L = true) := by
  rw [strictOutB]
  simp only [Bool.and_eq_true]
  constructor
  · rintro ⟨h1, h2⟩
    refine ⟨fun ht p rest hp => ?_, h2⟩
    rw [ht, hp] at h1
    exact h1
  · rintro ⟨h1, h2⟩
    refine ⟨?_, h2⟩
    rcases ht : List.lookup "type" L with _ | tv
    · simp
    · cases tv with
      | str s =>
        by_cases hs : s = "object"
        · subst hs
          rcases hp : List.lookup "properties" L with _ | pv
          · simp
          · cases pv with
            | obj ps =>
              cases ps with
              | nil => simp
              | cons p rest => exact h1 ht p rest hp
            | null => simp
            | bool b => simp
            | num n2 => simp
            | str s2 => simp
            | arr xs => simp
        · simp [hs]
      | null => simp
      | bool b => simp
      | num n2 => simp
      | arr xs => simp
      | obj es2 => simp

/-- The strict-object post-processing preserves duplicate-freeness of the
key list. -/
theorem nodup_keys_strictPost (es : List (String × JValue))
    (h : (es.map Prod.fst).Nodup) : ((strictPost es).map Prod.fst).Nodup := by
  simp only [strictPost]
  split
  · split
    · split
      · split
        · exact nodup_keys_setdefault es _ _ h
        · exact nodup_keys_setItem _ _ _ (nodup_keys_setdefault es _ _ h)
      · exact nodup_keys_setItem _ _ _ (nodup_keys_setdefault es _ _ h)
    · exact h
  · exact h

/-- A list of string values satisfies the amended strict-object property. -/
theorem strictOutB_arr_strings (rs : List JValue)
    (h : ∀ x ∈ rs, ∃ s, x = JValue.str s) : strictOutB (.arr rs) = true := by
  rw [strictOutB, strictOutListB_iff]
  intro v hv
  obtain ⟨s, hs⟩ := h v hv
  subst hs
  simp [strictOutB]

/-- Main induction for the amended strict-object claim: on well-formed
input whose `required` lists are duplicate-free string lists, `normalize`
produces a value satisfying the amended strict-object property at every
node. -/
theorem strictNorm_strictOut (n : Nat) :
    ∀ v : JValue, sizeOf v ≤ n → JValue.wfB v = true → goodReqB v = true →
      strictOutB (strictNorm v) = true := by
  induction n with
  | zero => intro v h _ _; cases v <;> simp at h
  | succ n ih =>
    intro v hsz hwf hgr
    cases v with
    | null => simp [strictNorm, strictOutB]
    | bool b => simp [strictNorm, strictOutB]
    | num m => simp [strictNorm, strictOutB]
    | str s => simp [strictNorm, strictOutB]
    | arr xs =>
      rw [strictNorm, strictOutB, strictNormList_eq_map, strictOutListB_iff]
      intro w hw
      obtain ⟨u, hu, rfl⟩ := List.mem_map.mp hw
      have hszu : sizeOf u ≤ n := by
        have h1 := List.sizeOf_lt_of_mem hu
        simp at hsz
        omega
      refine ih u hszu ?_ ?_
      · rw [JValue.wfB] at hwf
        exact (wfList_iff xs).mp hwf u hu
      · rw [goodReqB] at hgr
        exact (goodReqListB_iff xs).mp hgr u hu
    | obj es =>
      rw [JValue.wfB] at hwf
      simp only [Bool.and_eq_true, decide_eq_true_eq] at hwf
      obtain ⟨hknd, hwfe⟩ := hwf
      rw [goodReqB] at hgr
      simp only [Bool.and_eq_true] at hgr
      obtain ⟨hreqn, hgre⟩ := hgr
      have hents : ∀ kv ∈ es, JValue.wfB kv.2 = true := (wfEntries_iff es).mp hwfe
      have hgents : ∀ kv ∈ es, goodReqB kv.2 = true := (goodReqEntriesB_iff es).mp hgre
      have hszes : sizeOf es ≤ n := by simp at hsz; omega
      have hval : ∀ kv ∈ es, strictOutB (strictNorm kv.2) = true := by
        intro kv hkv
        have h1 := List.sizeOf_lt_of_mem hkv
        obtain ⟨k0, v0⟩ := kv
        refine ih v0 ?_ (hents (k0, v0) hkv) (hgents (k0, v0) hkv)
        simp only [Prod.mk.sizeOf_spec] at h1
        omega
      have hvals : ∀ kv ∈ strictNormEntries es, strictOutB kv.2 = true := by
        rw [strictNormEntries_eq_map]
        intro kv hkv
        obtain ⟨⟨k0, v0⟩, hm, heq⟩ := List.mem_map.mp hkv
        rw [← heq]
        exact hval (k0, v0) hm
      have hknd' : ((strictNormEntries es).map Prod.fst).Nodup := by
        rw [keys_strictNormEntries]
        exact hknd
      rw [strictNorm, strictOutB_obj]
      by_cases hto : List.lookup "type" (strictNormEntries es) = some (.str "object")
      case neg =>
        have hpost : strictPost (strictNormEntries es) = strictNormEntries es := by
          rw [strictPost, if_neg]
          intro hcond
          exact hto ((jopt_beq_iff _ _).mp hcond)
        rw [hpost]
        exact ⟨fun hT _ _ _ => absurd hT hto, (strictOutEntriesB_iff _).mpr hvals⟩
      case pos =>
        have hcond : (List.lookup "type" (strictNormEntries es)
            == some (JValue.str "object")) = true := (jopt_beq_iff _ _).mpr hto
        rcases hpo : List.lookup "properties" (strictNormEntries es) with _ | pv
        · have hpost : strictPost (strictNormEntries es) = strictNormEntries es := by
            rw [strictPost, if_pos hcond, hpo]
          rw [hpost]
          refine ⟨fun hT p rest hp => ?_, (strictOutEntriesB_iff _).mpr hvals⟩
          rw [hpo] at hp
          exact Option.noConfusion hp
        · cases pv with
          | null =>
            have hpost : strictPost (strictNormEntries es) = strictNormEntries es := by
              rw [strictPost, if_pos hcond, hpo]
            rw [hpost]
            refine ⟨fun hT p rest hp => ?_, (strictOutEntriesB_iff _).mpr hvals⟩
            rw [hpo] at hp
            exact JValue.noConfusion (Option.some.inj hp)
          | bool b =>
            have hpost : strictPost (strictNormEntries es) = strictNormEntries es := by
              rw [strictPost, if_pos hcond, hpo]
            rw [hpost]
            refine ⟨fun hT p rest hp => ?_, (strictOutEntriesB_iff _).mpr hvals⟩
            rw [hpo] at hp
            exact JValue.noConfusion (Option.some.inj hp)
          | num m2 =>
            have hpost : strictPost (strictNormEntries es) = strictNormEntries es := by
              rw [strictPost, if_pos hcond, hpo]
            rw [hpost]
            refine ⟨fun hT p rest hp => ?_, (strictOutEntriesB_iff _).mpr hvals⟩
            rw [hpo] at hp
            exact JValue.noConfusion (Option.some.inj hp)
          | str s2 =>
            have hpost : strictPost (strictNormEntries es) = strictNormEntries es := by
              rw [strictPost, if_pos hcond, hpo]
            rw [hpost]
            refine ⟨fun hT p rest hp => ?_, (strictOutEntriesB_iff _).mpr hvals⟩
            rw [hpo] at hp
            exact JValue.noConfusion (Option.some.inj hp)
          | arr xs2 =>
            have hpost : strictPost (strictNormEntries es) = strictNormEntries es := by
              rw [strictPost, if_pos hcond, hpo]
            rw [hpost]
            refine ⟨fun hT p rest hp => ?_, (strictOutEntriesB_iff _).mpr hvals⟩
            rw [hpo] at hp
            exact JValue.noConfusion (Option.some.inj hp)
          | obj ps =>
            -- the schema-node branch of the post-processing runs
            have hpskeys : (ps.map Prod.fst).Nodup := by
              have hpsmem : ("properties", JValue.obj ps) ∈ strictNormEntries es :=
                lookup_mem _ _ _ hpo
              rw [strictNormEntries_eq_map] at hpsmem
              obtain ⟨⟨k0, v0⟩, hm, heq⟩ := List.mem_map.mp hpsmem
              simp only [Prod.mk.injEq] at heq
              obtain ⟨hk0, hv0⟩ := heq
              cases v0 with
              | obj ps0 =>
                rw [strictNorm] at hv0
                have hps : strictPost (strictNormEntries ps0) = ps :=
                  JValue.obj.inj hv0
                rw [← hps]
                apply nodup_keys_strictPost
                rw [keys_strictNormEntries]
                have hw := hents (k0, .obj ps0) hm
                rw [JValue.wfB] at hw
                simp only [Bool.and_eq_true, decide_eq_true_eq] at hw
                exact hw.1
              | null => exact absurd hv0 (by simp [strictNorm])
              | bool b2 => exact absurd hv0 (by simp [strictNorm])
              | num m2 => exact absurd hv0 (by simp [strictNorm])
              | str s2 => exact absurd hv0 (by simp [strictNorm])
              | arr l2 => exact absurd hv0 (by simp [strictNorm])
            have haP : (List.lookup "additionalProperties"
                (setdefault (strictNormEntries es) "additionalProperties"
                  (JValue.bool false))).isSome = true :=
              lookup_setdefault_self _ _ _
            have hprops1 : List.lookup "properties"
                (setdefault (strictNormEntries es) "additionalProperties"
                  (JValue.bool false)) = some (.obj ps) := by
              rw [lookup_setdefault_ne _ _ _ _ (by decide)]
              exact hpo
            have hentries1 : ∀ kv ∈ setdefault (strictNormEntries es)
                "additionalProperties" (JValue.bool false), strictOutB kv.2 = true := by
              intro kv hkv
              rcases mem_setdefault kv _ _ _ hkv with h1 | h1
              · exact hvals kv h1
              · rw [h1]
                simp [strictOutB]
            rcases hrq : List.lookup "required"
                (setdefault (strictNormEntries es) "additionalProperties"
                  (JValue.bool false)) with _ | rv
            · -- no required entry: it is created from the property keys
              have hpost : strictPost (strictNormEntries es)
                  = setItem (setdefault (strictNormEntries es) "additionalProperties"
                      (JValue.bool false)) "required"
                      (JValue.arr ((dictKeys ps).map JValue.str)) := by
                rw [strictPost, if_pos hcond, hpo]
                simp only [hrq]
              rw [hpost]
              constructor
              · intro hT p rest hp
                rw [strictOutNodeB]
                rw [lookup_setItem_ne _ _ _ _ (by decide), lookup_setItem_self,
                  lookup_setItem_ne _ _ _ _ (by decide), hprops1]
                simp only [haP, Bool.true_and]
                rw [lookup_setItem_ne _ _ _ _ (by decide), hprops1] at hp
                have hps' : ps = p :: rest := JValue.obj.inj (Option.some.inj hp)
                simp only [Bool.and_eq_true, List.all_eq_true]
                constructor
                · intro k hk
                  rw [jcontains_iff]
                  exact List.mem_map_of_mem _ hk
                · rw [jnodupB_iff]
                  exact hpskeys.map (fun a b h => JValue.str.inj h)
              · rw [strictOutEntriesB_iff]
                intro kv hkv
                rcases mem_setItem kv _ _ _ hkv with h1 | h1
                · exact hentries1 kv h1
                · rw [h1]
                  apply strictOutB_arr_strings
                  intro x hx
                  obtain ⟨k2, _, rfl⟩ := List.mem_map.mp hx
                  exact ⟨k2, rfl⟩
            · cases rv with
              | arr req =>
                -- required exists: identify it as the original string list
                have hrq' : List.lookup "required" (strictNormEntries es)
                    = some (.arr req) := by
                  rw [← lookup_setdefault_ne (strictNormEntries es) "required"
                    "additionalProperties" (JValue.bool false) (by decide)]
                  exact hrq
                have hreqstr : (req.all (fun x => match x with
                    | JValue.str _ => true | _ => false) = true) ∧ jnodupB req = true := by
                  have hmem := lookup_mem _ _ _ hrq'
                  rw [strictNormEntries_eq_map] at hmem
                  obtain ⟨⟨k0, v0⟩, hm, heq⟩ := List.mem_map.mp hmem
                  simp only [Prod.mk.injEq] at heq
                  obtain ⟨hk0, hv0⟩ := heq
                  cases v0 with
                  | arr req0 =>
                    rw [strictNorm] at hv0
                    have hreq0 : strictNormList req0 = req := JValue.arr.inj hv0
                    have hnode := (List.all_eq_true.mp hreqn) (k0, .arr req0) hm
                    rw [hk0] at hnode
                    simp only [Bool.and_eq_true] at hnode
                    have hstr : req0.all (fun x => match x with
                        | JValue.str _ => true | _ => false) = true := hnode.2
                    have hre : req = req0 := by
                      rw [← hreq0, strictNormList_of_strings req0 hstr]
                    rw [hre]
                    exact ⟨hstr, hnode.1⟩
                  | null => exact absurd hv0 (by simp [strictNorm])
                  | bool b2 => exact absurd hv0 (by simp [strictNorm])
                  | num m2 => exact absurd hv0 (by simp [strictNorm])
                  | str s2 => exact absurd hv0 (by simp [strictNorm])
                  | obj l2 => exact absurd hv0 (by simp [strictNorm])
                by_cases hmiss : (List.filter (fun k => !req.contains (JValue.str k))
                    (dictKeys ps)).isEmpty = true
                · -- every property key already listed: required unchanged
                  have hpost : strictPost (strictNormEntries es)
                      = setdefault (strictNormEntries es) "additionalProperties"
                          (JValue.bool false) := by
                    rw [strictPost, if_pos hcond, hpo]
                    simp only [hrq]
                    rw [if_pos hmiss]
                  rw [hpost]
                  constructor
                  · intro hT p rest hp
                    rw [strictOutNodeB, hrq, hprops1]
                    simp only [haP, Bool.true_and, Bool.and_eq_true, List.all_eq_true]
                    refine ⟨fun k hk => ?_, hreqstr.2⟩
                    have hfil := List.isEmpty_iff.mp hmiss
                    have := List.filter_eq_nil_iff.mp hfil k hk
                    simpa using this
                  · rw [strictOutEntriesB_iff]
                    exact hentries1
                · -- missing keys are appended to required
                  have hpost : strictPost (strictNormEntries es)
                      = setItem (setdefault (strictNormEntries es)
                          "additionalProperties" (JValue.bool false)) "required"
                          (JValue.arr (req ++ (List.filter
                            (fun k => !req.contains (JValue.str k))
                            (dictKeys ps)).map JValue.str)) := by
                    rw [strictPost, if_pos hcond, hpo]
                    simp only [hrq]
                    rw [if_neg hmiss]
                  rw [hpost]
                  constructor
                  · intro hT p rest hp
                    rw [strictOutNodeB]
                    rw [lookup_setItem_ne _ _ _ _ (by decide), lookup_setItem_self,
                      lookup_setItem_ne _ _ _ _ (by decide), hprops1]
                    simp only [haP, Bool.true_and, Bool.and_eq_true, List.all_eq_true]
                    constructor
                    · intro k hk
                      rw [jcontains_iff, List.mem_append]
                      by_cases hc : req.contains (JValue.str k) = true
                      · exact Or.inl ((jcontains_iff _ _).mp hc)
                      · refine Or.inr (List.mem_map_of_mem _ ?_)
                        rw [List.mem_filter]
                        exact ⟨hk, by simp [hc]⟩
                    · rw [jnodupB_iff]
                      refine List.Nodup.append ((jnodupB_iff req).mp hreqstr.2)
                        ((hpskeys.filter _).map (fun a b h => JValue.str.inj h)) ?_
                      intro x hx1 hx2
                      obtain ⟨k2, hk2, rfl⟩ := List.mem_map.mp hx2
                      rw [List.mem_filter] at hk2
                      have : req.contains (JValue.str k2) = true :=
                        (jcontains_iff _ _).mpr hx1
                      simp [this] at hk2
                  · rw [strictOutEntriesB_iff]
                    intro kv hkv
                    rcases mem_setItem kv _ _ _ hkv with h1 | h1
                    · exact hentries1 kv h1
                    · rw [h1]
                      apply strictOutB_arr_strings
                      intro x hx
                      rcases List.mem_append.mp hx with h2 | h2
                      · have hx2 := List.all_eq_true.mp hreqstr.1 x h2
                        cases x <;> simp_all
                      · obtain ⟨k2, _, rfl⟩ := List.mem_map.mp h2
                        exact ⟨k2, rfl⟩
              | null =>
                have hpost : strictPost (strictNormEntries es)
                    = setItem (setdefault (strictNormEntries es) "additionalProperties"
                        (JValue.bool false)) "required"
                        (JValue.arr ((dictKeys ps).map JValue.str)) := by
                  rw [strictPost, if_pos hcond, hpo]
                  simp only [hrq]
                rw [hpost]
                constructor
                · intro hT p rest hp
                  rw [strictOutNodeB]
                  rw [lookup_setItem_ne _ _ _ _ (by decide), lookup_setItem_self,
                    lookup_setItem_ne _ _ _ _ (by decide), hprops1]
                  simp only [haP, Bool.true_and, Bool.and_eq_true, List.all_eq_true]
                  refine ⟨fun k hk => ?_, ?_⟩
                  · rw [jcontains_iff]
                    exact List.mem_map_of_mem _ hk
                  · rw [jnodupB_iff]
                    exact hpskeys.map (fun a b h => JValue.str.inj h)
                · rw [strictOutEntriesB_iff]
                  intro kv hkv
                  rcases mem_setItem kv _ _ _ hkv with h1 | h1
                  · exact hentries1 kv h1
                  · rw [h1]
                    apply strictOutB_arr_strings
                    intro x hx
                    obtain ⟨k2, _, rfl⟩ := List.mem_map.mp hx
                    exact ⟨k2, rfl⟩
              | bool b2 =>
                have hpost : strictPost (strictNormEntries es)
                    = setItem (setdefault (strictNormEntries es) "additionalProperties"
                        (JValue.bool false)) "required"
                        (JValue.arr ((dictKeys ps).map JValue.str)) := by
                  rw [strictPost, if_pos hcond, hpo]
                  simp only [hrq]
                rw [hpost]
                constructor
                · intro hT p rest hp
                  rw [strictOutNodeB]
                  rw [lookup_setItem_ne _ _ _ _ (by decide), lookup_setItem_self,
                    lookup_setItem_ne _ _ _ _ (by decide), hprops1]
                  simp only [haP, Bool.true_and, Bool.and_eq_true, List.all_eq_true]
                  refine ⟨fun k hk => ?_, ?_⟩
                  · rw [jcontains_iff]
                    exact List.mem_map_of_mem _ hk
                  · rw [jnodupB_iff]
                    exact hpskeys.map (fun a b h => JValue.str.inj h)
                · rw [strictOutEntriesB_iff]
                  intro kv hkv
                  rcases mem_setItem kv _ _ _ hkv with h1 | h1
                  · exact hentries1 kv h1
                  · rw [h1]
                    apply strictOutB_arr_strings
                    intro x hx
                    obtain ⟨k2, _, rfl⟩ := List.mem_map.mp hx
                    exact ⟨k2, rfl⟩
              | num m2 =>
                have hpost : strictPost (strictNormEntries es)
                    = setItem (setdefault (strictNormEntries es) "additionalProperties"
                        (JValue.bool false)) "required"
                        (JValue.arr ((dictKeys ps).map JValue.str)) := by
                  rw [strictPost, if_pos hcond, hpo]
                  simp only [hrq]
                rw [hpost]
                constructor
                · intro hT p rest hp
                  rw [strictOutNodeB]
                  rw [lookup_setItem_ne _ _ _ _ (by decide), lookup_setItem_self,
                    lookup_setItem_ne _ _ _ _ (by decide), hprops1]
                  simp only [haP, Bool.true_and, Bool.and_eq_true, List.all_eq_true]
                  refine ⟨fun k hk => ?_, ?_⟩
                  · rw [jcontains_iff]
                    exact List.mem_map_of_mem _ hk
                  · rw [jnodupB_iff]
                    exact hpskeys.map (fun a b h => JValue.str.inj h)
                · rw [strictOutEntriesB_iff]
                  intro kv hkv
                  rcases mem_setItem kv _ _ _ hkv with h1 | h1
                  · exact hentries1 kv h1
                  · rw [h1]
                    apply strictOutB_arr_strings
                    intro x hx
                    obtain ⟨k2, _, rfl⟩ := List.mem_map.mp hx
                    exact ⟨k2, rfl⟩
              | str s2 =>
                have hpost : strictPost (strictNormEntries es)
                    = setItem (setdefault (strictNormEntries es) "additionalProperties"
                        (JValue.bool false)) "required"
                        (JValue.arr ((dictKeys ps).map JValue.str)) := by
                  rw [strictPost, if_pos hcond, hpo]
                  simp only [hrq]
                rw [hpost]
                constructor
                · intro hT p rest hp
                  rw [strictOutNodeB]
                  rw [lookup_setItem_ne _ _ _ _ (by decide), lookup_setItem_self,
                    lookup_setItem_ne _ _ _ _ (by decide), hprops1]
                  simp only [haP, Bool.true_and, Bool.and_eq_true, List.all_eq_true]
                  refine ⟨fun k hk => ?_, ?_⟩
                  · rw [jcontains_iff]
                    exact List.mem_map_of_mem _ hk
                  · rw [jnodupB_iff]
                    exact hpskeys.map (fun a b h => JValue.str.inj h)
                · rw [strictOutEntriesB_iff]
                  intro kv hkv
                  rcases mem_setItem kv _ _ _ hkv with h1 | h1
                  · exact hentries1 kv h1
                  · rw [h1]
                    apply strictOutB_arr_strings
                    intro x hx
                    obtain ⟨k2, _, rfl⟩ := List.mem_map.mp hx
                    exact ⟨k2, rfl⟩
              | obj l2 =>
                have hpost : strictPost (strictNormEntries es)
                    = setItem (setdefault (strictNormEntries es) "additionalProperties"
                        (JValue.bool false)) "required"
                        (JValue.arr ((dictKeys ps).map JValue.str)) := by
                  rw [strictPost, if_pos hcond, hpo]
                  simp only [hrq]
                rw [hpost]
                constructor
                · intro hT p rest hp
                  rw [strictOutNodeB]
                  rw [lookup_setItem_ne _ _ _ _ (by decide), lookup_setItem_self,
                    lookup_setItem_ne _ _ _ _ (by decide), hprops1]
                  simp only [haP, Bool.true_and, Bool.and_eq_true, List.all_eq_true]
                  refine ⟨fun k hk => ?_, ?_⟩
                  · rw [jcontains_iff]
                    exact List.mem_map_of_mem _ hk
                  · rw [jnodupB_iff]
                    exact hpskeys.map (fun a b h => JValue.str.inj h)
                · rw [strictOutEntriesB_iff]
                  intro kv hkv
                  rcases mem_setItem kv _ _ _ hkv with h1 | h1
                  · exact hentries1 kv h1
                  · rw [h1]
                    apply strictOutB_arr_strings
                    intro x hx
                    obtain ⟨k2, _, rfl⟩ := List.mem_map.mp hx
                    exact ⟨k2, rfl⟩

/-- On an object node of type `object` with a dict of properties and no
`additionalProperties` entry, the post-processing fills in
`additionalProperties = false`. -/
theorem lookup_aP_strictPost (es : List (String × JValue))
    (htype : List.lookup "type" es = some (.str "object"))
    (hpv : ∃ ps, List.lookup "properties" es = some (.obj ps))
    (haP : List.lookup "additionalProperties" es = none) :
    List.lookup "additionalProperties" (strictPost es) = some (.bool false) := by
  obtain ⟨ps, hp⟩ := hpv
  have hcond := (jopt_beq_iff _ _).mpr htype
  have habs : List.lookup "additionalProperties"
      (setdefault es "additionalProperties" (JValue.bool false))
      = some (.bool false) := by
    rw [setdefault, haP]
    simp only [Option.isSome_none, Bool.false_eq_true, if_false]
    rw [lookup_append, haP]
    simp [List.lookup]
  rcases hrq : List.lookup "required"
      (setdefault es "additionalProperties" (JValue.bool false)) with _ | rv
  · rw [strictPost, if_pos hcond, hp]
    simp only [hrq]
    rw [lookup_setItem_ne _ _ _ _ (by decide)]
    exact habs
  · cases rv with
    | arr req =>
      rw [strictPost, if_pos hcond, hp]
      simp only [hrq]
      split
      · exact habs
      · rw [lookup_setItem_ne _ _ _ _ (by decide)]
        exact habs
    | null =>
      rw [strictPost, if_pos hcond, hp]
      simp only [hrq]
      rw [lookup_setItem_ne _ _ _ _ (by decide)]
      exact habs
    | bool b =>
      rw [strictPost, if_pos hcond, hp]
      simp only [hrq]
      rw [lookup_setItem_ne _ _ _ _ (by decide)]
      exact habs
    | num m =>
      rw [strictPost, if_pos hcond, hp]
      simp only [hrq]
      rw [lookup_setItem_ne _ _ _ _ (by decide)]
      exact habs
    | str s =>
      rw [strictPost, if_pos hcond, hp]
      simp only [hrq]
      rw [lookup_setItem_ne _ _ _ _ (by decide)]
      exact habs
    | obj l2 =>
      rw [strictPost, if_pos hcond, hp]
      simp only [hrq]
      rw [lookup_setItem_ne _ _ _ _ (by decide)]
      exact habs

/-- C6 counterexample.  The claim demands `additionalProperties = false`
and a duplicate-free `required` at every object node of the strict-object
output.  The code instead uses `setdefault` (preserving a pre-existing
`additionalProperties: true`) and keeps whatever duplicates (or values that
normalize to duplicates) the input `required` lists contain, so the claimed
property fails on this well-formed schema: the top node carries
`additionalProperties: true` and `required: ["a", "a"]`, and the nested
node's duplicate-free non-string `required` entries normalize to equal
values. -/
theorem C6_strict_object_counterexample :
    JValue.wfB (.obj [("type", .str "object"),
      ("properties", .obj [
        ("a", .obj [("type", .str "string")]),
        ("b", .obj [("type", .str "object"),
          ("properties", .obj [("q", .obj [("type", .str "string")])]),
          ("required", .arr [
            .obj [("type", .str "object"), ("properties", .obj [])],
            .obj [("type", .str "object"), ("properties", .obj []),
              ("additionalProperties", .bool false)]])])]),
      ("additionalProperties", .bool true),
      ("required", .arr [.str "a", .str "a"])]) = true ∧
    jnodupB [JValue.obj [("type", .str "object"), ("properties", .obj [])],
      JValue.obj [("type", .str "object"), ("properties", .obj []),
        ("additionalProperties", .bool false)]] = true ∧
    strictClaimB (toOpenaiStrictSchema (.obj [("type", .str "object"),
      ("properties", .obj [
        ("a", .obj [("type", .str "string")]),
        ("b", .obj [("type", .str "object"),
          ("properties", .obj [("q", .obj [("type", .str "string")])]),
          ("required", .arr [
            .obj [("type", .str "object"), ("properties", .obj [])],
            .obj [("type", .str "object"), ("properties", .obj []),
              ("additionalProperties", .bool false)]])])]),
      ("additionalProperties", .bool true),
      ("required", .arr [.str "a", .str "a"])])) = false := by
  refine ⟨by decide, by decide, by decide⟩

/-- A `setdefault` never changes an existing value. -/
theorem lookup_setdefault_keep (es : List (String × JValue)) (k : String)
    (v w : JValue) (h : List.lookup k es = some w) :
    List.lookup k (setdefault es k v) = some w := by
  rw [setdefault, h]
  exact h

/-- On an object node with a properties dict, the post-step's
`additionalProperties` is exactly the `setdefault` result. -/
theorem lookup_aP_strictPost_eq (es : List (String × JValue))
    (ps : List (String × JValue))
    (htype : List.lookup "type" es = some (.str "object"))
    (hp : List.lookup "properties" es = some (.obj ps)) :
    List.lookup "additionalProperties" (strictPost es) =
      List.lookup "additionalProperties"
        (setdefault es "additionalProperties" (JValue.bool false)) := by
  have hcond := (jopt_beq_iff _ _).mpr htype
  rcases hrq : List.lookup "required"
      (setdefault es "additionalProperties" (JValue.bool false)) with _ | rv
  · rw [strictPost, if_pos hcond, hp]
    simp only [hrq]
    rw [lookup_setItem_ne _ _ _ _ (by decide)]
  · cases rv with
    | arr req =>
      rw [strictPost, if_pos hcond, hp]
      simp only [hrq]
      split
      · rfl
      · rw [lookup_setItem_ne _ _ _ _ (by decide)]
    | null =>
      rw [strictPost, if_pos hcond, hp]
      simp only [hrq]
      rw [lookup_setItem_ne _ _ _ _ (by decide)]
    | bool b =>
      rw [strictPost, if_pos hcond, hp]
      simp only [hrq]
      rw [lookup_setItem_ne _ _ _ _ (by decide)]
    | num m =>
      rw [strictPost, if_pos hcond, hp]
      simp only [hrq]
      rw [lookup_setItem_ne _ _ _ _ (by decide)]
    | str s =>
      rw [strictPost, if_pos hcond, hp]
      simp only [hrq]
      rw [lookup_setItem_ne _ _ _ _ (by decide)]
    | obj l2 =>
      rw [strictPost, if_pos hcond, hp]
      simp only [hrq]
      rw [lookup_setItem_ne _ _ _ _ (by decide)]

/-- The post-step preserves a pre-existing `additionalProperties` value. -/
theorem lookup_aP_strictPost_keep (es : List (String × JValue))
    (ps : List (String × JValue)) (w : JValue)
    (htype : List.lookup "type" es = some (.str "object"))
    (hp : List.lookup "properties" es = some (.obj ps))
    (haP : List.lookup "additionalProperties" es = some w) :
    List.lookup "additionalProperties" (strictPost es) = some w := by
  rw [lookup_aP_strictPost_eq es ps htype hp]
  exact lookup_setdefault_keep es _ _ w haP

/-- When the node carries a `required` list, the post-step keeps its
entries in place and appends exactly the property names it was missing, in
properties order. -/
theorem lookup_req_strictPost_arr (es : List (String × JValue))
    (ps : List (String × JValue)) (rs : List JValue)
    (htype : List.lookup "type" es = some (.str "object"))
    (hp : List.lookup "properties" es = some (.obj ps))
    (hrq : List.lookup "required" es = some (JValue.arr rs)) :
    List.lookup "required" (strictPost es) =
      some (JValue.arr (rs ++ ((dictKeys ps).filter
        (fun k => !rs.contains (JValue.str k))).map JValue.str)) := by
  have hcond := (jopt_beq_iff _ _).mpr htype
  have hrq1 : List.lookup "required"
      (setdefault es "additionalProperties" (JValue.bool false))
      = some (JValue.arr rs) := by
    rw [lookup_setdefault_ne _ _ _ _ (by decide)]
    exact hrq
  rw [strictPost, if_pos hcond, hp]
  simp only [hrq1]
  split
  · rename_i hemp
    have hm : (dictKeys ps).filter (fun k => !rs.contains (JValue.str k)) = [] := by
      simpa [List.isEmpty_iff] using hemp
    rw [hm]
    simp only [List.map_nil, List.append_nil]
    exact hrq1
  · exact lookup_setItem_self _ _ _

/-- When the node carries no `required` list, the post-step creates
`required` as exactly the property-name list, in order. -/
theorem lookup_req_strictPost_none (es : List (String × JValue))
    (ps : List (String × JValue))
    (htype : List.lookup "type" es = some (.str "object"))
    (hp : List.lookup "properties" es = some (.obj ps))
    (hrq : ∀ rs, List.lookup "required" es ≠ some (JValue.arr rs)) :
    List.lookup "required" (strictPost es) =
      some (JValue.arr ((dictKeys ps).map JValue.str)) := by
  have hcond := (jopt_beq_iff _ _).mpr htype
  rcases hrq0 : List.lookup "required" es with _ | rv
  · have hrq1 : List.lookup "required"
        (setdefault es "additionalProperties" (JValue.bool false)) = none := by
      rw [lookup_setdefault_ne _ _ _ _ (by decide)]
      exact hrq0
    rw [strictPost, if_pos hcond, hp]
    simp only [hrq1]
    exact lookup_setItem_self _ _ _
  · have hrq1 : List.lookup "required"
        (setdefault es "additionalProperties" (JValue.bool false)) = some rv := by
      rw [lookup_setdefault_ne _ _ _ _ (by decide)]
      exact hrq0
    cases rv with
    | arr req => exact absurd hrq0 (hrq req)
    | null =>
      rw [strictPost, if_pos hcond, hp]
      simp only [hrq1]
      exact lookup_setItem_self _ _ _
    | bool b =>
      rw [strictPost, if_pos hcond, hp]
      simp only [hrq1]
      exact lookup_setItem_self _ _ _
    | num m =>
      rw [strictPost, if_pos hcond, hp]
      simp only [hrq1]
      exact lookup_setItem_self _ _ _
    | str s =>
      rw [strictPost, if_pos hcond, hp]
      simp only [hrq1]
      exact lookup_setItem_self _ _ _
    | obj l2 =>
      rw [strictPost, if_pos hcond, hp]
      simp only [hrq1]
      exact lookup_setItem_self _ _ _

/-- C6 (amended).  For every well-formed schema whose `required` entries
are duplicate-free string lists, every object node of the strict-object
output with type `object` and a non-empty `properties` map carries an
`additionalProperties` entry and a `required` list containing every
property key with no duplicates.  Moreover the node-level post-processing
step - which `normalize` applies to every object node, after normalizing
its entry values - behaves exactly as follows on a node of type `object`
with a properties dict: `additionalProperties` is set to `false` when the
node has none and kept at the node's own value otherwise (the code's
`setdefault`); an existing `required` list keeps its entries in place and
is extended by exactly the missing property names in properties order; and
a node with no `required` list gets `required` set to exactly the
property-name list, in order. -/
theorem C6_strict_object_amended (v : JValue)
    (hwf : JValue.wfB v = true) (hgr : goodReqB v = true) :
    strictOutB (toOpenaiStrictSchema v) = true ∧
    (∀ es, strictNorm (JValue.obj es) =
      JValue.obj (strictPost (strictNormEntries es))) ∧
    (∀ es ps, List.lookup "type" es = some (JValue.str "object") →
      List.lookup "properties" es = some (JValue.obj ps) →
      (List.lookup "additionalProperties" es = none →
        List.lookup "additionalProperties" (strictPost es)
          = some (JValue.bool false)) ∧
      (∀ w, List.lookup "additionalProperties" es = some w →
        List.lookup "additionalProperties" (strictPost es) = some w) ∧
      (∀ rs, List.lookup "required" es = some (JValue.arr rs) →
        List.lookup "required" (strictPost es) =
          some (JValue.arr (rs ++ ((dictKeys ps).filter
            (fun k => !rs.contains (JValue.str k))).map JValue.str))) ∧
      ((∀ rs, List.lookup "required" es ≠ some (JValue.arr rs)) →
        List.lookup "required" (strictPost es) =
          some (JValue.arr ((dictKeys ps).map JValue.str)))) := by
  refine ⟨?_, fun es => rfl, ?_⟩
  · have h := strictNorm_strictOut (sizeOf v) v (Nat.le_refl _) hwf hgr
    rw [toOpenaiStrictSchema]
    cases hn : strictNorm v with
    | obj L => rw [hn] at h; exact h
    | null => rfl
    | bool b => rfl
    | num m => rfl
    | str s => rfl
    | arr xs => rfl
  · intro es ps htype hp
    exact ⟨fun haP => lookup_aP_strictPost es htype ⟨ps, hp⟩ haP,
      fun w haP => lookup_aP_strictPost_keep es ps w htype hp haP,
      fun rs hrq => lookup_req_strictPost_arr es ps rs htype hp hrq,
      fun hrq => lookup_req_strictPost_none es ps htype hp hrq⟩

/-- Witness for the amended C6: a nested concrete schema satisfies the
global strict-output property, a pre-existing `additionalProperties: true`
is preserved, `required = ["b"]` with properties `a, b` becomes
`["b", "a"]`, and an absent `required` becomes the property-name list. -/
theorem C6_strict_object_amended_witness :
    strictOutB (toOpenaiStrictSchema (.obj [("type", .str "object"),
      ("properties", .obj [
        ("a", .obj [("type", .str "string")]),
        ("src", .obj [("type", .str "object"),
          ("properties", .obj [("t", .obj [("type", .str "string")])]),
          ("required", .arr [.str "t"])])]),
      ("required", .arr [.str "a"])])) = true ∧
    List.lookup "additionalProperties" (strictPost [("type", .str "object"),
      ("properties", .obj [("a", .obj [("type", .str "string")])]),
      ("additionalProperties", .bool true)]) = some (.bool true) ∧
    List.lookup "required" (strictPost [("type", .str "object"),
      ("properties", .obj [("a", .obj [("type", .str "string")]),
        ("b", .obj [("type", .str "string")])]),
      ("required", .arr [.str "b"])]) =
      some (.arr [.str "b", .str "a"]) ∧
    List.lookup "required" (strictPost [("type", .str "object"),
      ("properties", .obj [("a", .obj [("type", .str "string")]),
        ("b", .obj [("type", .str "string")])])]) =
      some (.arr [.str "a", .str "b"]) := by
  have h := C6_strict_object_amended (.obj [("type", .str "object"),
      ("properties", .obj [
        ("a", .obj [("type", .str "string")]),
        ("src", .obj [("type", .str "object"),
          ("properties", .obj [("t", .obj [("type", .str "string")])]),
          ("required", .arr [.str "t"])])]),
      ("required", .arr [.str "a"])]) (by decide) (by decide)
  refine ⟨h.1, ?_, ?_, ?_⟩
  · exact (h.2.2 [("type", .str "object"),
      ("properties", .obj [("a", .obj [("type", .str "string")])]),
      ("additionalProperties", .bool true)]
      [("a", .obj [("type", .str "string")])] rfl rfl).2.1 (.bool true) rfl
  · exact (h.2.2 [("type", .str "object"),
      ("properties", .obj [("a", .obj [("type", .str "string")]),
        ("b", .obj [("type", .str "string")])]),
      ("required", .arr [.str "b"])]
      [("a", .obj [("type", .str "string")]),
       ("b", .obj [("type", .str "string")])] rfl rfl).2.2.1 [.str "b"] rfl
  · exact (h.2.2 [("type", .str "object"),
      ("properties", .obj [("a", .obj [("type", .str "string")]),
        ("b", .obj [("type", .str "string")])])]
      [("a", .obj [("type", .str "string")]),
       ("b", .obj [("type", .str "string")])] rfl rfl).2.2.2
      (fun rs hrs => nomatch hrs)

/-- `Char.ofNat` on a valid code point round-trips through `toNat`. -/
theorem char_toNat_ofNat (n : Nat) (h : n.isValidChar) :
    (Char.ofNat n).toNat = n := by
  rw [Char.ofNat, dif_pos h]
  rfl

/-- Per-character uppercasing never yields an ASCII lowercase letter. -/
theorem pyUpperChar_not_lower (c : Char) : isLowerCh (pyUpperChar c) = false := by
  unfold pyUpperChar isLowerCh
  split
  · rename_i h
    simp only [Bool.and_eq_true, decide_eq_true_eq] at h
    have hvalid : (c.toNat - 32).isValidChar := Or.inl (by omega)
    rw [char_toNat_ofNat _ hvalid]
    simp only [Bool.and_eq_false_iff, decide_eq_false_iff_not, not_le]
    omega
  · rename_i h
    simp only [Bool.and_eq_true, decide_eq_true_eq, not_and, not_le] at h
    simp only [Bool.and_eq_false_iff, decide_eq_false_iff_not, not_le]
    omega

/-- `value.upper()` yields a string with no ASCII lowercase letter. -/
theorem pyUpper_not_lower (s : String) :
    (pyUpper s).data.any isLowerCh = false := by
  show (s.data.map pyUpperChar).any isLowerCh = false
  rw [List.any_map, List.any_eq_false]
  intro c _
  simp [Function.comp, pyUpperChar_not_lower c]

/-- Cleanliness of entry values as a membership statement. -/
theorem gCleanEntriesB_iff :
    ∀ es : List (String × JValue),
    gCleanEntriesB es = true ↔ ∀ kv ∈ es, gCleanB kv.2 = true := by
  intro es
  induction es with
  | nil => simp [gCleanEntriesB]
  | cons hd tl ih =>
    obtain ⟨k, v⟩ := hd
    rw [gCleanEntriesB]
    simp [Bool.and_eq_true, ih]

/-- Cleanliness of list items as a membership statement. -/
theorem gCleanListB_iff :
    ∀ xs : List JValue,
    gCleanListB xs = true ↔ ∀ x ∈ xs, gCleanB x = true := by
  intro xs
  induction xs with
  | nil => simp [gCleanListB]
  | cons hd tl ih =>
    rw [gCleanListB]
    simp [Bool.and_eq_true, ih]

/-- Cleanliness of an object node as a membership statement. -/
theorem gCleanB_obj (es : List (String × JValue)) :
    gCleanB (JValue.obj es) = true ↔
      ∀ kv ∈ es, gCleanEntryB kv = true ∧ gCleanB kv.2 = true := by
  rw [gCleanB, Bool.and_eq_true, List.all_eq_true, gCleanEntriesB_iff]
  constructor
  · intro h kv hkv
    exact ⟨h.1 kv hkv, h.2 kv hkv⟩
  · intro h
    exact ⟨fun kv hkv => (h kv hkv).1, fun kv hkv => (h kv hkv).2⟩

/-- Cleanliness of an array node as a membership statement. -/
theorem gCleanB_arr (xs : List JValue) :
    gCleanB (JValue.arr xs) = true ↔ ∀ x ∈ xs, gCleanB x = true := by
  rw [gCleanB]
  exact gCleanListB_iff xs

/-- Goodness of entry values as a membership statement. -/
theorem gGoodEntriesB_iff :
    ∀ es : List (String × JValue),
    gGoodEntriesB es = true ↔ ∀ kv ∈ es, gGoodB kv.2 = true := by
  intro es
  induction es with
  | nil => simp [gGoodEntriesB]
  | cons hd tl ih =>
    obtain ⟨k, v⟩ := hd
    rw [gGoodEntriesB]
    simp [Bool.and_eq_true, ih]

/-- Goodness of list items as a membership statement. -/
theorem gGoodListB_iff :
    ∀ xs : List JValue,
    gGoodListB xs = true ↔ ∀ x ∈ xs, gGoodB x = true := by
  intro xs
  induction xs with
  | nil => simp [gGoodListB]
  | cons hd tl ih =>
    rw [gGoodListB]
    simp [Bool.and_eq_true, ih]

/-- Goodness of an object node as a membership statement. -/
theorem gGoodB_obj (es : List (String × JValue)) :
    gGoodB (JValue.obj es) = true ↔
      ∀ kv ∈ es, gGoodEntryB kv = true ∧ gGoodB kv.2 = true := by
  rw [gGoodB, Bool.and_eq_true, List.all_eq_true, gGoodEntriesB_iff]
  constructor
  · intro h kv hkv
    exact ⟨h.1 kv hkv, h.2 kv hkv⟩
  · intro h
    exact ⟨fun kv hkv => (h kv hkv).1, fun kv hkv => (h kv hkv).2⟩

/-- Goodness of an array node as a membership statement. -/
theorem gGoodB_arr (xs : List JValue) :
    gGoodB (JValue.arr xs) = true ↔ ∀ x ∈ xs, gGoodB x = true := by
  rw [gGoodB]
  exact gGoodListB_iff xs

/-- Membership in a Python dict `update` comes from one of the operands. -/
theorem mem_dictUpdate (kv : String × JValue) :
    ∀ (b a : List (String × JValue)), kv ∈ dictUpdate a b → kv ∈ a ∨ kv ∈ b := by
  intro b
  induction b with
  | nil => intro a h; exact Or.inl h
  | cons hd tl ih =>
    intro a h
    rw [dictUpdate, List.foldl_cons] at h
    rcases ih (setItem a hd.1 hd.2) h with h1 | h1
    · rcases mem_setItem kv a hd.1 hd.2 h1 with h2 | h2
      · exact Or.inl h2
      · exact Or.inr (List.mem_cons.mpr (Or.inl (by rw [h2])))
    · exact Or.inr (List.mem_cons_of_mem _ h1)

/-- A resolved `$ref` target is a value of the definitions table. -/
theorem resolveRef_mem (defs : List (String × JValue)) (ref : String)
    (v : JValue) (h : resolveRef defs ref = some v) : ∃ n, (n, v) ∈ defs := by
  rw [resolveRef] at h
  split at h
  · exact ⟨_, lookup_mem _ _ _ h⟩
  · split at h
    · exact ⟨_, lookup_mem _ _ _ h⟩
    · exact absurd h (by simp)

/-- A successful `anyOf` collapse produces a dict node. -/
theorem gCollapse_obj (g : JValue → JValue) (es : List (String × JValue))
    (r : JValue) (h : gCollapse g es = some r) : ∃ bs, r = JValue.obj bs := by
  simp only [gCollapse] at h
  split at h
  · split at h
    · split at h
      · split at h
        · split at h
          · exact ⟨_, (Option.some_inj.mp h).symm⟩
          · exact ⟨_, (Option.some_inj.mp h).symm⟩
        · exact absurd h (by simp)
      · exact absurd h (by simp)
    · exact absurd h (by simp)
  · exact absurd h (by simp)

/-- The no-inlinable-`$ref` half of a dict conversion produces a dict. -/
theorem gconv_dict_shape (g : JValue → JValue) (es : List (String × JValue)) :
    ∃ bs, (gCollapse g es).getD (JValue.obj (gEntries g es)) = JValue.obj bs := by
  cases hcol : gCollapse g es with
  | none => exact ⟨_, rfl⟩
  | some r =>
    obtain ⟨bs, hbs⟩ := gCollapse_obj g es r hcol
    exact ⟨bs, by rw [Option.getD_some, hbs]⟩

/-- `convert` maps dict nodes to dict nodes. -/
theorem gconv_obj_shape (defs : List (String × JValue)) :
    ∀ (f : Nat) (es : List (String × JValue)),
    ∃ bs, gConvert defs f (JValue.obj es) = JValue.obj bs := by
  intro f
  induction f with
  | zero => intro es; exact ⟨es, rfl⟩
  | succ f ih =>
    intro es
    rw [gConvert]
    cases href : List.lookup "$ref" es with
    | none => exact gconv_dict_shape _ es
    | some rv =>
      cases rv with
      | str ref =>
        cases hres : resolveRef defs ref with
        | none => simp only [hres]; exact gconv_dict_shape _ es
        | some tv =>
          cases tv with
          | obj target => simp only [hres]; exact ih _
          | null => simp only [hres]; exact gconv_dict_shape _ es
          | bool b => simp only [hres]; exact gconv_dict_shape _ es
          | num n => simp only [hres]; exact gconv_dict_shape _ es
          | str s => simp only [hres]; exact gconv_dict_shape _ es
          | arr xs => simp only [hres]; exact gconv_dict_shape _ es
      | null => exact gconv_dict_shape _ es
      | bool b => exact gconv_dict_shape _ es
      | num n => exact gconv_dict_shape _ es
      | arr xs => exact gconv_dict_shape _ es
      | obj o => exact gconv_dict_shape _ es

/-- `convert` fixes `null` nodes. -/
theorem gconv_null (defs : List (String × JValue)) :
    ∀ f : Nat, gConvert defs f JValue.null = JValue.null := by
  intro f; cases f <;> rfl

/-- `convert` fixes boolean nodes. -/
theorem gconv_bool (defs : List (String × JValue)) (b : Bool) :
    ∀ f : Nat, gConvert defs f (JValue.bool b) = JValue.bool b := by
  intro f; cases f <;> rfl

/-- `convert` fixes numeric nodes. -/
theorem gconv_num (defs : List (String × JValue)) (n : Int) :
    ∀ f : Nat, gConvert defs f (JValue.num n) = JValue.num n := by
  intro f; cases f <;> rfl

/-- `convert` fixes string nodes. -/
theorem gconv_str (defs : List (String × JValue)) (s : String) :
    ∀ f : Nat, gConvert defs f (JValue.str s) = JValue.str s := by
  intro f; cases f <;> rfl

/-- `convert` maps list nodes to list nodes. -/
theorem gconv_arr_shape (defs : List (String × JValue)) (f : Nat)
    (xs : List JValue) : ∃ ys, gConvert defs f (JValue.arr xs) = JValue.arr ys := by
  cases f with
  | zero => exact ⟨xs, rfl⟩
  | succ f => exact ⟨xs.map (gConvert defs f), rfl⟩

/-- `convert` of a non-string node is not a string. -/
theorem gconv_ne_str (defs : List (String × JValue)) (f : Nat) (w : JValue)
    (hw : ∀ s, w ≠ JValue.str s) : ∀ s, gConvert defs f w ≠ JValue.str s := by
  intro s
  cases w with
  | str s0 => exact absurd rfl (hw s0)
  | null => rw [gconv_null]; simp
  | bool b => rw [gconv_bool]; simp
  | num n => rw [gconv_num]; simp
  | arr xs =>
    obtain ⟨ys, hys⟩ := gconv_arr_shape defs f xs
    rw [hys]; simp
  | obj es =>
    obtain ⟨bs, hbs⟩ := gconv_obj_shape defs f es
    rw [hbs]; simp

/-- A key that survives the strip list differs from the metadata keys. -/
theorem not_strip_ne (k : String) (h : ¬(geminiStripKeys.contains k = true)) :
    (k != "$defs") = true ∧ (k != "$ref") = true := by
  have h1 : k ≠ "$defs" := fun he => h (by subst he; decide)
  have h2 : k ≠ "$ref" := fun he => h (by subst he; decide)
  exact ⟨bne_iff_ne.mpr h1, bne_iff_ne.mpr h2⟩

/-- Local cleanliness of an output entry whose key avoids the metadata keys
and either is not `type` or holds a non-string value. -/
theorem gCleanEntryB_of (k : String) (w : JValue)
    (h1 : (k != "$defs") = true) (h2 : (k != "$ref") = true)
    (h3 : k = "type" → ∀ s, w ≠ JValue.str s) :
    gCleanEntryB (k, w) = true := by
  unfold gCleanEntryB
  rw [h1, h2]
  simp only [Bool.true_and]
  by_cases hk : k = "type"
  · subst hk
    cases w with
    | str s => exact absurd rfl (h3 rfl s)
    | null => simp
    | bool b => simp
    | num n => simp
    | arr xs => simp
    | obj o => simp
  · simp [hk]

/-- When the `anyOf` collapse does not fire, fuel adequacy for a dict node
reduces to fuel adequacy of its entry conversions. -/
theorem gFuelOkDict_entries (okf : JValue → Bool) (g : JValue → JValue)
    (es : List (String × JValue)) (hcol : gCollapse g es = none)
    (h : gFuelOkDict okf g es = true) : gFuelOkEntries okf es = true := by
  simp only [gFuelOkDict] at h
  simp only [gCollapse] at hcol
  split at h
  · rename_i items heq
    rw [heq] at hcol
    simp only [] at hcol
    split at h
    · rename_i hcond
      rw [if_pos hcond] at hcol
      split at h
      · rename_i t hfilt
        rw [hfilt] at hcol
        simp only [] at hcol
        cases hgt : g t with
        | obj bes =>
          exfalso
          cases hd1 : List.lookup "description" es <;>
            cases hd2 : List.lookup "description" bes <;>
              simp [hgt, hd1, hd2] at hcol
        | null =>
          rw [hgt] at h
          rw [Bool.and_eq_true] at h
          exact h.2
        | bool b =>
          rw [hgt] at h
          rw [Bool.and_eq_true] at h
          exact h.2
        | num n =>
          rw [hgt] at h
          rw [Bool.and_eq_true] at h
          exact h.2
        | str s =>
          rw [hgt] at h
          rw [Bool.and_eq_true] at h
          exact h.2
        | arr xs =>
          rw [hgt] at h
          rw [Bool.and_eq_true] at h
          exact h.2
      · exact h
    · exact h
  · exact h

/-- Unpacking the `properties` clause of a good entry. -/
theorem gGoodEntry_props (ps : List (String × JValue))
    (h : gGoodEntryB ("properties", JValue.obj ps) = true) :
    ∀ p ∈ ps, (p.1 != "$defs") = true ∧ (p.1 != "$ref") = true ∧
      (p.1 = "type" → ∀ s, p.2 ≠ JValue.str s) := by
  intro p hp
  simp only [gGoodEntryB] at h
  rw [Bool.and_eq_true] at h
  have h2 := h.2
  simp only [bne_self_eq_false, Bool.false_or] at h2
  have h3 := List.all_eq_true.mp h2 p hp
  rw [Bool.and_eq_true, Bool.and_eq_true] at h3
  refine ⟨h3.1.1, h3.1.2, ?_⟩
  intro hk s hs
  have h4 := h3.2
  rw [hk, hs] at h4
  simp at h4

/-- A good `description` entry holds a string. -/
theorem gGoodEntry_desc (d : JValue)
    (h : gGoodEntryB ("description", d) = true) : ∃ s, d = JValue.str s := by
  simp only [gGoodEntryB] at h
  rw [Bool.and_eq_true] at h
  have h1 := h.1
  simp only [bne_self_eq_false, Bool.false_or] at h1
  cases d with
  | str s => exact ⟨s, rfl⟩
  | null => simp at h1
  | bool b => simp at h1
  | num n => simp at h1
  | arr xs => simp at h1
  | obj o => simp at h1


/-- Unconditional unfolding of `gEntries` at a cons cell. -/
theorem gEntries_cons (g : JValue → JValue) (k : String) (v : JValue)
    (rest : List (String × JValue)) :
    gEntries g ((k, v) :: rest) =
      (if geminiStripKeys.contains k then gEntries g rest
        else if k = "type" then
          match v with
          | .str s =>
            if s = "null" then gEntries g rest
            else (k, JValue.str (pyUpper s)) :: gEntries g rest
          | _ => (k, g v) :: gEntries g rest
        else if k = "properties" then
          match v with
          | .obj ps => (k, JValue.obj (ps.map (fun kv => (kv.1, g kv.2)))) :: gEntries g rest
          | _ => (k, g v) :: gEntries g rest
        else if k = "items" || k = "additionalProperties" then
          (k, g v) :: gEntries g rest
        else if k = "anyOf" || k = "oneOf" || k = "allOf" then
          match v with
          | .arr its => (k, JValue.arr (its.map g)) :: gEntries g rest
          | _ => (k, g v) :: gEntries g rest
        else (k, g v) :: gEntries g rest) := by
  cases v <;> rfl

/-- Unconditional unfolding of `gFuelOkEntries` at a cons cell. -/
theorem gFuelOkEntries_cons (okf : JValue → Bool) (k : String) (v : JValue)
    (rest : List (String × JValue)) :
    gFuelOkEntries okf ((k, v) :: rest) =
      ((if geminiStripKeys.contains k then true
        else if k = "type" then
          (match v with | .str _ => true | _ => okf v)
        else if k = "properties" then
          (match v with | .obj ps => ps.all (fun kv => okf kv.2) | _ => okf v)
        else if k = "items" || k = "additionalProperties" then okf v
        else if k = "anyOf" || k = "oneOf" || k = "allOf" then
          (match v with | .arr its => its.all okf | _ => okf v)
        else okf v) && gFuelOkEntries okf rest) := by
  cases v <;> rfl

/-- Entry-loop cleanliness: every entry produced by `gEntries` from good
entries, with adequate fuel, is clean, provided converted children of good
nodes are clean. -/
theorem gEntries_clean (defs : List (String × JValue)) (f : Nat)
    (ihc : ∀ v, gGoodB v = true → gFuelOk defs f v = true →
      gCleanB (gConvert defs f v) = true) :
    ∀ es : List (String × JValue),
    (∀ kv ∈ es, gGoodEntryB kv = true) →
    (∀ kv ∈ es, gGoodB kv.2 = true) →
    gFuelOkEntries (gFuelOk defs f) es = true →
    ∀ kv ∈ gEntries (gConvert defs f) es,
      gCleanEntryB kv = true ∧ gCleanB kv.2 = true := by
  intro es
  induction es with
  | nil =>
    intro _ _ _ kv hkv
    simp [gEntries] at hkv
  | cons hd tl ih =>
    obtain ⟨k, v⟩ := hd
    intro hge hgv hofe
    rw [gFuelOkEntries_cons, Bool.and_eq_true] at hofe
    obtain ⟨hhead, htail⟩ := hofe
    have hgeh := hge (k, v) (List.mem_cons_self _ _)
    have hgvh : gGoodB v = true := hgv (k, v) (List.mem_cons_self _ _)
    have ihtl := ih (fun kv hkv => hge kv (List.mem_cons_of_mem _ hkv))
      (fun kv hkv => hgv kv (List.mem_cons_of_mem _ hkv)) htail
    intro kv hkv
    by_cases hstrip : geminiStripKeys.contains k = true
    · rw [gEntries_cons, if_pos hstrip] at hkv
      exact ihtl kv hkv
    · have hne := not_strip_ne k hstrip
      by_cases hk : k = "type"
      · subst hk
        cases v with
        | str s =>
          by_cases hnull : s = "null"
          · subst hnull
            exact ihtl kv hkv
          · have hkv2 : kv ∈ (if s = "null" then gEntries (gConvert defs f) tl
                else ("type", JValue.str (pyUpper s)) :: gEntries (gConvert defs f) tl) := hkv
            rw [if_neg hnull] at hkv2
            rcases List.mem_cons.mp hkv2 with rfl | hmem
            · exact ⟨by simp [gCleanEntryB, pyUpper_not_lower], rfl⟩
            · exact ihtl kv hmem
        | null =>
          rcases List.mem_cons.mp hkv with rfl | hmem
          · exact ⟨gCleanEntryB_of "type" _ (by decide) (by decide)
              (fun _ => gconv_ne_str defs f JValue.null (by simp)),
              ihc JValue.null hgvh hhead⟩
          · exact ihtl kv hmem
        | bool b =>
          rcases List.mem_cons.mp hkv with rfl | hmem
          · exact ⟨gCleanEntryB_of "type" _ (by decide) (by decide)
              (fun _ => gconv_ne_str defs f (JValue.bool b) (by simp)),
              ihc (JValue.bool b) hgvh hhead⟩
          · exact ihtl kv hmem
        | num n =>
          rcases List.mem_cons.mp hkv with rfl | hmem
          · exact ⟨gCleanEntryB_of "type" _ (by decide) (by decide)
              (fun _ => gconv_ne_str defs f (JValue.num n) (by simp)),
              ihc (JValue.num n) hgvh hhead⟩
          · exact ihtl kv hmem
        | arr xs =>
          rcases List.mem_cons.mp hkv with rfl | hmem
          · exact ⟨gCleanEntryB_of "type" _ (by decide) (by decide)
              (fun _ => gconv_ne_str defs f (JValue.arr xs) (by simp)),
              ihc (JValue.arr xs) hgvh hhead⟩
          · exact ihtl kv hmem
        | obj o =>
          rcases List.mem_cons.mp hkv with rfl | hmem
          · exact ⟨gCleanEntryB_of "type" _ (by decide) (by decide)
              (fun _ => gconv_ne_str defs f (JValue.obj o) (by simp)),
              ihc (JValue.obj o) hgvh hhead⟩
          · exact ihtl kv hmem
      · by_cases hp : k = "properties"
        · subst hp
          cases v with
          | obj ps =>
            rcases List.mem_cons.mp hkv with rfl | hmem
            · constructor
              · simp [gCleanEntryB]
              · apply (gCleanB_obj _).mpr
                intro q hq
                obtain ⟨p, hpmem, rfl⟩ := List.mem_map.mp hq
                have hcond := gGoodEntry_props ps hgeh p hpmem
                constructor
                · exact gCleanEntryB_of p.1 _ hcond.1 hcond.2.1
                    (fun hpt => gconv_ne_str defs f p.2 (hcond.2.2 hpt))
                · have hgood : gGoodB p.2 = true :=
                    ((gGoodB_obj ps).mp hgvh p hpmem).2
                  have hok : gFuelOk defs f p.2 = true := by
                    have hall2 : List.all ps (fun kv => gFuelOk defs f kv.2) = true := hhead
                    exact List.all_eq_true.mp hall2 p hpmem
                  exact ihc p.2 hgood hok
            · exact ihtl kv hmem
          | null =>
            rcases List.mem_cons.mp hkv with rfl | hmem
            · exact ⟨gCleanEntryB_of "properties" _ (by decide) (by decide)
                (fun h => absurd h (by decide)), ihc JValue.null hgvh hhead⟩
            · exact ihtl kv hmem
          | bool b =>
            rcases List.mem_cons.mp hkv with rfl | hmem
            · exact ⟨gCleanEntryB_of "properties" _ (by decide) (by decide)
                (fun h => absurd h (by decide)), ihc (JValue.bool b) hgvh hhead⟩
            · exact ihtl kv hmem
          | num n =>
            rcases List.mem_cons.mp hkv with rfl | hmem
            · exact ⟨gCleanEntryB_of "properties" _ (by decide) (by decide)
                (fun h => absurd h (by decide)), ihc (JValue.num n) hgvh hhead⟩
            · exact ihtl kv hmem
          | str s =>
            rcases List.mem_cons.mp hkv with rfl | hmem
            · exact ⟨gCleanEntryB_of "properties" _ (by decide) (by decide)
                (fun h => absurd h (by decide)), ihc (JValue.str s) hgvh hhead⟩
            · exact ihtl kv hmem
          | arr xs =>
            rcases List.mem_cons.mp hkv with rfl | hmem
            · exact ⟨gCleanEntryB_of "properties" _ (by decide) (by decide)
                (fun h => absurd h (by decide)), ihc (JValue.arr xs) hgvh hhead⟩
            · exact ihtl kv hmem
        · by_cases hki : k = "items"
          · subst hki
            rcases List.mem_cons.mp hkv with rfl | hmem
            · exact ⟨gCleanEntryB_of "items" _ (by decide) (by decide)
                (fun h => absurd h (by decide)), ihc v hgvh hhead⟩
            · exact ihtl kv hmem
          · by_cases hka : k = "additionalProperties"
            · subst hka
              rcases List.mem_cons.mp hkv with rfl | hmem
              · exact ⟨gCleanEntryB_of "additionalProperties" _ (by decide)
                  (by decide) (fun h => absurd h (by decide)), ihc v hgvh hhead⟩
              · exact ihtl kv hmem
            · by_cases hany : k = "anyOf"
              · subst hany
                cases v with
                | arr its =>
                  rcases List.mem_cons.mp hkv with rfl | hmem
                  · constructor
                    · exact gCleanEntryB_of "anyOf" _ (by decide) (by decide)
                        (fun h => absurd h (by decide))
                    · apply (gCleanB_arr _).mpr
                      intro y hy
                      obtain ⟨x, hx, rfl⟩ := List.mem_map.mp hy
                      have hgood := (gGoodB_arr its).mp hgvh x hx
                      have hok : gFuelOk defs f x = true := by
                        have hall2 : List.all its (gFuelOk defs f) = true := hhead
                        exact List.all_eq_true.mp hall2 x hx
                      exact ihc x hgood hok
                  · exact ihtl kv hmem
                | null =>
                  rcases List.mem_cons.mp hkv with rfl | hmem
                  · exact ⟨gCleanEntryB_of "anyOf" _ (by decide) (by decide)
                      (fun h => absurd h (by decide)), ihc JValue.null hgvh hhead⟩
                  · exact ihtl kv hmem
                | bool b =>
                  rcases List.mem_cons.mp hkv with rfl | hmem
                  · exact ⟨gCleanEntryB_of "anyOf" _ (by decide) (by decide)
                      (fun h => absurd h (by decide)), ihc (JValue.bool b) hgvh hhead⟩
                  · exact ihtl kv hmem
                | num n =>
                  rcases List.mem_cons.mp hkv with rfl | hmem
                  · exact ⟨gCleanEntryB_of "anyOf" _ (by decide) (by decide)
                      (fun h => absurd h (by decide)), ihc (JValue.num n) hgvh hhead⟩
                  · exact ihtl kv hmem
                | str s =>
                  rcases List.mem_cons.mp hkv with rfl | hmem
                  · exact ⟨gCleanEntryB_of "anyOf" _ (by decide) (by decide)
                      (fun h => absurd h (by decide)), ihc (JValue.str s) hgvh hhead⟩
                  · exact ihtl kv hmem
                | obj o =>
                  rcases List.mem_cons.mp hkv with rfl | hmem
                  · exact ⟨gCleanEntryB_of "anyOf" _ (by decide) (by decide)
                      (fun h => absurd h (by decide)), ihc (JValue.obj o) hgvh hhead⟩
                  · exact ihtl kv hmem
              · by_cases honeOf : k = "oneOf"
                · subst honeOf
                  cases v with
                  | arr its =>
                    rcases List.mem_cons.mp hkv with rfl | hmem
                    · constructor
                      · exact gCleanEntryB_of "oneOf" _ (by decide) (by decide)
                          (fun h => absurd h (by decide))
                      · apply (gCleanB_arr _).mpr
                        intro y hy
                        obtain ⟨x, hx, rfl⟩ := List.mem_map.mp hy
                        have hgood := (gGoodB_arr its).mp hgvh x hx
                        have hok : gFuelOk defs f x = true := by
                          have hall2 : List.all its (gFuelOk defs f) = true := hhead
                          exact List.all_eq_true.mp hall2 x hx
                        exact ihc x hgood hok
                    · exact ihtl kv hmem
                  | null =>
                    rcases List.mem_cons.mp hkv with rfl | hmem
                    · exact ⟨gCleanEntryB_of "oneOf" _ (by decide) (by decide)
                        (fun h => absurd h (by decide)), ihc JValue.null hgvh hhead⟩
                    · exact ihtl kv hmem
                  | bool b =>
                    rcases List.mem_cons.mp hkv with rfl | hmem
                    · exact ⟨gCleanEntryB_of "oneOf" _ (by decide) (by decide)
                        (fun h => absurd h (by decide)), ihc (JValue.bool b) hgvh hhead⟩
                    · exact ihtl kv hmem
                  | num n =>
                    rcases List.mem_cons.mp hkv with rfl | hmem
                    · exact ⟨gCleanEntryB_of "oneOf" _ (by decide) (by decide)
                        (fun h => absurd h (by decide)), ihc (JValue.num n) hgvh hhead⟩
                    · exact ihtl kv hmem
                  | str s =>
                    rcases List.mem_cons.mp hkv with rfl | hmem
                    · exact ⟨gCleanEntryB_of "oneOf" _ (by decide) (by decide)
                        (fun h => absurd h (by decide)), ihc (JValue.str s) hgvh hhead⟩
                    · exact ihtl kv hmem
                  | obj o =>
                    rcases List.mem_cons.mp hkv with rfl | hmem
                    · exact ⟨gCleanEntryB_of "oneOf" _ (by decide) (by decide)
                        (fun h => absurd h (by decide)), ihc (JValue.obj o) hgvh hhead⟩
                    · exact ihtl kv hmem
                · by_cases hallOf : k = "allOf"
                  · subst hallOf
                    cases v with
                    | arr its =>
                      rcases List.mem_cons.mp hkv with rfl | hmem
                      · constructor
                        · exact gCleanEntryB_of "allOf" _ (by decide) (by decide)
                            (fun h => absurd h (by decide))
                        · apply (gCleanB_arr _).mpr
                          intro y hy
                          obtain ⟨x, hx, rfl⟩ := List.mem_map.mp hy
                          have hgood := (gGoodB_arr its).mp hgvh x hx
                          have hok : gFuelOk defs f x = true := by
                            have hall2 : List.all its (gFuelOk defs f) = true := hhead
                            exact List.all_eq_true.mp hall2 x hx
                          exact ihc x hgood hok
                      · exact ihtl kv hmem
                    | null =>
                      rcases List.mem_cons.mp hkv with rfl | hmem
                      · exact ⟨gCleanEntryB_of "allOf" _ (by decide) (by decide)
                          (fun h => absurd h (by decide)), ihc JValue.null hgvh hhead⟩
                      · exact ihtl kv hmem
                    | bool b =>
                      rcases List.mem_cons.mp hkv with rfl | hmem
                      · exact ⟨gCleanEntryB_of "allOf" _ (by decide) (by decide)
                          (fun h => absurd h (by decide)), ihc (JValue.bool b) hgvh hhead⟩
                      · exact ihtl kv hmem
                    | num n =>
                      rcases List.mem_cons.mp hkv with rfl | hmem
                      · exact ⟨gCleanEntryB_of "allOf" _ (by decide) (by decide)
                          (fun h => absurd h (by decide)), ihc (JValue.num n) hgvh hhead⟩
                      · exact ihtl kv hmem
                    | str s =>
                      rcases List.mem_cons.mp hkv with rfl | hmem
                      · exact ⟨gCleanEntryB_of "allOf" _ (by decide) (by decide)
                          (fun h => absurd h (by decide)), ihc (JValue.str s) hgvh hhead⟩
                      · exact ihtl kv hmem
                    | obj o =>
                      rcases List.mem_cons.mp hkv with rfl | hmem
                      · exact ⟨gCleanEntryB_of "allOf" _ (by decide) (by decide)
                          (fun h => absurd h (by decide)), ihc (JValue.obj o) hgvh hhead⟩
                      · exact ihtl kv hmem
                  · rw [gEntries_cons, if_neg hstrip, if_neg hk, if_neg hp] at hkv
                    have hia : ¬((k = "items" || k = "additionalProperties") = true) := by
                      simp [hki, hka]
                    rw [if_neg hia] at hkv
                    have hao : ¬((k = "anyOf" || k = "oneOf" || k = "allOf") = true) := by
                      simp [hany, honeOf, hallOf]
                    rw [if_neg hao] at hkv
                    rcases List.mem_cons.mp hkv with rfl | hmem
                    · refine ⟨gCleanEntryB_of k _ hne.1 hne.2
                        (fun h => absurd h hk), ?_⟩
                      rw [if_neg hstrip, if_neg hk, if_neg hp, if_neg hia,
                        if_neg hao] at hhead
                      exact ihc v hgvh hhead
                    · exact ihtl kv hmem

/-- Dict conversion without an inlinable `$ref` is clean: either the
nullable collapse fires and decorates a clean converted branch, or the
entry loop runs. -/
theorem gconv_clean_dict (defs : List (String × JValue)) (f : Nat)
    (ih : ∀ v, gGoodB v = true → gFuelOk defs f v = true →
      gCleanB (gConvert defs f v) = true)
    (es : List (String × JValue))
    (hge : ∀ kv ∈ es, gGoodEntryB kv = true)
    (hgv : ∀ kv ∈ es, gGoodB kv.2 = true)
    (hok : gFuelOkDict (gFuelOk defs f) (gConvert defs f) es = true) :
    gCleanB ((gCollapse (gConvert defs f) es).getD
      (JValue.obj (gEntries (gConvert defs f) es))) = true := by
  cases hcol : gCollapse (gConvert defs f) es with
  | none =>
    have hofe := gFuelOkDict_entries _ _ es hcol hok
    exact (gCleanB_obj _).mpr (gEntries_clean defs f ih es hge hgv hofe)
  | some r =>
    show gCleanB r = true
    simp only [gCollapse] at hcol
    split at hcol
    · rename_i items heq
      split at hcol
      · rename_i hcond
        split at hcol
        · rename_i t hfilt
          split at hcol
          · rename_i bes hgt
            have hokt : gFuelOk defs f t = true := by
              simp only [gFuelOkDict] at hok
              simp only [heq] at hok
              rw [if_pos hcond] at hok
              simp only [hfilt] at hok
              rw [Bool.and_eq_true] at hok
              exact hok.1
            have htf : t ∈ List.filter (fun it => !isNullTypeNode it) items := by
              rw [hfilt]
              exact List.mem_cons_self t []
            have ht_good : gGoodB t = true :=
              (gGoodB_arr items).mp (hgv _ (lookup_mem _ _ _ heq)) t
                (List.mem_filter.mp htf).1
            have hbclean : gCleanB (JValue.obj bes) = true := by
              have h0 := ih t ht_good hokt
              rw [hgt] at h0
              exact h0
            cases hd1 : List.lookup "description" es with
            | none =>
              simp only [hd1] at hcol
              have hr := Option.some_inj.mp hcol
              subst hr
              apply (gCleanB_obj _).mpr
              intro kv hkv
              rcases mem_setItem kv bes _ _ hkv with h2 | h2
              · exact (gCleanB_obj bes).mp hbclean kv h2
              · rw [h2]
                exact ⟨by simp [gCleanEntryB], rfl⟩
            | some d =>
              cases hd2 : List.lookup "description" bes with
              | none =>
                simp only [hd1, hd2] at hcol
                obtain ⟨s, rfl⟩ := gGoodEntry_desc d (hge _ (lookup_mem _ _ _ hd1))
                have hr := Option.some_inj.mp hcol
                subst hr
                apply (gCleanB_obj _).mpr
                intro kv hkv
                rcases mem_setItem kv _ _ _ hkv with h1 | h1
                · rcases mem_setItem kv bes _ _ h1 with h2 | h2
                  · exact (gCleanB_obj bes).mp hbclean kv h2
                  · rw [h2]
                    exact ⟨by simp [gCleanEntryB], rfl⟩
                · rw [h1]
                  exact ⟨by simp [gCleanEntryB], rfl⟩
              | some d2 =>
                simp only [hd1, hd2] at hcol
                have hr := Option.some_inj.mp hcol
                subst hr
                apply (gCleanB_obj _).mpr
                intro kv hkv
                rcases mem_setItem kv bes _ _ hkv with h2 | h2
                · exact (gCleanB_obj bes).mp hbclean kv h2
                · rw [h2]
                  exact ⟨by simp [gCleanEntryB], rfl⟩
          · exact absurd hcol (by simp)
        · exact absurd hcol (by simp)
      · exact absurd hcol (by simp)
    · exact absurd hcol (by simp)

/-- Main cleanliness induction: `convert` of a good node, under a good
definitions table, with fuel that never reaches the depth cutoff, yields a
value with no `$defs` key, no `$ref` key, and no lowercase `type` string. -/
theorem gconv_clean (defs : List (String × JValue))
    (hdefs : ∀ kv ∈ defs, gGoodB kv.2 = true) :
    ∀ (f : Nat) (v : JValue), gGoodB v = true → gFuelOk defs f v = true →
    gCleanB (gConvert defs f v) = true := by
  intro f
  induction f with
  | zero =>
    intro v _ hok
    rw [gFuelOk] at hok
    exact absurd hok (by simp)
  | succ f ih =>
    intro v hg hok
    cases v with
    | null => exact rfl
    | bool b => exact rfl
    | num n => exact rfl
    | str s => exact rfl
    | arr xs =>
      have hok2 : List.all xs (gFuelOk defs f) = true := hok
      show gCleanB (JValue.arr (xs.map (gConvert defs f))) = true
      apply (gCleanB_arr _).mpr
      intro y hy
      obtain ⟨x, hx, rfl⟩ := List.mem_map.mp hy
      exact ih x ((gGoodB_arr xs).mp hg x hx) (List.all_eq_true.mp hok2 x hx)
    | obj es =>
      have hge := fun kv h => ((gGoodB_obj es).mp hg kv h).1
      have hgv := fun kv h => ((gGoodB_obj es).mp hg kv h).2
      rw [gConvert]
      rw [gFuelOk] at hok
      cases href : List.lookup "$ref" es with
      | none =>
        rw [href] at hok
        exact gconv_clean_dict defs f ih es hge hgv hok
      | some rv =>
        rw [href] at hok
        cases rv with
        | str ref =>
          cases hres : resolveRef defs ref with
          | none =>
            simp only [hres]
            simp only [hres] at hok
            exact gconv_clean_dict defs f ih es hge hgv hok
          | some tv =>
            cases tv with
            | obj target =>
              simp only [hres, Option.getD_some]
              simp only [hres, Option.getD_some] at hok
              apply ih
              · apply (gGoodB_obj _).mpr
                intro kv hkv
                rcases mem_dictUpdate kv _ _ hkv with h1 | h1
                · obtain ⟨n, hnmem⟩ := resolveRef_mem defs ref _ hres
                  exact (gGoodB_obj target).mp
                    (hdefs (n, JValue.obj target) hnmem) kv h1
                · exact (gGoodB_obj es).mp hg kv (List.mem_filter.mp h1).1
              · exact hok
            | null =>
              simp only [hres]
              simp only [hres] at hok
              exact gconv_clean_dict defs f ih es hge hgv hok
            | bool b =>
              simp only [hres]
              simp only [hres] at hok
              exact gconv_clean_dict defs f ih es hge hgv hok
            | num n =>
              simp only [hres]
              simp only [hres] at hok
              exact gconv_clean_dict defs f ih es hge hgv hok
            | str s =>
              simp only [hres]
              simp only [hres] at hok
              exact gconv_clean_dict defs f ih es hge hgv hok
            | arr xs =>
              simp only [hres]
              simp only [hres] at hok
              exact gconv_clean_dict defs f ih es hge hgv hok
        | null => exact gconv_clean_dict defs f ih es hge hgv hok
        | bool b => exact gconv_clean_dict defs f ih es hge hgv hok
        | num n => exact gconv_clean_dict defs f ih es hge hgv hok
        | arr xs => exact gconv_clean_dict defs f ih es hge hgv hok
        | obj o => exact gconv_clean_dict defs f ih es hge hgv hok

/-- Collapse equation for `convert` on a dict node whose keys all pass
through, whose `anyOf` holds exactly one non-null branch converting to a
dict, and which carries no `$ref`. -/
theorem gconv_collapse_eq (defs : List (String × JValue)) (f : Nat)
    (es : List (String × JValue)) (items : List JValue) (t : JValue)
    (bes : List (String × JValue))
    (href : List.lookup "$ref" es = none)
    (hanyof : List.lookup "anyOf" es = some (JValue.arr items))
    (hnull : items.any isNullTypeNode = true)
    (hfilt : items.filter (fun it => !isNullTypeNode it) = [t])
    (hpass : es.all (fun kv => geminiPassthroughKeys.contains kv.1) = true)
    (hbes : gConvert defs f t = JValue.obj bes) :
    gConvert defs (f + 1) (JValue.obj es) =
      (match List.lookup "description" es, List.lookup "description" bes with
        | some d, none =>
          JValue.obj (setItem (setItem bes "nullable" (JValue.bool true))
            "description" d)
        | _, _ => JValue.obj (setItem bes "nullable" (JValue.bool true))) := by
  have hcol : gCollapse (gConvert defs f) es =
      some (match List.lookup "description" es,
          List.lookup "description" bes with
        | some d, none =>
          JValue.obj (setItem (setItem bes "nullable" (JValue.bool true))
            "description" d)
        | _, _ => JValue.obj (setItem bes "nullable" (JValue.bool true))) := by
    have hcond : (items.any isNullTypeNode
        && es.all (fun kv => geminiPassthroughKeys.contains kv.1)) = true := by
      rw [hnull, hpass]
      rfl
    simp only [gCollapse, hanyof]
    rw [if_pos hcond]
    simp only [hfilt, hbes]
    cases List.lookup "description" es <;> cases List.lookup "description" bes <;> rfl
  rw [gConvert, href]
  rw [hcol]
  rfl

set_option maxRecDepth 10000 in
/-- C7: the claim is false as stated.  On a well-formed schema with a
recursive `$defs`/`$ref` definition the translation keeps a raw `$ref` key
and a raw lowercase `"type": "array"` node (the depth-80 cutoff returns
nodes unconverted), keeps a `$defs` key (a property literally named
`$defs` is copied verbatim by the `properties` branch), and leaves a
two-branch `[T, null]` `anyOf` uncollapsed and without `nullable` when a
non-passthrough sibling key (`minLength`) is present. -/
theorem C7_gemini_translation_counterexample :
    JValue.wfB c7cx = true ∧
    hasKeyB "$ref" (toGeminiSchema c7cx) = true ∧
    hasKeyB "$defs" (toGeminiSchema c7cx) = true ∧
    hasLowerTypeB (toGeminiSchema c7cx) = true ∧
    (lookupPath (toGeminiSchema c7cx) ["properties", "maybe", "anyOf"]).isSome
      = true ∧
    (lookupPath (toGeminiSchema c7cx) ["properties", "maybe", "nullable"]).isSome
      = false := by
  refine ⟨by decide, by decide, by decide, by decide, by decide, by decide⟩

/-- C7 (amended): for every schema whose `description` entries are strings
and whose property names avoid the `$defs`/`$ref` metadata keys (and do not
pair a name `type` with a string value) - including every value of its
definitions table - and which converts without ever reaching the depth-80
cutoff, the Gemini-shaped translation contains no `$defs` key, no `$ref`
key, and no `type` entry holding a lowercase string; and every dict node
without `$ref` whose keys all pass through, whose `anyOf` holds exactly one
non-null branch `T` next to null-typed branches, and whose `T` converts to
a dict, is collapsed to the converted `T` augmented with `nullable: true`
(plus the node's `description` when the converted branch lacks one). -/
theorem C7_gemini_translation_amended :
    (∀ schema : JValue,
      gGoodB schema = true →
      (∀ kv ∈ geminiDefs schema, gGoodB kv.2 = true) →
      gFuelOk (geminiDefs schema) 81 schema = true →
      gCleanB (toGeminiSchema schema) = true) ∧
    (∀ (defs : List (String × JValue)) (f : Nat)
        (es : List (String × JValue)) (items : List JValue) (t : JValue)
        (bes : List (String × JValue)),
      List.lookup "$ref" es = none →
      List.lookup "anyOf" es = some (JValue.arr items) →
      items.any isNullTypeNode = true →
      items.filter (fun it => !isNullTypeNode it) = [t] →
      es.all (fun kv => geminiPassthroughKeys.contains kv.1) = true →
      gConvert defs f t = JValue.obj bes →
      gConvert defs (f + 1) (JValue.obj es) =
        (match List.lookup "description" es,
            List.lookup "description" bes with
          | some d, none =>
            JValue.obj (setItem (setItem bes "nullable" (JValue.bool true))
              "description" d)
          | _, _ => JValue.obj (setItem bes "nullable" (JValue.bool true)))) := by
  constructor
  · intro schema hgood hdefs hfuel
    have hclean := gconv_clean (geminiDefs schema) hdefs 81 schema hgood hfuel
    rw [toGeminiSchema]
    cases hconv : gConvert (geminiDefs schema) 81 schema with
    | obj es =>
      rw [hconv] at hclean
      exact hclean
    | null => exact rfl
    | bool b => exact rfl
    | num n => exact rfl
    | str s => exact rfl
    | arr xs => exact rfl
  · intro defs f es items t bes href hanyof hnull hfilt hpass hbes
    exact gconv_collapse_eq defs f es items t bes href hanyof hnull hfilt hpass hbes

/-- Witness: the amended statement applies to a concrete schema with a
`$defs`/`$ref` reference, and collapses a concrete `[T, null]` `anyOf`. -/
theorem C7_gemini_translation_amended_witness :
    gCleanB (toGeminiSchema c7wit) = true ∧
    gConvert [] 2 (JValue.obj [("anyOf", JValue.arr
        [JValue.obj [("type", JValue.str "string")],
         JValue.obj [("type", JValue.str "null")]])]) =
      JValue.obj [("type", JValue.str "STRING"), ("nullable", JValue.bool true)] :=
  ⟨C7_gemini_translation_amended.1 c7wit (by decide)
     (by intro kv hkv; fin_cases hkv <;> decide) (by decide),
   C7_gemini_translation_amended.2 [] 1
     [("anyOf", JValue.arr
        [JValue.obj [("type", JValue.str "string")],
         JValue.obj [("type", JValue.str "null")]])]
     [JValue.obj [("type", JValue.str "string")],
      JValue.obj [("type", JValue.str "null")]]
     (JValue.obj [("type", JValue.str "string")])
     [("type", JValue.str "STRING")]
     rfl rfl (by decide) rfl (by decide) rfl⟩

end QuizMe
